import Mathlib

/-! Pattern analysis and prediction ensemble (agente-guacharo-ai).

A shallow embedding of `backend/ai/predictionEngine.js`, of
`backend/ai/patternAnalyzer.js` and of `getDateRange` of
`backend/models/Results.js`, with the properties of the specification proved
about it.

Modelling conventions.

* A JavaScript number is a rational (`ℚ`), an integer-valued one an `ℤ`.
  Where the value of an expression depends on the rounding of binary64
  arithmetic, every operation carries its rounding explicitly (`fl`, `mul64`,
  `add64`): the confidence of `detectCycle`, the score of
  `calculateTemporalPredictions` and the sums and the final rounding of the
  combiner (`combineAlgorithmResults64`).
* `Math.round` is `mathRound`: the nearest integer, a tie going up.
* A plain JS object used as a dictionary keyed by symbol names is the list of
  its own entries in creation order.  In the combiner in binary64 and in the
  temporal algorithm the model covers every symbol name: `Object.values` and
  `Object.keys` list the keys that are array indices first (`objectOrder`), and
  a name of a member of `Object.prototype` finds the inherited member instead
  of an entry.  The combiner in exact arithmetic (`combineAlgorithmResults`)
  and the other dictionaries are stated for names that are neither.
* `Array.prototype.sort` is stable; with the comparator
  `(a, b) => b.probability - a.probability` it is the stable sort by
  descending probability, `List.insertionSort` here.
* A `moment` is its local wall-clock time in milliseconds; a `'YYYY-MM-DD'`
  string is the number of its calendar day.
* A query of the history store is the outcome of its promise: `error` for a
  rejection, `ok` for the rows it resolves with.  A `try`/`catch` is a function
  into `Except` for the `try` block and a `match` on its result.
-/

namespace Guacharo

/-! ## Numbers -/

/-- JS `Math.round`: the nearest integer, a tie rounded towards `+∞`. -/
def mathRound (x : ℚ) : ℤ := ⌊x + 1 / 2⌋

/-- The expression `Math.round(x * 100) / 100` of the source. -/
def roundTwoDecimals (x : ℚ) : ℚ := (mathRound (x * 100) : ℚ) / 100

/-- Rounding to the nearest integer with a tie going to the even neighbour, the
rounding of a binary64 significand. -/
def roundHalfEven (q : ℚ) : ℤ :=
  if q - ⌊q⌋ < 1 / 2 then ⌊q⌋
  else if 1 / 2 < q - ⌊q⌋ then ⌊q⌋ + 1
  else if ⌊q⌋ % 2 = 0 then ⌊q⌋ else ⌊q⌋ + 1

/-- The binary64 exponent of a non-zero rational: `⌊log₂ |x|⌋`, not below the
exponent `-1022` of the subnormal numbers. -/
def binadeOf (x : ℚ) : ℤ := max (Int.log 2 |x|) (-1022)

/-- The IEEE 754 binary64 value nearest to a rational (round to nearest, ties to
even; 53 significant bits), the value a JS arithmetic operation returns for the
exact result `x`. Overflow to `Infinity` (beyond `2 ^ 1024`) is not represented. -/
def fl (x : ℚ) : ℚ :=
  if x = 0 then 0
  else (roundHalfEven (x / 2 ^ (binadeOf x - 52)) : ℚ) * 2 ^ (binadeOf x - 52)

/-- The product `x * y` of two numbers in binary64 (a number that is no double,
such as the literal `0.15`, stands for the double nearest to it). -/
def mul64 (x y : ℚ) : ℚ := fl (fl x * fl y)

/-- The sum `x + y` of two doubles in binary64. -/
def add64 (x y : ℚ) : ℚ := fl (x + y)

/-! ## Plain objects used as dictionaries -/

/-- The property names every plain object inherits from `Object.prototype`. For
such a name `dict[name]` is truthy (a function, or the prototype itself) before
any entry was created. -/
def objectPrototypeKeys : List String :=
  ["constructor", "__defineGetter__", "__defineSetter__", "hasOwnProperty",
    "__lookupGetter__", "__lookupSetter__", "isPrototypeOf", "propertyIsEnumerable",
    "toString", "valueOf", "__proto__", "toLocaleString"]

/-- The number written by a string of decimal digits, `none` if a character is no digit. -/
def digitsValue? (cs : List Char) : Option ℕ :=
  cs.foldl
    (fun acc c => acc.bind fun n => if c.isDigit then some (n * 10 + (c.toNat - 48)) else none)
    (some 0)

/-- The array index a property key stands for, if any: the key is the decimal
form `toString n` (no sign, no leading zero) of an integer `n` below `2 ^ 32 - 1`. -/
def arrayIndex? (key : String) : Option ℕ :=
  match digitsValue? key.data with
  | some n => if toString n = key ∧ n < 2 ^ 32 - 1 then some n else none
  | none => none

/-- The order in which `Object.keys` and `Object.values` list the own properties
of an object whose properties were created in the order given: the properties
whose key is an array index, in ascending numeric order, then the others in
creation order. -/
def objectOrder {α : Type} (key : α → String) (entries : List α) : List α :=
  (entries.filter fun e => (arrayIndex? (key e)).isSome).insertionSort
      (fun a b => (arrayIndex? (key a)).getD 0 ≤ (arrayIndex? (key b)).getD 0) ++
    entries.filter fun e => (arrayIndex? (key e)).isNone

/-! ## Candidates and the ensemble combiner

The combiner is embedded twice. `combineAlgorithmResults` evaluates the sums in
exact arithmetic over a dictionary in creation order; it serves the statement
on a single algorithm's list. `combineAlgorithmResults64` further down follows
the source operation by operation in binary64 and over arbitrary symbol names. -/

/-- One algorithm's scored guess, the objects pushed by the five algorithms. -/
structure Prediction where
  animal : String
  probability : ℚ
  algorithm : String
  confidence : ℚ
  reason : String
deriving DecidableEq, Repr

/-- One element of the array handed to `combineAlgorithmResults`. -/
structure AlgorithmResult where
  results : List Prediction
  weight : ℚ
deriving DecidableEq, Repr

/-- An entry of the `combined` dictionary and of the ranked forecast. -/
structure CombinedPrediction where
  animal : String
  probability : ℚ
  confidence : ℚ
  reasons : List String
  algorithms : List String
deriving DecidableEq, Repr

/-- The entry created for an animal the dictionary does not hold yet: zero sums, empty lists. -/
def CombinedPrediction.fresh (animal : String) : CombinedPrediction :=
  { animal := animal, probability := 0, confidence := 0, reasons := [], algorithms := [] }

/-- The four updates of `combined[prediction.animal]` made for one prediction, the
sums taken exactly. -/
def CombinedPrediction.accumulate (c : CombinedPrediction) (prediction : Prediction)
    (weight : ℚ) : CombinedPrediction :=
  { c with
    probability := c.probability + prediction.probability * weight
    confidence := c.confidence + prediction.confidence * weight
    reasons := c.reasons ++ [prediction.reason]
    algorithms := c.algorithms ++ [prediction.algorithm] }

/-- Body of the inner `forEach` of `combineAlgorithmResults`: create the entry of
the prediction's animal when the dictionary has none, then update it. The
dictionary is the list of its values in insertion order. -/
def addPrediction (weight : ℚ) (combined : List CombinedPrediction)
    (prediction : Prediction) : List CombinedPrediction :=
  let combined1 :=
    if combined.any (fun c => c.animal == prediction.animal) then combined
    else combined ++ [CombinedPrediction.fresh prediction.animal]
  combined1.map fun c =>
    if c.animal = prediction.animal then c.accumulate prediction weight else c

/-- The `.map(pred => ...)` step: probability to two decimals, confidence to an integer. -/
def roundEntry (pred : CombinedPrediction) : CombinedPrediction :=
  { pred with
    probability := roundTwoDecimals pred.probability
    confidence := (mathRound pred.confidence : ℚ) }

/-- The order `.sort((a, b) => b.probability - a.probability)` sorts by. -/
def byProbabilityDesc (a b : CombinedPrediction) : Prop := b.probability ≤ a.probability

instance : DecidableRel byProbabilityDesc := fun a b =>
  inferInstanceAs (Decidable (b.probability ≤ a.probability))

/-- The dictionary `combined` after both `forEach` loops. -/
def combinedAfter (algorithmResults : List AlgorithmResult) : List CombinedPrediction :=
  algorithmResults.foldl
    (fun combined ar => ar.results.foldl (addPrediction ar.weight) combined) []

/-- `combineAlgorithmResults` of `predictionEngine.js` in exact arithmetic, for
symbols that are neither array indices nor named like a member of
`Object.prototype`. -/
def combineAlgorithmResults (algorithmResults : List AlgorithmResult) :
    List CombinedPrediction :=
  ((combinedAfter algorithmResults).map roundEntry).insertionSort byProbabilityDesc


/-! ### Specification-side vocabulary for the combiner -/

/-- Every candidate of every algorithm with the weight of its algorithm, in the
order the two nested `forEach` loops visit them. -/
def weightedCandidates (algorithmResults : List AlgorithmResult) : List (Prediction × ℚ) :=
  algorithmResults.flatMap fun ar => ar.results.map fun p => (p, ar.weight)

/-- The weighted candidates of one symbol, in the order they are encountered. -/
def candidatesOf (l : List (Prediction × ℚ)) (s : String) : List (Prediction × ℚ) :=
  l.filter fun pw => pw.1.animal = s

/-- The symbols of the candidates, in the order the loops meet them (with repeats). -/
def seenSymbols (algorithmResults : List AlgorithmResult) : List String :=
  (weightedCandidates algorithmResults).map fun pw => pw.1.animal

/-- The distinct elements of a list in the order of their first occurrence. -/
def firstSeen (names : List String) : List String :=
  names.foldl (fun acc a => if a ∈ acc then acc else acc ++ [a]) []

/-- The unrounded entry the specification assigns to a symbol: weighted sums and
the rationale and tag lists of the symbol's candidates. -/
def entryOf (l : List (Prediction × ℚ)) (s : String) : CombinedPrediction :=
  { animal := s
    probability := ((candidatesOf l s).map fun pw => pw.1.probability * pw.2).sum
    confidence := ((candidatesOf l s).map fun pw => pw.1.confidence * pw.2).sum
    reasons := (candidatesOf l s).map fun pw => pw.1.reason
    algorithms := (candidatesOf l s).map fun pw => pw.1.algorithm }

/-! ### Concrete inputs for the combiner -/

/-- The inverse-frequency candidate of an animal absent from the recent window. -/
def absentCandidate : Prediction :=
  { animal := "Delfin", probability := 97 / 50, algorithm := "inverse_frequency",
    confidence := 70, reason := "Baja frecuencia reciente: 0 apariciones" }

/-- The five weighted lists of `generatePredictions` when only the inverse-frequency
algorithm produced a candidate. -/
def onlyInverseFrequency : List AlgorithmResult :=
  [⟨[absentCandidate], 1 / 4⟩, ⟨[], 1 / 5⟩, ⟨[], 3 / 20⟩, ⟨[], 1 / 4⟩, ⟨[], 3 / 20⟩]

/-- The forecast entry of that animal: 1.94 * 0.25 = 0.485 rounded to 0.49, and
70 * 0.25 = 17.5 rounded to 18. -/
def combinedAbsent : CombinedPrediction :=
  { animal := "Delfin", probability := 49 / 100, confidence := 18,
    reasons := ["Baja frecuencia reciente: 0 apariciones"],
    algorithms := ["inverse_frequency"] }

/-! ## The combiner in binary64, over arbitrary symbol names

`combineAlgorithmResults64` follows `combineAlgorithmResults` of the source
operation by operation: every product and every `+=` is rounded to binary64,
`Object.values` lists the keys that are array indices first, and a symbol named
like a member of `Object.prototype` makes the function throw (for such a name
no entry is created, and `combined[name].reasons` is `undefined`). -/

/-- The order of `Object.values(combined)` when the entries of `combined` were
created in the order given. -/
def objectValuesOrder (combined : List CombinedPrediction) : List CombinedPrediction :=
  objectOrder (fun c => c.animal) combined

/-- The four updates of `combined[prediction.animal]` made for one prediction, in binary64. -/
def CombinedPrediction.accumulate64 (c : CombinedPrediction) (prediction : Prediction)
    (weight : ℚ) : CombinedPrediction :=
  { c with
    probability := add64 c.probability (mul64 prediction.probability weight)
    confidence := add64 c.confidence (mul64 prediction.confidence weight)
    reasons := c.reasons ++ [prediction.reason]
    algorithms := c.algorithms ++ [prediction.algorithm] }

/-- Body of the inner `forEach` of `combineAlgorithmResults` on the dictionary
`combined` (the list of its own entries in creation order). For a symbol named
like a member of `Object.prototype` the statement
`combined[prediction.animal].reasons.push(...)` throws a `TypeError`. -/
def addPrediction64 (weight : ℚ) (combined : List CombinedPrediction)
    (prediction : Prediction) : Except String (List CombinedPrediction) :=
  if prediction.animal ∈ objectPrototypeKeys then
    .error "TypeError: Cannot read properties of undefined"
  else
    let created :=
      if combined.any (fun c => c.animal == prediction.animal) then combined
      else combined ++ [CombinedPrediction.fresh prediction.animal]
    .ok (created.map fun c =>
      if c.animal = prediction.animal then c.accumulate64 prediction weight else c)

/-- The dictionary `combined` after both `forEach` loops, or the exception thrown. -/
def combinedAfter64 (algorithmResults : List AlgorithmResult) :
    Except String (List CombinedPrediction) :=
  algorithmResults.foldlM
    (fun combined ar => ar.results.foldlM (addPrediction64 ar.weight) combined) []

/-- The `.map(pred => ...)` step in binary64: `Math.round(pred.probability * 100) / 100`
and `Math.round(pred.confidence)`. -/
def roundEntry64 (pred : CombinedPrediction) : CombinedPrediction :=
  { pred with
    probability := fl ((mathRound (fl (pred.probability * 100)) : ℚ) / 100)
    confidence := (mathRound pred.confidence : ℚ) }

/-- `combineAlgorithmResults` of `predictionEngine.js` in binary64; an exception
thrown by it is the `error` result. -/
def combineAlgorithmResults64 (algorithmResults : List AlgorithmResult) :
    Except String (List CombinedPrediction) :=
  (combinedAfter64 algorithmResults).map fun combined =>
    ((objectValuesOrder combined).map roundEntry64).insertionSort byProbabilityDesc

/-! ### Specification-side vocabulary for the binary64 combiner -/

/-- The running sum `0 + x₁ + x₂ + ...` of doubles, each addition rounded to binary64. -/
def sum64 (xs : List ℚ) : ℚ := xs.foldl add64 0

/-- The entry of a symbol in binary64: the running sums of the weighted
probabilities and confidences of its candidates in arrival order, and their
rationales and tags. -/
def entryOf64 (l : List (Prediction × ℚ)) (s : String) : CombinedPrediction :=
  { animal := s
    probability := sum64 ((candidatesOf l s).map fun pw => mul64 pw.1.probability pw.2)
    confidence := sum64 ((candidatesOf l s).map fun pw => mul64 pw.1.confidence pw.2)
    reasons := (candidatesOf l s).map fun pw => pw.1.reason
    algorithms := (candidatesOf l s).map fun pw => pw.1.algorithm }

/-- The place of one key before another in `Object.values`, for keys created in
the order of `names`: array indices in ascending order come first, the other
keys follow in creation order. -/
def valuesBefore (names : List String) (a b : String) : Prop :=
  match arrayIndex? a, arrayIndex? b with
  | some m, some n => m < n
  | some _, none => True
  | none, some _ => False
  | none, none => names.indexOf a < names.indexOf b

/-! ### Concrete inputs for the binary64 combiner -/

/-- An inverse-frequency candidate (1.94) and a sequential candidate (6) of one symbol. -/
def absentThenSequence : List AlgorithmResult :=
  [{ results := [absentCandidate], weight := 1 / 4 },
    { results := [{ animal := absentCandidate.animal, probability := 6, algorithm := "sequential",
                    confidence := 30, reason := "Secuencia detectada: A → B → C" }],
      weight := 3 / 20 }]

/-- Three temporal candidates of equal probability for the symbols `b`, `10` and `2`. -/
def numberedSymbols : List AlgorithmResult :=
  [{ results :=
      [{ animal := "b", probability := 4, algorithm := "temporal", confidence := 64,
         reason := "Patrón horario/diario favorable: 12:00 hrs, día 2" },
        { animal := "10", probability := 4, algorithm := "temporal", confidence := 64,
          reason := "Patrón horario/diario favorable: 12:00 hrs, día 2" },
        { animal := "2", probability := 4, algorithm := "temporal", confidence := 64,
          reason := "Patrón horario/diario favorable: 12:00 hrs, día 2" }],
      weight := 1 / 4 }]

/-- An inverse-frequency (1.94), a cyclical (6.1) and a sequential (4) candidate
of one symbol, each list with the weight of its algorithm. -/
def threeAlgorithms : List AlgorithmResult :=
  [{ results := [absentCandidate], weight := 1 / 4 },
    { results := [{ animal := "Delfin", probability := 61 / 10, algorithm := "cyclical",
                    confidence := 61, reason := "Ciclo weekly sugiere aparición en 1 días" }],
      weight := 1 / 5 },
    { results := [{ animal := "Delfin", probability := 4, algorithm := "sequential",
                    confidence := 30, reason := "Secuencia detectada: A → B → Delfin" }],
      weight := 3 / 20 }]

/-- The lists of `threeAlgorithms` with the last two exchanged. -/
def threeAlgorithmsSwapped : List AlgorithmResult :=
  [{ results := [absentCandidate], weight := 1 / 4 },
    { results := [{ animal := "Delfin", probability := 4, algorithm := "sequential",
                    confidence := 30, reason := "Secuencia detectada: A → B → Delfin" }],
      weight := 3 / 20 },
    { results := [{ animal := "Delfin", probability := 61 / 10, algorithm := "cyclical",
                    confidence := 61, reason := "Ciclo weekly sugiere aparición en 1 días" }],
      weight := 1 / 5 }]

/-! ## Moments and the cycle detector -/

/-- A `moment` object, as local wall-clock time in milliseconds. -/
structure Moment where
  ms : ℤ
deriving DecidableEq, Repr

instance : Inhabited Moment := ⟨⟨0⟩⟩

/-- Milliseconds in a day, the `864e5` of moment.js. -/
def msPerDay : ℤ := 86400000

/-- The moment at local midnight of a calendar day: `moment('YYYY-MM-DD')`. -/
def Moment.ofDay (d : ℤ) : Moment := ⟨d * msPerDay⟩

/-- `a.diff(b, 'days')`: the wall-clock difference in days, truncated towards zero. -/
def Moment.diffDays (a b : Moment) : ℤ := (a.ms - b.ms).tdiv msPerDay

/-- The time after `.add(n, 'days')`. -/
def Moment.addDays (m : Moment) (n : ℤ) : Moment := ⟨m.ms + n * msPerDay⟩

/-- `.format('YYYY-MM-DD')`, as the number of the calendar day. -/
def Moment.formatDay (m : Moment) : ℤ := m.ms / msPerDay

/-- An element of the per-animal series built by `analyzeCyclicalPatterns`. -/
structure SeriesEntry where
  date : Moment
  hour : ℤ
  frequency : ℤ
deriving DecidableEq, Repr

instance : Inhabited SeriesEntry := ⟨⟨default, 0, 0⟩⟩

/-- The object returned by `detectCycle`; `nextExpected` is `none` for `null`. -/
structure CycleResult where
  detected : Bool
  confidence : ℤ
  nextExpected : Option ℤ
deriving DecidableEq, Repr

/-- One turn of the `for` loop of `detectCycle`, on the pair `(matches, total)`. -/
def detectCycleStep (data : List SeriesEntry) (cycleDays : ℕ) (acc : ℕ × ℕ) (i : ℕ) :
    ℕ × ℕ :=
  let current := (data.getD i default).date
  let previous := (data.getD (i - cycleDays) default).date
  let dayDiff := current.diffDays previous
  (if |dayDiff - cycleDays| ≤ 1 then acc.1 + 1 else acc.1, acc.2 + 1)

/-- The pair `(matches, total)` after the loop `for (i = cycleDays; i < data.length; i++)`. -/
def detectCycleCounts (data : List SeriesEntry) (cycleDays : ℕ) : ℕ × ℕ :=
  (List.range' cycleDays (data.length - cycleDays)).foldl (detectCycleStep data cycleDays) (0, 0)

/-- `Math.round((matches / total) * 100)`: the quotient and the product are each
rounded to binary64 before `Math.round`. -/
def confidenceOf (matched total : ℕ) : ℤ :=
  if total > 0 then mathRound (fl (fl ((matched : ℚ) / (total : ℚ)) * 100)) else 0

/-- `detectCycle` of `patternAnalyzer.js`. -/
def detectCycle (data : List SeriesEntry) (cycleDays : ℕ) : CycleResult :=
  let counts := detectCycleCounts data cycleDays
  let confidence := confidenceOf counts.1 counts.2
  let detected := decide (confidence ≥ 60)
  let nextExpected :=
    if detected ∧ data.length > 0 then
      data.getLast?.map fun last => (last.date.addDays cycleDays).formatDay
    else none
  { detected := detected, confidence := confidence, nextExpected := nextExpected }

/-! ### Specification-side vocabulary for the cycle detector -/

/-- The day gap between entry `i` and entry `j` of a series. -/
def dayGap (data : List SeriesEntry) (i j : ℕ) : ℤ :=
  (data.getD i default).date.diffDays (data.getD j default).date

/-- The number `t` of indices `i` with `p ≤ i < length`. -/
def boundaryCount (data : List SeriesEntry) (p : ℕ) : ℕ :=
  (List.range data.length).countP fun i => p ≤ i

/-- The number `m` of indices `i` with `p ≤ i < length` whose day gap to entry
`i - p` differs from `p` by at most one. -/
def matchCount (data : List SeriesEntry) (p : ℕ) : ℕ :=
  (List.range data.length).countP fun i => p ≤ i ∧ |dayGap data i (i - p) - p| ≤ 1

/-- A series with one entry at midnight of each of the given days. -/
def daySeries (days : List ℤ) : List SeriesEntry :=
  days.map fun d => { date := Moment.ofDay d, hour := 10, frequency := 1 }

/-- A chronological series of 41 daily observations: 24 on consecutive days, then
17 more at ten-day intervals. Against period 1 it has 40 boundaries and 23 matches. -/
def tieSeries : List SeriesEntry :=
  daySeries [0, 1, 2, 3, 4, 5, 6, 7, 8, 9, 10, 11, 12, 13, 14, 15, 16, 17, 18, 19, 20, 21, 22,
    23, 33, 43, 53, 63, 73, 83, 93, 103, 113, 123, 133, 143, 153, 163, 173, 183, 193]

/-- A series of 18 observations with 17 boundaries and 10 matches against period 1. -/
def series59 : List SeriesEntry :=
  daySeries [0, 1, 2, 3, 4, 5, 6, 7, 8, 9, 10, 20, 30, 40, 50, 60, 70, 80]

/-- A series of 6 observations with 5 boundaries and 3 matches against period 1. -/
def series60 : List SeriesEntry :=
  daySeries [0, 1, 2, 3, 13, 23]

/-! ### Moments held by reference -/

/-- The store of the `moment` objects alive during a call: cell `r` holds the time
of the object with reference `r`. -/
abbrev MomentStore := List Moment

/-- The time of the object behind a reference. -/
def MomentStore.read (σ : MomentStore) (r : ℕ) : Moment := σ.getD r default

/-- `m.clone()`: a new object with the time of `m`; returns the store and the new reference. -/
def MomentStore.clone (σ : MomentStore) (r : ℕ) : MomentStore × ℕ :=
  (σ ++ [σ.read r], σ.length)

/-- `m.add(n, 'days')`: the object behind the reference is changed in place. -/
def MomentStore.addDays (σ : MomentStore) (r : ℕ) (n : ℤ) : MomentStore :=
  σ.set r ((σ.read r).addDays n)

/-- A series element whose `date` is a reference into the store. -/
structure SeriesRef where
  date : ℕ
  hour : ℤ
  frequency : ℤ
deriving DecidableEq, Repr

instance : Inhabited SeriesRef := ⟨⟨0, 0, 0⟩⟩

/-- The series element as a value: its date read from the store. -/
def SeriesRef.deref (σ : MomentStore) (e : SeriesRef) : SeriesEntry :=
  { date := σ.read e.date, hour := e.hour, frequency := e.frequency }

/-- One turn of the loop of `detectCycle`, the dates read through the store. -/
def detectCycleStepOnStore (σ : MomentStore) (data : List SeriesRef) (cycleDays : ℕ)
    (acc : ℕ × ℕ) (i : ℕ) : ℕ × ℕ :=
  let current := σ.read (data.getD i default).date
  let previous := σ.read (data.getD (i - cycleDays) default).date
  let dayDiff := current.diffDays previous
  (if |dayDiff - cycleDays| ≤ 1 then acc.1 + 1 else acc.1, acc.2 + 1)

/-- `detectCycle` with its moments held by reference: returns the result and the
store as the call leaves it. The only mutating call, `.add`, is made on the
object `lastDate.clone()` returns. -/
def detectCycleOnStore (σ : MomentStore) (data : List SeriesRef) (cycleDays : ℕ) :
    CycleResult × MomentStore :=
  let counts := (List.range' cycleDays (data.length - cycleDays)).foldl
    (detectCycleStepOnStore σ data cycleDays) (0, 0)
  let confidence := confidenceOf counts.1 counts.2
  let detected := decide (confidence ≥ 60)
  if detected ∧ data.length > 0 then
    match data.getLast? with
    | some last =>
      let cloned := σ.clone last.date
      let σ₂ := cloned.1.addDays cloned.2 cycleDays
      ({ detected := detected, confidence := confidence,
         nextExpected := some (σ₂.read cloned.2).formatDay }, σ₂)
    | none => ({ detected := detected, confidence := confidence, nextExpected := none }, σ)
  else ({ detected := detected, confidence := confidence, nextExpected := none }, σ)

/-! ## The inverse-frequency and the cyclical algorithm -/

/-- The order `.sort((a, b) => b.probability - a.probability)` sorts candidates by. -/
def candidateByProbabilityDesc (a b : Prediction) : Prop := b.probability ≤ a.probability

instance : DecidableRel candidateByProbabilityDesc := fun a b =>
  inferInstanceAs (Decidable (b.probability ≤ a.probability))

/-- A row of `getAnimalStats`; `count` is the integer `parseInt(stat.count)` yields
(a count that does not parse gives `NaN`, which `|| 0` treats as 0). -/
structure AnimalStat where
  animal_name : String
  count : ℤ
deriving DecidableEq, Repr

/-- An element of `animals` in `ai-training/guacharo-knowledge.json`; the file is
not part of the sources, so the catalog is a parameter. -/
structure CatalogAnimal where
  name : String
deriving DecidableEq, Repr

/-- The dictionary `recentMap` after `recentStats.forEach`: a later row of an
animal overwrites an earlier one. -/
def recentMap (recentStats : List AnimalStat) : String → Option ℤ :=
  recentStats.foldl
    (fun m stat => fun k => if k = stat.animal_name then some stat.count else m k)
    (fun _ => none)

/-- The expression `recentMap[animal.name] || 0`. -/
def recentCountOf (recentStats : List AnimalStat) (name : String) : ℤ :=
  match recentMap recentStats name with
  | some c => if c = 0 then 0 else c
  | none => 0

/-- Body of `animals.forEach` in `calculateInverseFrequencyPredictions`: the
candidate pushed for an animal, if any. -/
def inverseFrequencyCandidate (recentStats : List AnimalStat) (animal : CatalogAnimal) :
    Option Prediction :=
  let recentCount := recentCountOf recentStats animal.name
  let expectedFrequency : ℚ := 7 / 36
  let absenceScore := max 0 (expectedFrequency - recentCount)
  let probability := min 15 (absenceScore * 10)
  if probability > 1 then
    some { animal := animal.name
           probability := roundTwoDecimals probability
           algorithm := "inverse_frequency"
           confidence := 70
           reason := s!"Baja frecuencia reciente: {recentCount} apariciones" }
  else none

/-- `calculateInverseFrequencyPredictions` of `predictionEngine.js`, the catalog
`animals` passed in. -/
def calculateInverseFrequencyPredictions (animals : List CatalogAnimal)
    (recentStats _weeklyStats : List AnimalStat) : List Prediction :=
  (animals.filterMap (inverseFrequencyCandidate recentStats)).insertionSort
    candidateByProbabilityDesc

/-- An element of `patterns.cycles`; `next_expected` is the day of its
`'YYYY-MM-DD'` string, `none` for `null`. -/
structure Cycle where
  animal : String
  type : String
  confidence : ℚ
  next_expected : Option ℤ
deriving DecidableEq, Repr

/-- Body of `cycles.forEach` in `calculateCyclicalPredictions`; `today` is the
current instant `moment()`. -/
def cyclicalCandidate (today : Moment) (cycle : Cycle) : Option Prediction :=
  match cycle.next_expected with
  | none => none
  | some day =>
    let expectedDate := Moment.ofDay day
    let daysUntil := expectedDate.diffDays today
    if daysUntil ≥ 0 ∧ daysUntil ≤ 2 then
      some { animal := cycle.animal
             probability := max 5 (cycle.confidence / 10)
             algorithm := "cyclical"
             confidence := cycle.confidence
             reason := s!"Ciclo {cycle.type} sugiere aparición en {daysUntil} días" }
    else none

/-- `calculateCyclicalPredictions` of `predictionEngine.js`, the current instant
passed in. -/
def calculateCyclicalPredictions (today : Moment) (cycles : List Cycle) : List Prediction :=
  (cycles.filterMap (cyclicalCandidate today)).insertionSort candidateByProbabilityDesc

/-! ### Specification-side vocabulary and concrete inputs -/

/-- The specification's `absence = max(0, 7/36 - c)`. -/
def absenceOf (c : ℤ) : ℚ := max 0 (7 / 36 - (c : ℚ))

/-- The specification's `p = min(15, 10 * absence)`. -/
def inverseProbabilityOf (c : ℤ) : ℚ := min 15 (10 * absenceOf c)

/-- Noon of calendar day 0. -/
def noonOfDayZero : Moment := ⟨43200000⟩

/-- A detected 3-day cycle whose next expected date is calendar day 3. -/
def cycleDueDayThree : Cycle :=
  { animal := "Delfin", type := "3-day", confidence := 80, next_expected := some 3 }

/-- A weekly cycle of low confidence whose next expected date is calendar day 11. -/
def cycleDueDayEleven : Cycle :=
  { animal := "Ballena", type := "weekly", confidence := 40, next_expected := some 11 }

/-- The candidate the cyclical algorithm derives from `cycleDueDayEleven` one day ahead. -/
def candidateDayEleven : Prediction :=
  { animal := "Ballena", probability := 5, algorithm := "cyclical", confidence := 40,
    reason := "Ciclo weekly sugiere aparición en 1 días" }

/-! ## The sequential algorithm -/

/-- A row of `getRecentResults` (the other columns are not read). -/
structure DrawResult where
  animal_name : String
deriving DecidableEq, Repr

instance : Inhabited DrawResult := ⟨⟨""⟩⟩

/-- A row of `getSequentialPatterns`. -/
structure SequentialPattern where
  prev_2 : String
  prev_1 : String
  current : String
  frequency : ℤ
deriving DecidableEq, Repr

/-- The candidate pushed by `matchingPatterns.forEach` for one pattern. -/
def sequentialCandidate (pattern : SequentialPattern) : Prediction :=
  { animal := pattern.current
    probability := min 12 ((pattern.frequency : ℚ) * 2)
    algorithm := "sequential"
    confidence := min 80 ((pattern.frequency : ℚ) * 15)
    reason := s!"Secuencia detectada: {pattern.prev_2} → {pattern.prev_1} → {pattern.current}" }

/-- The callback given to `.then` in `calculateSequentialPredictions`, as the
contents of the array `predictions` after it ran on `recentResults`. -/
def sequentialThen (sequentialPatterns : List SequentialPattern)
    (predictions : List Prediction) (recentResults : List DrawResult) : List Prediction :=
  if recentResults.length ≥ 2 then
    let last := (recentResults.getD 0 default).animal_name
    let secondLast := (recentResults.getD 1 default).animal_name
    let matchingPatterns := sequentialPatterns.filter fun pattern =>
      pattern.prev_2 = secondLast ∧ pattern.prev_1 = last
    matchingPatterns.foldl (fun preds pattern => preds ++ [sequentialCandidate pattern])
      predictions
  else predictions

/-- A call of `calculateSequentialPredictions` as the event loop sees it: the
array contents at the moment the function returns, and the two callbacks the
call leaves pending on the promise of `getRecentResults(2)`, each acting on the
array `predictions`. -/
structure SequentialCall where
  returned : List Prediction
  onFulfilled : List Prediction → List DrawResult → List Prediction
  onRejected : List Prediction → List Prediction

/-- `calculateSequentialPredictions` of `predictionEngine.js`. The body creates
the empty array, registers the callbacks without awaiting the promise (a `.then`
callback never runs before the running function has returned), sorts the array
and returns it. -/
def calculateSequentialPredictions (sequentialPatterns : List SequentialPattern) :
    SequentialCall :=
  let predictions : List Prediction := []
  { returned := predictions.insertionSort candidateByProbabilityDesc
    onFulfilled := sequentialThen sequentialPatterns
    onRejected := fun preds => preds }

/-- The array `predictions` once the promise of `getRecentResults(2)` has
settled, with the outcome of the query. -/
def SequentialCall.settled (call : SequentialCall)
    (outcome : Except String (List DrawResult)) : List Prediction :=
  match outcome with
  | .ok recentResults => call.onFulfilled call.returned recentResults
  | .error _ => call.onRejected call.returned

/-! ## The temporal algorithm -/

/-- A row of `getFrequencyByHour`; `count` as parsed by `parseInt`. -/
structure HourlyFrequency where
  hour : ℤ
  animal_name : String
  count : ℤ
deriving DecidableEq, Repr

/-- A row of `getFrequencyByDay`; `count` as parsed by `parseInt`. -/
structure DailyFrequency where
  day_of_week : ℤ
  animal_name : String
  count : ℤ
deriving DecidableEq, Repr

/-- A value of the dictionary `temporalAnimals`. -/
structure TemporalCounts where
  hourCount : ℤ
  dayCount : ℤ
deriving DecidableEq, Repr

/-- The two statements of each `forEach` on `temporalAnimals`: create the entry
of the animal with zero counts when there is none, then assign one of its
fields. The dictionary is the list of its entries in insertion order. -/
def temporalAssign (temporalAnimals : List (String × TemporalCounts)) (name : String)
    (assign : TemporalCounts → TemporalCounts) : List (String × TemporalCounts) :=
  let created :=
    if temporalAnimals.any (fun e => e.1 == name) then temporalAnimals
    else temporalAnimals ++ [(name, { hourCount := 0, dayCount := 0 })]
  created.map fun e => if e.1 = name then (e.1, assign e.2) else e

/-- The body of each `forEach` on `temporalAnimals` for a row of the given
symbol. For a symbol named like a member of `Object.prototype` the test
`!temporalAnimals[name]` is false and the assignment goes to the inherited
object: `temporalAnimals` gets no entry of its own. -/
def temporalUpdate (temporalAnimals : List (String × TemporalCounts)) (name : String)
    (assign : TemporalCounts → TemporalCounts) : List (String × TemporalCounts) :=
  if name ∈ objectPrototypeKeys then temporalAnimals
  else temporalAssign temporalAnimals name assign

/-- The dictionary `temporalAnimals` after both `forEach` loops. -/
def temporalAnimalsOf (currentHour currentDay : ℤ) (hourlyFreq : List HourlyFrequency)
    (dailyFreq : List DailyFrequency) : List (String × TemporalCounts) :=
  let currentHourData := hourlyFreq.filter fun item => item.hour = currentHour
  let currentDayData := dailyFreq.filter fun item => item.day_of_week = currentDay
  let afterHours := currentHourData.foldl
    (fun m item => temporalUpdate m item.animal_name fun t => { t with hourCount := item.count })
    []
  currentDayData.foldl
    (fun m item => temporalUpdate m item.animal_name fun t => { t with dayCount := item.count })
    afterHours

/-- The expression `data.hourCount * 0.6 + data.dayCount * 0.4` in binary64: both
products and the sum are rounded. -/
def temporalScore64 (hourCount dayCount : ℤ) : ℚ :=
  add64 (mul64 hourCount (3 / 5)) (mul64 dayCount (2 / 5))

/-- Body of `Object.keys(temporalAnimals).forEach`: the candidate of one animal, if any. -/
def temporalCandidate (currentHour currentDay : ℤ) (entry : String × TemporalCounts) :
    Option Prediction :=
  let data := entry.2
  let totalScore := temporalScore64 data.hourCount data.dayCount
  let probability := min 10 totalScore
  if probability > 2 then
    some { animal := entry.1
           probability := probability
           algorithm := "temporal"
           confidence := 65
           reason :=
            s!"Patrón horario/diario favorable: {currentHour}:00 hrs, día {currentDay}" }
  else none

/-- `calculateTemporalPredictions` of `predictionEngine.js`: the current hour and
weekday and the outcomes of the two queries passed in. A failed query is caught
and leaves the list empty. `Object.keys(temporalAnimals)` lists the symbols in
the order of `objectOrder`. -/
def calculateTemporalPredictions (currentHour currentDay : ℤ)
    (hourlyFreq : Except String (List HourlyFrequency))
    (dailyFreq : Except String (List DailyFrequency)) : List Prediction :=
  match hourlyFreq, dailyFreq with
  | .ok hourly, .ok daily =>
    let temporalAnimals := temporalAnimalsOf currentHour currentDay hourly daily
    ((objectOrder (fun e => e.1) temporalAnimals).filterMap
      (temporalCandidate currentHour currentDay)).insertionSort candidateByProbabilityDesc
  | _, _ => []

/-! ## The trend algorithm -/

/-- `calculateLinearTrend` of `predictionEngine.js`. The result is `none` where
JS yields `NaN`: the quotient `0 / 0` of a series of fewer than two values. -/
def calculateLinearTrend (values : List ℚ) : Option ℚ :=
  let n : ℚ := values.length
  let xSum := n * (n - 1) / 2
  let ySum := values.foldl (fun sum val => sum + val) 0
  let xySum := values.enum.foldl (fun sum iv => sum + iv.2 * (iv.1 : ℚ)) 0
  let x2Sum := (n - 1) * n * (2 * n - 1) / 6
  if n * x2Sum - xSum * xSum = 0 then none
  else some ((n * xySum - xSum * ySum) / (n * x2Sum - xSum * xSum))

/-- An element of `last7Days`: a date (as day number) and the animals drawn on it. -/
structure DayResults where
  date : ℤ
  animals : List String
deriving DecidableEq, Repr

/-- `x.toFixed(1)`: the decimal with one fractional digit nearest to `x`, a tie
going away from zero. -/
def toFixed1 (x : ℚ) : String :=
  let n : ℕ := ⌊|x| * 10 + 1 / 2⌋.toNat
  (if x < 0 ∧ n ≠ 0 then "-" else "") ++ toString (n / 10) ++ "." ++ toString (n % 10)

/-- The array `frequencies` of an animal: its number of draws on each element of
`last7Days`, in the order of `last7Days`. -/
def frequenciesOf (last7Days : List DayResults) (animal : CatalogAnimal) : List ℕ :=
  last7Days.map fun day => (day.animals.filter fun a => a = animal.name).length

/-- Body of `animals.forEach` in `calculateTrendPredictions`: the candidate pushed
for an animal, if any. -/
def trendCandidate (last7Days : List DayResults) (animal : CatalogAnimal) :
    Option Prediction :=
  let frequencies := frequenciesOf last7Days animal
  match calculateLinearTrend (frequencies.map fun (f : ℕ) => (f : ℚ)) with
  | some trend =>
    if trend > 1 / 10 then
      some { animal := animal.name
             probability := min 8 (trend * 10)
             algorithm := "trend"
             confidence := 60
             reason := "Tendencia matemática positiva: +" ++ toFixed1 (trend * 100) ++ "%" }
    else none
  | none => none

/-- The loop `for (let i = 0; i < 7; i++)` of `calculateTrendPredictions`:
element `i` of `last7Days` holds the draws of the day `i` days before today.
`findAll` is the outcome of the query for a date. -/
def last7DaysOf (today : ℤ) (findAll : ℤ → Except String (List String)) :
    Except String (List DayResults) :=
  (List.range 7).mapM fun i =>
    (findAll (today - i)).map fun dayResults => { date := today - i, animals := dayResults }

/-- `calculateTrendPredictions` of `predictionEngine.js`, the catalog, the
current day and the history store passed in. A failed query is caught and
leaves the list empty. -/
def calculateTrendPredictions (animals : List CatalogAnimal) (today : ℤ)
    (findAll : ℤ → Except String (List String)) : List Prediction :=
  match last7DaysOf today findAll with
  | .ok last7Days =>
    (animals.filterMap (trendCandidate last7Days)).insertionSort candidateByProbabilityDesc
  | .error _ => []

/-! ## Model confidence and trend label -/

/-- `calculateModelConfidence` of `predictionEngine.js`. -/
def calculateModelConfidence (predictions : List CombinedPrediction) : ℤ :=
  match predictions.head?, predictions.getLast? with
  | some topPrediction, some lastPrediction =>
    let algorithmCount : ℚ := topPrediction.algorithms.length
    let probabilitySpread : ℚ :=
      if predictions.length > 1 then topPrediction.probability - lastPrediction.probability
      else 10
    let confidence : ℚ := 40 + algorithmCount * 10 + min 20 (probabilitySpread * 2)
    min 85 (max 30 (mathRound confidence))
  | _, _ => 0

/-- The three labels `calculateOverallTrend` chooses from, and the one for missing data. -/
def labelInsufficient : String := "Datos insuficientes"

/-- The label for an overlap of four or five. -/
def labelStable : String := "Tendencia estable - Animales consistentes en el top"

/-- The label for an overlap of at most two. -/
def labelVolatile : String := "Tendencia volátil - Cambios frecuentes en animales dominantes"

/-- The label for an overlap of three. -/
def labelModerate : String := "Tendencia moderada - Algunos cambios en frecuencias"

/-- `calculateOverallTrend` of `predictionEngine.js`. -/
def calculateOverallTrend (recentStats weeklyStats : List AnimalStat) : String :=
  if recentStats.length = 0 ∨ weeklyStats.length = 0 then labelInsufficient
  else
    let recentTop := recentStats.take 5
    let weeklyTop := weeklyStats.take 5
    let recentTopAnimals := recentTop.map fun s => s.animal_name
    let weeklyTopAnimals := weeklyTop.map fun s => s.animal_name
    let overlap := (recentTopAnimals.filter fun animal => animal ∈ weeklyTopAnimals).length
    if overlap ≥ 4 then labelStable
    else if overlap ≤ 2 then labelVolatile
    else labelModerate

/-! ### Specification-side vocabulary and concrete inputs, continued -/

/-- The pattern table of the specification's scenario: (Fox, Dog, X) seen 5 times,
next to a pattern that does not match. -/
def scenarioPatterns : List SequentialPattern :=
  [{ prev_2 := "Fox", prev_1 := "Dog", current := "X", frequency := 5 },
   { prev_2 := "Fox", prev_1 := "Cat", current := "Y", frequency := 3 }]

/-- The two most recent outcomes of the scenario, most recent first: Dog, then Fox. -/
def scenarioRecent : List DrawResult := [⟨"Dog"⟩, ⟨"Fox"⟩]

/-- The count of the last row of a symbol in a list of (symbol, count) rows, 0
when the symbol has no row. -/
def lastCountOf (rows : List (String × ℤ)) (name : String) : ℤ :=
  (((rows.filter fun r => r.1 = name).getLast?).map fun r => r.2).getD 0

/-- The (symbol, count) rows of the current hour. -/
def currentHourRows (currentHour : ℤ) (hourlyFreq : List HourlyFrequency) : List (String × ℤ) :=
  (hourlyFreq.filter fun item => item.hour = currentHour).map
    fun item => (item.animal_name, item.count)

/-- The (symbol, count) rows of the current weekday. -/
def currentDayRows (currentDay : ℤ) (dailyFreq : List DailyFrequency) : List (String × ℤ) :=
  (dailyFreq.filter fun item => item.day_of_week = currentDay).map
    fun item => (item.animal_name, item.count)

/-- The count `h` of a symbol in the current hour (0 when it has no row). -/
def hourCountOf (currentHour : ℤ) (hourlyFreq : List HourlyFrequency) (name : String) : ℤ :=
  lastCountOf (currentHourRows currentHour hourlyFreq) name

/-- The count `d` of a symbol on the current weekday (0 when it has no row). -/
def dayCountOf (currentDay : ℤ) (dailyFreq : List DailyFrequency) (name : String) : ℤ :=
  lastCountOf (currentDayRows currentDay dailyFreq) name

/-- One of the two fields of a `temporalAnimals` value: `hourCount` for `true`. -/
def TemporalCounts.field (hour : Bool) (t : TemporalCounts) : ℤ :=
  match hour with
  | true => t.hourCount
  | false => t.dayCount

/-- The assignment to one of the two fields. -/
def TemporalCounts.setField (hour : Bool) (c : ℤ) (t : TemporalCounts) : TemporalCounts :=
  match hour with
  | true => { t with hourCount := c }
  | false => { t with dayCount := c }

/-- The rows that reach the dictionary: those whose symbol is not named like a
member of `Object.prototype`. -/
def ownRows (rows : List (String × ℤ)) : List (String × ℤ) :=
  rows.filter fun r => r.1 ∉ objectPrototypeKeys

/-- One of the two `forEach` loops on `temporalAnimals`, over (symbol, count) rows. -/
def assignAll (hour : Bool) (rows : List (String × ℤ))
    (init : List (String × TemporalCounts)) : List (String × TemporalCounts) :=
  rows.foldl (fun m r => temporalAssign m r.1 (TemporalCounts.setField hour r.2)) init

/-- The specification's `Σx` for `x = 0..n-1`. -/
def sumX (n : ℕ) : ℚ := ((List.range n).map fun (i : ℕ) => (i : ℚ)).sum

/-- The specification's `Σx²` for `x = 0..n-1`. -/
def sumX2 (n : ℕ) : ℚ := ((List.range n).map fun (i : ℕ) => (i : ℚ) ^ 2).sum

/-- The specification's `Σxy`: the sum of `x * y_x` over the day indices. -/
def sumXY (y : List ℚ) : ℚ :=
  ((List.range y.length).map fun (i : ℕ) => (i : ℚ) * y.getD i 0).sum

/-- The ordinary-least-squares slope of `y` against `x = 0..n-1`, in the words of
the specification: `(n Σxy - Σx Σy) / (n Σx² - (Σx)²)`. -/
def olsSlope (y : List ℚ) : ℚ :=
  ((y.length : ℚ) * sumXY y - sumX y.length * y.sum)
    / ((y.length : ℚ) * sumX2 y.length - sumX y.length ^ 2)

/-- A series of three daily counts, for the least-squares slope. -/
def threeCounts : List ℚ := [1, 3, 2]

/-- Seven daily counts that grow by one a day, in array order. -/
def risingCounts : List ℕ := [0, 1, 2, 3, 4, 5, 6]

/-- A history store in which "Delfin" is drawn `d - 94` times on day `d`: not at
all on day 94, once on day 95, and so on up to six times on day 100. -/
def risingStore : ℤ → Except String (List String) :=
  fun d => .ok (List.replicate (d - 94).toNat "Delfin")

/-- A history store in which "Toro" is drawn `100 - d` times on day `d`: six
times on day 94, down to not at all on day 100. -/
def fallingStore : ℤ → Except String (List String) :=
  fun d => .ok (List.replicate (100 - d).toNat "Toro")

/-- Seven daily counts of one symbol, each greater than the one before. -/
def growingCounts : List ℕ := [0, 1, 3, 4, 6, 7, 9]

/-- A history store in which "Ballena" is drawn 0, 1, 3, 4, 6, 7 and 9 times on
the days 94, 95, ..., 100: more often on each day than on the day before. -/
def growingStore : ℤ → Except String (List String) :=
  fun d => .ok (List.replicate (growingCounts.getD (d - 94).toNat 0) "Ballena")

/-- A history store in which "Ballena" is drawn 9, 7, 6, 4, 3, 1 and 0 times on
the days 94, 95, ..., 100: less often on each day than on the day before. -/
def shrinkingStore : ℤ → Except String (List String) :=
  fun d => .ok (List.replicate (growingCounts.getD (100 - d).toNat 0) "Ballena")

/-- The rows of hour 12 of the week: "Toro" was drawn three times in that hour. -/
def toroHourly : List HourlyFrequency := [{ hour := 12, animal_name := "Toro", count := 3 }]

/-- The rows of weekday 2 of the week: "Toro" was drawn once on that weekday. -/
def toroDaily : List DailyFrequency := [{ day_of_week := 2, animal_name := "Toro", count := 1 }]

/-- A forecast entry to which the cyclical algorithm contributed twice, a 3-day
cycle of confidence 60 and a weekly cycle of confidence 80 of the same animal:
probability 0.2 * 6 + 0.2 * 8 = 2.8, confidence 0.2 * 60 + 0.2 * 80 = 28. -/
def twiceCyclical : CombinedPrediction :=
  { animal := "Ballena", probability := 14 / 5, confidence := 28,
    reasons := ["Ciclo 3-day sugiere aparición en 1 días",
                "Ciclo weekly sugiere aparición en 1 días"],
    algorithms := ["cyclical", "cyclical"] }

/-- A forecast entry from the trend algorithm alone: probability 0.15 * 8 = 1.2,
confidence 0.15 * 60 = 9. -/
def trendOnly : CombinedPrediction :=
  { animal := "Toro", probability := 6 / 5, confidence := 9,
    reasons := ["Tendencia matemática positiva: +100.0%"], algorithms := ["trend"] }

/-- The overlap of the specification: the number of the first five symbols of the
short-window list that also occur among the first five symbols of the
longer-window list. -/
def overlapOf (recentStats weeklyStats : List AnimalStat) : ℕ :=
  ((recentStats.take 5).map fun s => s.animal_name).countP
    fun animal => animal ∈ (weeklyStats.take 5).map fun s => s.animal_name

/-- Stats of a short window. -/
def recentExample : List AnimalStat :=
  [⟨"Delfin", 5⟩, ⟨"Toro", 4⟩, ⟨"Ballena", 3⟩, ⟨"Gato", 2⟩, ⟨"Perro", 1⟩, ⟨"Mono", 1⟩]

/-- Stats of a longer window sharing three of its first five symbols with `recentExample`. -/
def weeklyExample : List AnimalStat :=
  [⟨"Toro", 9⟩, ⟨"Delfin", 8⟩, ⟨"Mono", 7⟩, ⟨"Gato", 6⟩, ⟨"Burro", 5⟩, ⟨"Perro", 4⟩]

/-- A series of 102 daily observations, 51 on consecutive days and 51 more at
ten-day intervals: 101 boundaries against period 1, of which 50 match. -/
def fiftyOfHundredOne : List SeriesEntry :=
  daySeries [0, 1, 2, 3, 4, 5, 6, 7, 8, 9, 10, 11, 12, 13, 14, 15, 16, 17, 18, 19, 20, 21, 22,
    23, 24, 25, 26, 27, 28, 29, 30, 31, 32, 33, 34, 35, 36, 37, 38, 39, 40, 41, 42, 43, 44,
    45, 46, 47, 48, 49, 50, 60, 70, 80, 90, 100, 110, 120, 130, 140, 150, 160, 170, 180, 190,
    200, 210, 220, 230, 240, 250, 260, 270, 280, 290, 300, 310, 320, 330, 340, 350, 360, 370,
    380, 390, 400, 410, 420, 430, 440, 450, 460, 470, 480, 490, 500, 510, 520, 530, 540, 550,
    560]

/-- A series of 102 daily observations, 52 on consecutive days and 50 more at
ten-day intervals: 101 boundaries against period 1, of which 51 match. -/
def fiftyOneOfHundredOne : List SeriesEntry :=
  daySeries [0, 1, 2, 3, 4, 5, 6, 7, 8, 9, 10, 11, 12, 13, 14, 15, 16, 17, 18, 19, 20, 21, 22,
    23, 24, 25, 26, 27, 28, 29, 30, 31, 32, 33, 34, 35, 36, 37, 38, 39, 40, 41, 42, 43, 44,
    45, 46, 47, 48, 49, 50, 51, 61, 71, 81, 91, 101, 111, 121, 131, 141, 151, 161, 171, 181,
    191, 201, 211, 221, 231, 241, 251, 261, 271, 281, 291, 301, 311, 321, 331, 341, 351, 361,
    371, 381, 391, 401, 411, 421, 431, 441, 451, 461, 471, 481, 491, 501, 511, 521, 531, 541,
    551]

/-! ## Concrete series for the cycle detector -/

/-- The days `start, start + p, ..., start + (n - 1) p`: `n` observations whose
consecutive dates are exactly `p` days apart. -/
def periodicDays (p n : ℕ) (start : ℤ) : List ℤ :=
  (List.range n).map fun (k : ℕ) => start + (k : ℤ) * p

/-- Four observations, each three days after the one before. -/
def everyThreeDays : List SeriesEntry := daySeries [0, 3, 6, 9]

/-- Five observations whose consecutive date gaps are 7, 8, 6 and 7 days. -/
def nearWeekly : List SeriesEntry := daySeries [0, 7, 15, 21, 28]

/-! ## Concrete inputs for the inverse-frequency algorithm and the trend label -/

/-- A catalog of three symbols. -/
def smallCatalog : List CatalogAnimal := [⟨"Delfin"⟩, ⟨"Toro"⟩, ⟨"Ballena"⟩]

/-- Recent stats in which one catalog symbol was drawn three times, one has a
row with count 0 and one has no row. -/
def smallRecentStats : List AnimalStat := [⟨"Toro", 3⟩, ⟨"Ballena", 0⟩]

/-- Stats with two rows. -/
def twoStats : List AnimalStat := [⟨"Delfin", 5⟩, ⟨"Toro", 4⟩]

/-! ## The pattern analyzer: cycles per animal -/

/-- A row of `getPatternData`, with the columns `analyzeCyclicalPatterns` reads;
`date` is the moment `moment(item.date)` yields. -/
structure PatternRow where
  date : Moment
  hour : ℤ
  animal_name : String
  frequency : ℤ
deriving DecidableEq, Repr

/-- Body of `patternData.forEach` in `analyzeCyclicalPatterns`: create the array
of the row's animal when the dictionary `animalData` has none, then push the
row's entry onto it. The dictionary is the list of its entries in insertion
order. -/
def animalDataPush (animalData : List (String × List SeriesEntry)) (item : PatternRow) :
    List (String × List SeriesEntry) :=
  let created :=
    if animalData.any (fun e => e.1 == item.animal_name) then animalData
    else animalData ++ [(item.animal_name, [])]
  created.map fun e =>
    if e.1 = item.animal_name then
      (e.1, e.2 ++ [{ date := item.date, hour := item.hour, frequency := item.frequency }])
    else e

/-- The dictionary `animalData` after `patternData.forEach`. -/
def animalDataOf (patternData : List PatternRow) : List (String × List SeriesEntry) :=
  patternData.foldl animalDataPush []

/-- The order `.sort((a, b) => a.date - b.date)` sorts a series by. -/
def byDateAsc (a b : SeriesEntry) : Prop := a.date.ms ≤ b.date.ms

instance : DecidableRel byDateAsc := fun a b =>
  inferInstanceAs (Decidable (a.date.ms ≤ b.date.ms))

/-- The object returned by `analyzeCyclicalPatterns`. -/
structure CyclicalAnalysis where
  cycles : List Cycle
  patterns : List String
deriving DecidableEq, Repr

/-- Body of `Object.keys(animalData).forEach` in `analyzeCyclicalPatterns`, on
the arrays `cycles` and `patterns` built so far. -/
def cyclicalForEach (acc : CyclicalAnalysis) (entry : String × List SeriesEntry) :
    CyclicalAnalysis :=
  let animal := entry.1
  let data := entry.2.insertionSort byDateAsc
  if data.length ≥ 3 then
    let threeDayCycle := detectCycle data 3
    let acc3 : CyclicalAnalysis :=
      if threeDayCycle.detected then
        { cycles := acc.cycles ++
            [{ animal := animal, type := "3-day", confidence := threeDayCycle.confidence,
               next_expected := threeDayCycle.nextExpected }]
          patterns := acc.patterns ++
            [s!"{animal}: Ciclo de 3 días detectado ({threeDayCycle.confidence}% confianza)"] }
      else acc
    if data.length ≥ 7 then
      let weeklyCycle := detectCycle data 7
      if weeklyCycle.detected then
        { cycles := acc3.cycles ++
            [{ animal := animal, type := "weekly", confidence := weeklyCycle.confidence,
               next_expected := weeklyCycle.nextExpected }]
          patterns := acc3.patterns ++
            [s!"{animal}: Ciclo semanal detectado ({weeklyCycle.confidence}% confianza)"] }
      else acc3
    else acc3
  else acc

/-- `analyzeCyclicalPatterns` of `patternAnalyzer.js`. -/
def analyzeCyclicalPatterns (patternData : List PatternRow) : CyclicalAnalysis :=
  (animalDataOf patternData).foldl cyclicalForEach { cycles := [], patterns := [] }

/-- Three rows of one animal, on the days 0, 3 and 6. -/
def threeSightings : List PatternRow :=
  [⟨Moment.ofDay 6, 10, "Delfin", 1⟩, ⟨Moment.ofDay 3, 10, "Delfin", 1⟩,
    ⟨Moment.ofDay 0, 10, "Delfin", 1⟩]

/-! ## The pattern analyzer: hours, weekdays and sequences -/

/-- A chart object: its type, title, labels and the data of its one dataset (the
styling constants of the dataset are left out). -/
structure ChartSpec where
  type : String
  title : String
  labels : List String
  data : List ℤ
deriving DecidableEq, Repr

/-- The object returned by `analyzeHourlyPatterns` and `analyzeDailyPatterns`. -/
structure ChartedAnalysis where
  patterns : List String
  insights : List String
  chart : ChartSpec
deriving DecidableEq, Repr

/-- The statements `if (!dict[key]) dict[key] = []; dict[key].push(item)` on a
dictionary with numeric keys, held as the list of its entries in insertion
order. -/
def groupPush {α : Type} (dict : List (ℤ × List α)) (key : ℤ) (item : α) :
    List (ℤ × List α) :=
  let created :=
    if dict.any (fun e => e.1 == key) then dict else dict ++ [(key, [])]
  created.map fun e => if e.1 = key then (e.1, e.2 ++ [item]) else e

/-- The order `Object.keys` lists the entries of a dictionary with numeric keys
in: the non-negative integers (integer indices, all far below `2^32 - 1` here)
in ascending order, then the other keys in insertion order. -/
def objectKeysOrder {α : Type} (dict : List (ℤ × List α)) : List (ℤ × List α) :=
  (dict.filter fun e => 0 ≤ e.1).insertionSort (fun a b => a.1 ≤ b.1) ++
    dict.filter fun e => e.1 < 0

/-- An element of `hourlyTotals`. -/
structure HourTotal where
  hour : ℤ
  total : ℤ
  animals : ℕ
deriving DecidableEq, Repr

/-- The order `.sort((a, b) => b.total - a.total)` sorts `hourlyTotals` by. -/
def HourTotal.byTotalDesc (a b : HourTotal) : Prop := b.total ≤ a.total

instance : DecidableRel HourTotal.byTotalDesc := fun a b =>
  inferInstanceAs (Decidable (b.total ≤ a.total))

/-- The array `hourlyTotals` of `analyzeHourlyPatterns`. -/
def hourlyTotalsOf (hourlyData : List HourlyFrequency) : List HourTotal :=
  let byHour := hourlyData.foldl (fun dict item => groupPush dict item.hour item) []
  ((objectKeysOrder byHour).map fun e =>
    ({ hour := e.1
       total := e.2.foldl (fun sum item => sum + item.count) 0
       animals := e.2.length } : HourTotal)).insertionSort HourTotal.byTotalDesc

/-- `analyzeHourlyPatterns` of `patternAnalyzer.js`. -/
def analyzeHourlyPatterns (hourlyData : List HourlyFrequency) : ChartedAnalysis :=
  let hourlyTotals := hourlyTotalsOf hourlyData
  let found : List String × List String :=
    match hourlyTotals.head? with
    | some topHour =>
      let morningActivity : ℤ :=
        (hourlyTotals.filter fun h => h.hour ≥ 6 ∧ h.hour < 12).foldl
          (fun sum h => sum + h.total) 0
      let afternoonActivity : ℤ :=
        (hourlyTotals.filter fun h => h.hour ≥ 12 ∧ h.hour < 18).foldl
          (fun sum h => sum + h.total) 0
      let eveningActivity : ℤ :=
        (hourlyTotals.filter fun h => h.hour ≥ 18 ∨ h.hour < 6).foldl
          (fun sum h => sum + h.total) 0
      let maxActivity := max (max morningActivity afternoonActivity) eveningActivity
      ([s!"Mayor actividad en las {topHour.hour}:00 hrs con {topHour.total} sorteos"],
        [if maxActivity = morningActivity then
            "Tendencia matutina: Mayor frecuencia en horas de la mañana"
          else if maxActivity = afternoonActivity then
            "Tendencia vespertina: Mayor frecuencia en horas de la tarde"
          else "Tendencia nocturna: Mayor frecuencia en horas de la noche"])
    | none => ([], [])
  { patterns := found.1
    insights := found.2
    chart :=
      { type := "bar"
        title := "Frecuencia por Hora del Día"
        labels := hourlyTotals.map fun h => s!"{h.hour}:00"
        data := hourlyTotals.map fun h => h.total } }

/-- The array `dayNames`. -/
def dayNames : List String :=
  ["Domingo", "Lunes", "Martes", "Miércoles", "Jueves", "Viernes", "Sábado"]

/-- The expression `dayNames[parseInt(day)]`, as the text a template shows for
it: outside 0..6 the element is `undefined`. -/
def dayNameOf (day : ℤ) : String :=
  if 0 ≤ day then dayNames.getD day.toNat "undefined" else "undefined"

/-- An element of `dailyTotals`. -/
structure DayTotal where
  day : ℤ
  dayName : String
  total : ℤ
  animals : ℕ
deriving DecidableEq, Repr

/-- The order `.sort((a, b) => b.total - a.total)` sorts `dailyTotals` by. -/
def DayTotal.byTotalDesc (a b : DayTotal) : Prop := b.total ≤ a.total

instance : DecidableRel DayTotal.byTotalDesc := fun a b =>
  inferInstanceAs (Decidable (b.total ≤ a.total))

/-- The array `dailyTotals` of `analyzeDailyPatterns`. -/
def dailyTotalsOf (dailyData : List DailyFrequency) : List DayTotal :=
  let byDay := dailyData.foldl (fun dict item => groupPush dict item.day_of_week item) []
  ((objectKeysOrder byDay).map fun e =>
    ({ day := e.1
       dayName := dayNameOf e.1
       total := e.2.foldl (fun sum item => sum + item.count) 0
       animals := e.2.length } : DayTotal)).insertionSort DayTotal.byTotalDesc

/-- `analyzeDailyPatterns` of `patternAnalyzer.js`. -/
def analyzeDailyPatterns (dailyData : List DailyFrequency) : ChartedAnalysis :=
  let dailyTotals := dailyTotalsOf dailyData
  let found : List String × List String :=
    match dailyTotals.head? with
    | some topDay =>
      let weekdayActivity : ℤ :=
        (dailyTotals.filter fun d => d.day ≥ 1 ∧ d.day ≤ 5).foldl
          (fun sum d => sum + d.total) 0
      let weekendActivity : ℤ :=
        (dailyTotals.filter fun d => d.day = 0 ∨ d.day = 6).foldl
          (fun sum d => sum + d.total) 0
      ([s!"{topDay.dayName} es el día más activo con {topDay.total} sorteos"],
        [if weekendActivity > weekdayActivity then
            "Patrón de fin de semana: Mayor actividad sábados y domingos"
          else "Patrón laboral: Mayor actividad en días de semana"])
    | none => ([], [])
  { patterns := found.1
    insights := found.2
    chart :=
      { type := "doughnut"
        title := "Distribución por Día de la Semana"
        labels := dailyTotals.map fun d => d.dayName
        data := dailyTotals.map fun d => d.total } }

/-- The object returned by `analyzeSequentialPatterns`. -/
structure SequenceAnalysis where
  patterns : List String
  insights : List String
deriving DecidableEq, Repr

/-- The text pushed for the sequence at position `index` of `topSequences`. -/
def sequenceText (index : ℕ) (seq : SequentialPattern) : String :=
  s!"Secuencia {index + 1}: {seq.prev_2} → {seq.prev_1} → {seq.current} ({seq.frequency} veces)"

/-- The filter of `repetitions`: two of the three animals of the sequence are the same. -/
def hasRepetition (seq : SequentialPattern) : Bool :=
  seq.prev_2 = seq.prev_1 ∨ seq.prev_1 = seq.current ∨ seq.prev_2 = seq.current

/-- Body of the inner `forEach` over the three animals of a sequence: a truthy
(non-empty) name gets `animalFrequency[animal] = (animalFrequency[animal] || 0) + 1`. -/
def animalFrequencyPush (animalFrequency : List (String × ℕ)) (animal : String) :
    List (String × ℕ) :=
  if animal = "" then animalFrequency
  else if animalFrequency.any (fun e => e.1 == animal) then
    animalFrequency.map fun e => if e.1 = animal then (e.1, e.2 + 1) else e
  else animalFrequency ++ [(animal, 1)]

/-- The dictionary `animalFrequency` after `sequentialData.forEach`. -/
def animalFrequencyOf (sequentialData : List SequentialPattern) : List (String × ℕ) :=
  sequentialData.foldl
    (fun freq seq => [seq.prev_2, seq.prev_1, seq.current].foldl animalFrequencyPush freq) []

/-- The lookup `animalFrequency[a]` of a key of the dictionary. -/
def frequencyAt (animalFrequency : List (String × ℕ)) (a : String) : ℕ :=
  ((animalFrequency.find? fun e => e.1 = a).map fun e => e.2).getD 0

/-- The expression `Object.keys(animalFrequency).reduce((a, b) =>
animalFrequency[a] > animalFrequency[b] ? a : b)`: `reduce` without an initial
value throws a `TypeError` on an empty array. -/
def topAnimalOf (animalFrequency : List (String × ℕ)) : Except String String :=
  match animalFrequency.map fun e => e.1 with
  | [] => .error "TypeError: Reduce of empty array with no initial value"
  | first :: rest =>
    .ok (rest.foldl
      (fun a b => if frequencyAt animalFrequency a > frequencyAt animalFrequency b then a else b)
      first)

/-- `analyzeSequentialPatterns` of `patternAnalyzer.js`; an exception thrown by it
is the `error` result. -/
def analyzeSequentialPatterns (sequentialData : List SequentialPattern) :
    Except String SequenceAnalysis :=
  if sequentialData.length > 0 then
    let topSequences := sequentialData.take 3
    let patterns := topSequences.enum.map fun entry => sequenceText entry.1 entry.2
    let repetitions := sequentialData.filter hasRepetition
    let insights :=
      if repetitions.length > 0 then
        [s!"Se detectaron {repetitions.length} patrones con repeticiones de animales"]
      else []
    match topAnimalOf (animalFrequencyOf sequentialData) with
    | .ok topAnimal =>
      .ok { patterns := patterns
            insights := insights ++
              [s!"{topAnimal} aparece más frecuentemente en secuencias detectadas"] }
    | .error e => .error e
  else .ok { patterns := [], insights := [] }

/-! ## The pattern analyzer: the report -/

/-- The object `analyzeAnimalSpecificPatterns` resolves with; `chart` is `none`
when the object has no chart. -/
structure AnimalSpecific where
  patterns : List String
  insights : List String
  chart : Option ChartSpec
deriving DecidableEq, Repr

/-- The report of `analyzePatterns` (`trends` is never written to). -/
structure PatternAnalysis where
  detected : List String
  insights : List String
  charts : List ChartSpec
  trends : List String
  cycles : List Cycle
deriving DecidableEq, Repr

/-- The outcomes of the four history-store queries `analyzePatterns` awaits: a
rejected promise is `error`; a promise fulfilled with an array of rows is
`ok (some rows)`, one fulfilled with a value that is no array (`null`,
`undefined`) is `ok none`. -/
structure PatternStore where
  getPatternData : Except String (Option (List PatternRow))
  getFrequencyByHour : Except String (Option (List HourlyFrequency))
  getFrequencyByDay : Except String (Option (List DailyFrequency))
  getSequentialPatterns : Except String (Option (List SequentialPattern))

/-- A sub-analysis called on the value a query resolved with: on a value that is
no array its first property access (`forEach`, `length`) throws a `TypeError`. -/
def onArray {α β : Type} (value : Option (List α)) (analysis : List α → Except String β) :
    Except String β :=
  match value with
  | some rows => analysis rows
  | none => .error "TypeError: Cannot read properties of null"

/-- The object returned from the `catch` block of `analyzePatterns`. -/
def degradedAnalysis : PatternAnalysis :=
  { detected := ["Error analizando patrones"], insights := [], charts := [], trends := [],
    cycles := [] }

/-- The `try` block of `analyzePatterns`, an exception being the `error` result.
`animalSpecific` is `none` when the argument `animal` is falsy, and else the
object `analyzeAnimalSpecificPatterns` resolves with: that function wraps all of
its queries in a `try`/`catch` of its own and resolves in every case. -/
def analyzePatternsTry (store : PatternStore) (animalSpecific : Option AnimalSpecific) :
    Except String PatternAnalysis := do
  let patternData ← store.getPatternData
  let frequencyByHour ← store.getFrequencyByHour
  let frequencyByDay ← store.getFrequencyByDay
  let sequentialPatterns ← store.getSequentialPatterns
  let hourlyPatterns ← onArray frequencyByHour fun rows => .ok (analyzeHourlyPatterns rows)
  let dailyPatterns ← onArray frequencyByDay fun rows => .ok (analyzeDailyPatterns rows)
  let sequenceAnalysis ← onArray sequentialPatterns analyzeSequentialPatterns
  let cyclicalAnalysis ← onArray patternData fun rows => .ok (analyzeCyclicalPatterns rows)
  let analysis : PatternAnalysis :=
    { detected := hourlyPatterns.patterns ++ dailyPatterns.patterns ++
        sequenceAnalysis.patterns ++ cyclicalAnalysis.patterns
      insights := hourlyPatterns.insights ++ dailyPatterns.insights ++
        sequenceAnalysis.insights
      charts := [hourlyPatterns.chart, dailyPatterns.chart]
      trends := []
      cycles := cyclicalAnalysis.cycles }
  match animalSpecific with
  | some specific =>
    pure { analysis with
      detected := analysis.detected ++ specific.patterns
      insights := analysis.insights ++ specific.insights
      charts := analysis.charts ++ specific.chart.toList }
  | none => pure analysis

/-- `analyzePatterns` of `patternAnalyzer.js`, the outcomes of its queries passed in. -/
def analyzePatterns (store : PatternStore) (animalSpecific : Option AnimalSpecific) :
    PatternAnalysis :=
  match analyzePatternsTry store animalSpecific with
  | .ok analysis => analysis
  | .error _ => degradedAnalysis

/-! ### Concrete inputs for the pattern analyzer -/

/-- A mined sequence of the form (A, B, A). -/
def outerRepetition : SequentialPattern :=
  { prev_2 := "Perro", prev_1 := "Gato", current := "Perro", frequency := 2 }

/-- Four mined sequences: one without repetition, one (A, A, B), one (A, B, A),
one (A, B, B). -/
def fourSequences : List SequentialPattern :=
  [⟨"Toro", "Gato", "Perro", 5⟩, ⟨"Gato", "Gato", "Perro", 4⟩, ⟨"Perro", "Gato", "Perro", 3⟩,
    ⟨"Toro", "Perro", "Perro", 2⟩]

/-- The history store of an empty window: every query resolves with no rows. -/
def emptyStore : PatternStore :=
  { getPatternData := .ok (some []), getFrequencyByHour := .ok (some []),
    getFrequencyByDay := .ok (some []), getSequentialPatterns := .ok (some []) }

/-- A history store whose weekday query is rejected. -/
def failingStore : PatternStore :=
  { emptyStore with getFrequencyByDay := .error "connection terminated" }

/-! ## Date ranges of the history store -/

/-- `.startOf('day')`: local midnight of the moment's day. -/
def Moment.startOfDay (m : Moment) : Moment := ⟨m.ms / msPerDay * msPerDay⟩

/-- `.endOf('day')`: the last millisecond of the moment's day. -/
def Moment.endOfDay (m : Moment) : Moment := ⟨m.ms / msPerDay * msPerDay + msPerDay - 1⟩

/-- `.day()`: the weekday, 0 for Sunday; day 0 (1970-01-01) is a Thursday. -/
def Moment.weekday (m : Moment) : ℤ := (m.ms / msPerDay + 4) % 7

/-- `.startOf('week')` in the default locale, whose weeks begin on Sunday. -/
def Moment.startOfWeek (m : Moment) : Moment := ⟨(m.ms / msPerDay - m.weekday) * msPerDay⟩

/-- `.endOf('week')`: the last millisecond of the Saturday of the moment's week. -/
def Moment.endOfWeek (m : Moment) : Moment :=
  ⟨(m.ms / msPerDay - m.weekday) * msPerDay + 7 * msPerDay - 1⟩

/-- The calendar date `(year, month, day of month)` of the day with the given
number, in the proleptic Gregorian calendar; day 0 is 1970-01-01. -/
def civilFromDays (days : ℤ) : ℤ × ℤ × ℤ :=
  let z := days + 719468
  let era := z / 146097
  let doe := z - era * 146097
  let yoe := (doe - doe / 1460 + doe / 36524 - doe / 146096) / 365
  let doy := doe - (365 * yoe + yoe / 4 - yoe / 100)
  let mp := (5 * doy + 2) / 153
  let d := doy - (153 * mp + 2) / 5 + 1
  let m := if mp < 10 then mp + 3 else mp - 9
  (yoe + era * 400 + (if m ≤ 2 then 1 else 0), m, d)

/-- The number of days of a month of the Gregorian calendar. -/
def daysInMonth (year month : ℤ) : ℤ :=
  if month = 2 then
    if (year % 4 = 0 ∧ year % 100 ≠ 0) ∨ year % 400 = 0 then 29 else 28
  else if month = 4 ∨ month = 6 ∨ month = 9 ∨ month = 11 then 30
  else 31

/-- `.startOf('month')`: local midnight of the first day of the moment's month. -/
def Moment.startOfMonth (m : Moment) : Moment :=
  let day := m.ms / msPerDay
  ⟨(day - ((civilFromDays day).2.2 - 1)) * msPerDay⟩

/-- `.endOf('month')`: the last millisecond of the moment's month. -/
def Moment.endOfMonth (m : Moment) : Moment :=
  let date := civilFromDays (m.ms / msPerDay)
  ⟨m.startOfMonth.ms + daysInMonth date.1 date.2.1 * msPerDay - 1⟩

/-- The object returned by `getDateRange`; `end_` is its property `end`. -/
structure DateRange where
  start : Moment
  end_ : Moment
deriving DecidableEq, Repr

/-- `getDateRange` of `models/Results.js`, the current instant `moment()` passed
in. The `switch` has a `default:` branch and no path of the function throws:
the result is `ok` on every path. -/
def getDateRange (now : Moment) (timeframe : String) : Except String DateRange :=
  match timeframe with
  | "today" => .ok { start := now.startOfDay, end_ := now.endOfDay }
  | "yesterday" =>
    .ok { start := (now.addDays (-1)).startOfDay, end_ := (now.addDays (-1)).endOfDay }
  | "this_week" => .ok { start := now.startOfWeek, end_ := now.endOfWeek }
  | "last_week" =>
    .ok { start := (now.addDays (-7)).startOfWeek, end_ := (now.addDays (-7)).endOfWeek }
  | "this_month" => .ok { start := now.startOfMonth, end_ := now.endOfMonth }
  | "recent_days" => .ok { start := now.addDays (-7), end_ := now }
  | _ => .ok { start := now.startOfWeek, end_ := now.endOfWeek }

/-- The six windows `getDateRange` has a `case` for. -/
def knownTimeframes : List String :=
  ["today", "yesterday", "this_week", "last_week", "this_month", "recent_days"]

/-- Noon of Tuesday 1970-01-13, day 12. -/
def noonOfDayTwelve : Moment := ⟨12 * 86400000 + 43200000⟩

/-! ## The pattern analyzer: the analysis of one symbol -/

/-- A row of `getAnimalStats` as `analyzeAnimalSpecificPatterns` reads it: the
name, the texts that the template prints for `count` and `percentage`, and the
number that `percentage` stands for in a comparison. -/
structure AnimalStatRow where
  animal_name : String
  count : String
  percentage : String
  percentageValue : ℚ
deriving DecidableEq, Repr

/-- The outcomes of the three history-store queries `analyzeAnimalSpecificPatterns`
awaits. `getLastAppearance` resolves with a row, given by the moment of its
`created_at`, or with `null`; the other two are as in `PatternStore`. -/
structure AnimalStore where
  getLastAppearance : Except String (Option Moment)
  getAnimalStats : Except String (Option (List AnimalStatRow))
  getPatternData : Except String (Option (List PatternRow))

/-- A number of two digits at least, as `DD` and `MM` print it. -/
def twoDigits (n : ℤ) : String :=
  if 0 ≤ n ∧ n < 10 then "0" ++ toString n else toString n

/-- `.format('DD/MM')`: day of the month and month of the moment's calendar day. -/
def Moment.formatDayMonth (m : Moment) : String :=
  let date := civilFromDays (m.ms / msPerDay)
  twoDigits date.2.2 ++ "/" ++ twoDigits date.2.1

/-- The first block of the `try` of `analyzeAnimalSpecificPatterns`: what is
pushed onto `patterns` and `insights` for the row `getLastAppearance` resolved with. -/
def lastAppearanceFindings (animal : String) (now : Moment) (lastAppearance : Option Moment) :
    List String × List String :=
  match lastAppearance with
  | some created_at =>
    let daysSince := now.diffDays created_at
    ([s!"Última aparición: {daysSince} días atrás"],
      if daysSince > 7 then
        [s!"{animal} lleva {daysSince} días sin aparecer, podría estar en ciclo de aparición"]
      else if daysSince < 2 then
        [s!"{animal} apareció recientemente, verificar si hay tendencia de repetición"]
      else [])
  | none => ([], [])

/-- The second block: what is pushed for the row of the symbol among the rows
`getAnimalStats` resolved with, if there is one. -/
def animalStatFindings (animal timeframe : String) (animalStats : List AnimalStatRow) :
    List String × List String :=
  match animalStats.find? fun stat => stat.animal_name = animal with
  | some animalStat =>
    ([s!"Frecuencia {timeframe}: {animalStat.count} veces ({animalStat.percentage}%)"],
      if animalStat.percentageValue > 5 then
        [s!"{animal} está mostrando alta frecuencia en el período analizado"]
      else if animalStat.percentageValue < 1 then
        [s!"{animal} está mostrando baja frecuencia, posible oportunidad"]
      else [])
  | none => ([], [])

/-- The chart built in the third block from a non-empty list of rows. -/
def timelineChart (animal : String) (patternData : List PatternRow) : ChartSpec :=
  { type := "line"
    title := s!"Tendencia Temporal: {animal}"
    labels := patternData.map fun item => item.date.formatDayMonth
    data := patternData.map fun item => item.frequency }

/-- `analyzeAnimalSpecificPatterns` of `patternAnalyzer.js`, the current instant
and the outcomes of its queries passed in. The arrays `patterns` and `insights`
are declared before the `try`: when a query is rejected, or resolves with a
value that is no array, the `catch` block logs the exception and the function
resolves with what was pushed until then, without a chart. -/
def analyzeAnimalSpecificPatterns (animal timeframe : String) (now : Moment)
    (store : AnimalStore) : AnimalSpecific :=
  match store.getLastAppearance with
  | .ok lastAppearance =>
    let first := lastAppearanceFindings animal now lastAppearance
    match store.getAnimalStats with
    | .ok (some animalStats) =>
      let second := animalStatFindings animal timeframe animalStats
      let patterns := first.1 ++ second.1
      let insights := first.2 ++ second.2
      match store.getPatternData with
      | .ok (some patternData) =>
        if patternData.length > 0 then
          { patterns := patterns, insights := insights,
            chart := some (timelineChart animal patternData) }
        else { patterns := patterns, insights := insights, chart := none }
      | _ => { patterns := patterns, insights := insights, chart := none }
    | _ => { patterns := first.1, insights := first.2, chart := none }
  | .error _ => { patterns := [], insights := [], chart := none }

/-- `analyzePatterns(timeframe, animal)` with the analysis of the symbol computed
from the outcomes of its own queries. `animal` is `none` for `null`; the empty
string is falsy as well. -/
def analyzePatternsFor (timeframe : String) (animal : Option String) (now : Moment)
    (store : PatternStore) (animalStore : AnimalStore) : PatternAnalysis :=
  analyzePatterns store
    (match animal with
     | some name =>
       if name = "" then none
       else some (analyzeAnimalSpecificPatterns name timeframe now animalStore)
     | none => none)

/-- A history store on which the three queries for one symbol are rejected. -/
def rejectingAnimalStore : AnimalStore :=
  { getLastAppearance := .error "connection terminated"
    getAnimalStats := .error "connection terminated"
    getPatternData := .error "connection terminated" }

/-- A history store on which the symbol was last drawn at noon of day 2, its
statistics query is rejected and its pattern query is not reached. -/
def halfwayAnimalStore : AnimalStore :=
  { getLastAppearance := .ok (some ⟨2 * 86400000 + 43200000⟩)
    getAnimalStats := .error "connection terminated"
    getPatternData := .ok (some []) }

/-! ## The forecast -/

/-- An element of `recommendations`. -/
structure Recommendation where
  animal : String
  confidence : ℚ
  reason : String
  priority : ℕ
deriving DecidableEq, Repr

/-- `generateRecommendations` of `predictionEngine.js`. -/
def generateRecommendations (topPredictions : List CombinedPrediction)
    (patterns : PatternAnalysis) : List Recommendation :=
  topPredictions.enum.map fun entry =>
    let index := entry.1
    let pred := entry.2
    let reason :=
      match pred.reasons.head? with
      | some first =>
        if first = "" then "Análisis combinado de múltiples algoritmos" else first
      | none => "Análisis combinado de múltiples algoritmos"
    { animal := pred.animal
      confidence := pred.confidence
      reason :=
        if patterns.cycles.any (fun c => c.animal == pred.animal) then
          reason ++ " + Ciclo temporal detectado"
        else reason
      priority := index + 1 }

/-- The record `generatePredictions` resolves with; a property the object lacks
is `none`. -/
structure Forecast where
  next_draw : List CombinedPrediction
  recommendations : List Recommendation
  trend : String
  model_confidence : ℤ
  analysis_timestamp : Option String
  error : Option String
deriving DecidableEq, Repr

/-- What `generatePredictions` reads from its environment: the clock, the
outcome of loading the catalog file with `require` (`error` when that throws)
and the outcomes of the history-store queries (a rejected promise is `error`).
`recentResults` is the outcome of the detached query `getRecentResults(2)` of
`calculateSequentialPredictions` if it has settled by the time the five lists
are combined, and `none` if it is still pending then. -/
structure ForecastInputs where
  timestamp : String
  catalog : Except String (List CatalogAnimal)
  recentStats : Except String (List AnimalStat)
  weeklyStats : Except String (List AnimalStat)
  patternStore : PatternStore
  sequentialPatterns : Except String (List SequentialPattern)
  recentResults : Option (Except String (List DrawResult))
  now : Moment
  currentHour : ℤ
  currentDay : ℤ
  hourlyFreq : Except String (List HourlyFrequency)
  dailyFreq : Except String (List DailyFrequency)
  today : ℤ
  findAll : ℤ → Except String (List String)

/-- The object returned from the `catch` block of `generatePredictions`. -/
def failedForecast : Forecast :=
  { next_draw := [], recommendations := [], trend := "No disponible", model_confidence := 0,
    analysis_timestamp := none, error := some "Error generando predicciones" }

/-- The `try` block of `generatePredictions`, an exception being the `error`
result. -/
def generatePredictionsTry (inputs : ForecastInputs) : Except String Forecast := do
  let recentStats ← inputs.recentStats
  let weeklyStats ← inputs.weeklyStats
  let patterns := analyzePatterns inputs.patternStore none
  let sequentialPatterns ← inputs.sequentialPatterns
  let animals ← inputs.catalog
  let inverseFrequencyPreds :=
    calculateInverseFrequencyPredictions animals recentStats weeklyStats
  let cyclicalPreds := calculateCyclicalPredictions inputs.now patterns.cycles
  let sequentialCall := calculateSequentialPredictions sequentialPatterns
  let temporalPreds :=
    calculateTemporalPredictions inputs.currentHour inputs.currentDay inputs.hourlyFreq
      inputs.dailyFreq
  let trendPreds := calculateTrendPredictions animals inputs.today inputs.findAll
  let sequentialPreds :=
    match inputs.recentResults with
    | some outcome => sequentialCall.settled outcome
    | none => sequentialCall.returned
  let combinedPredictions ← combineAlgorithmResults64
    [{ results := inverseFrequencyPreds, weight := 1 / 4 },
      { results := cyclicalPreds, weight := 1 / 5 },
      { results := sequentialPreds, weight := 3 / 20 },
      { results := temporalPreds, weight := 1 / 4 },
      { results := trendPreds, weight := 3 / 20 }]
  pure
    { next_draw := combinedPredictions.take 10
      recommendations := generateRecommendations (combinedPredictions.take 5) patterns
      trend := calculateOverallTrend recentStats weeklyStats
      model_confidence := calculateModelConfidence combinedPredictions
      analysis_timestamp := some inputs.timestamp
      error := none }

/-- `generatePredictions` of `predictionEngine.js`. -/
def generatePredictions (inputs : ForecastInputs) : Forecast :=
  match generatePredictionsTry inputs with
  | .ok predictions => predictions
  | .error _ => failedForecast

/-- An environment in which every query of the history store is rejected. -/
def offlineInputs : ForecastInputs :=
  { timestamp := "1970-01-13T12:00:00.000Z"
    catalog := .ok smallCatalog
    recentStats := .error "connection terminated"
    weeklyStats := .error "connection terminated"
    patternStore :=
      { getPatternData := .error "connection terminated"
        getFrequencyByHour := .error "connection terminated"
        getFrequencyByDay := .error "connection terminated"
        getSequentialPatterns := .error "connection terminated" }
    sequentialPatterns := .error "connection terminated"
    recentResults := some (.error "connection terminated")
    now := noonOfDayTwelve
    currentHour := 12
    currentDay := 2
    hourlyFreq := .error "connection terminated"
    dailyFreq := .error "connection terminated"
    today := 12
    findAll := fun _ => .error "connection terminated" }

/-- An environment whose history store holds no draws: every query resolves with
no rows. -/
def quietInputs : ForecastInputs :=
  { timestamp := "1970-01-13T12:00:00.000Z"
    catalog := .ok smallCatalog
    recentStats := .ok []
    weeklyStats := .ok []
    patternStore := emptyStore
    sequentialPatterns := .ok []
    recentResults := some (.ok [])
    now := noonOfDayTwelve
    currentHour := 12
    currentDay := 2
    hourlyFreq := .ok []
    dailyFreq := .ok []
    today := 12
    findAll := fun _ => .ok [] }
/-! ### Lemmas on the combiner -/

theorem firstSeen_snoc (l : List String) (a : String) :
    firstSeen (l ++ [a]) = if a ∈ firstSeen l then firstSeen l else firstSeen l ++ [a] := by
  simp [firstSeen, List.foldl_append]

theorem mem_firstSeen (l : List String) (a : String) : a ∈ firstSeen l ↔ a ∈ l := by
  induction l using List.reverseRecOn with
  | nil => simp [firstSeen]
  | append_singleton l b ih =>
    rw [firstSeen_snoc]
    by_cases hb : b ∈ firstSeen l
    · rw [if_pos hb]
      constructor
      · intro h; exact List.mem_append_left _ (ih.1 h)
      · intro h
        rcases List.mem_append.1 h with h | h
        · exact ih.2 h
        · simp at h; subst h; exact hb
    · rw [if_neg hb]
      simp [List.mem_append, ih]

theorem nodup_firstSeen (l : List String) : (firstSeen l).Nodup := by
  induction l using List.reverseRecOn with
  | nil => simp [firstSeen]
  | append_singleton l b ih =>
    rw [firstSeen_snoc]
    by_cases hb : b ∈ firstSeen l
    · rw [if_pos hb]; exact ih
    · rw [if_neg hb]
      rw [List.nodup_append]
      refine ⟨ih, by simp, ?_⟩
      intro x hx hy
      simp at hy
      subst hy
      exact hb hx

/-- In `firstSeen l` the symbols stand in the order of their first occurrence in `l`. -/
theorem pairwise_firstSeen (l : List String) :
    (firstSeen l).Pairwise fun s₁ s₂ => l.indexOf s₁ < l.indexOf s₂ := by
  induction l using List.reverseRecOn with
  | nil => simp [firstSeen]
  | append_singleton l b ih =>
    have hmono : (firstSeen l).Pairwise
        fun s₁ s₂ => (l ++ [b]).indexOf s₁ < (l ++ [b]).indexOf s₂ := by
      refine ih.imp_of_mem ?_
      intro s₁ s₂ h₁ h₂ h
      rw [List.indexOf_append_of_mem ((mem_firstSeen l s₁).1 h₁),
        List.indexOf_append_of_mem ((mem_firstSeen l s₂).1 h₂)]
      exact h
    rw [firstSeen_snoc]
    by_cases hb : b ∈ firstSeen l
    · rw [if_pos hb]; exact hmono
    · rw [if_neg hb, List.pairwise_append]
      refine ⟨hmono, by simp, ?_⟩
      intro s₁ h₁ s₂ h₂
      simp at h₂
      subst h₂
      have hbl : s₂ ∉ l := fun h => hb ((mem_firstSeen l s₂).2 h)
      rw [List.indexOf_append_of_mem ((mem_firstSeen l s₁).1 h₁),
        List.indexOf_append_of_not_mem hbl]
      have := List.indexOf_lt_length.2 ((mem_firstSeen l s₁).1 h₁)
      simp
      omega

/-- The loops of `combineAlgorithmResults` as one pass over the weighted candidates. -/
theorem combinedAfter_eq_foldl (ars : List AlgorithmResult) :
    combinedAfter ars
      = (weightedCandidates ars).foldl (fun acc pw => addPrediction pw.2 acc pw.1) [] := by
  unfold combinedAfter weightedCandidates
  generalize ([] : List CombinedPrediction) = init
  induction ars generalizing init with
  | nil => simp
  | cons ar ars ih =>
    simp only [List.foldl_cons, List.flatMap_cons, List.foldl_append, List.foldl_map]
    exact ih _

theorem entryOf_animal (l : List (Prediction × ℚ)) (s : String) : (entryOf l s).animal = s := rfl

theorem entryOf_snoc (l : List (Prediction × ℚ)) (x : Prediction × ℚ) (s : String) :
    entryOf (l ++ [x]) s
      = if s = x.1.animal then (entryOf l s).accumulate x.1 x.2 else entryOf l s := by
  by_cases h : s = x.1.animal
  · rw [if_pos h]
    simp [entryOf, candidatesOf, CombinedPrediction.accumulate, List.filter_append, h]
  · rw [if_neg h]
    have h' : ¬ x.1.animal = s := fun e => h e.symm
    simp [entryOf, candidatesOf, List.filter_append, h']

theorem entryOf_of_not_mem (l : List (Prediction × ℚ)) (s : String)
    (h : s ∉ l.map fun pw => pw.1.animal) : entryOf l s = CombinedPrediction.fresh s := by
  have : candidatesOf l s = [] := by
    unfold candidatesOf
    rw [List.filter_eq_nil_iff]
    intro pw hpw
    simp only [decide_eq_true_eq]
    intro e
    exact h (List.mem_map.2 ⟨pw, hpw, e⟩)
  simp [entryOf, this, CombinedPrediction.fresh]

/-- The dictionary after the loops: one entry per distinct symbol, in first-seen
order, each the specification's entry of its symbol. -/
theorem foldl_addPrediction_eq (l : List (Prediction × ℚ)) :
    l.foldl (fun acc pw => addPrediction pw.2 acc pw.1) []
      = (firstSeen (l.map fun pw => pw.1.animal)).map (entryOf l) := by
  induction l using List.reverseRecOn with
  | nil => simp [firstSeen]
  | append_singleton l x ih =>
    rw [List.foldl_append, List.foldl_cons, List.foldl_nil, ih, List.map_append,
      List.map_cons, List.map_nil, firstSeen_snoc]
    have hupd : ∀ s, (if (entryOf l s).animal = x.1.animal
          then (entryOf l s).accumulate x.1 x.2 else entryOf l s) = entryOf (l ++ [x]) s := by
      intro s
      rw [entryOf_snoc, entryOf_animal]
    have hany : (List.map (entryOf l) (firstSeen (l.map fun pw => pw.1.animal))).any
          (fun c => c.animal == x.1.animal) = true
        ↔ x.1.animal ∈ firstSeen (l.map fun pw => pw.1.animal) := by
      simp [List.any_eq_true, entryOf_animal]
    unfold addPrediction
    by_cases hx : x.1.animal ∈ firstSeen (l.map fun pw => pw.1.animal)
    · rw [if_pos (hany.2 hx), if_pos hx, List.map_map]
      exact List.map_congr_left fun s _ => hupd s
    · rw [if_neg (fun h => hx (hany.1 h)), if_neg hx, List.map_append, List.map_append,
        List.map_map]
      congr 1
      · exact List.map_congr_left fun s _ => hupd s
      · have hnot : x.1.animal ∉ l.map fun pw => pw.1.animal :=
          fun h => hx ((mem_firstSeen _ _).2 h)
        rw [← entryOf_of_not_mem l _ hnot]
        simp only [List.map_cons, List.map_nil]
        rw [hupd]

/-! ### Stability of the sort -/

/-- Inserting an element that stood before all of a stably sorted list keeps the
list sorted with ties in the original order. -/
theorem pairwise_orderedInsert_stable {α : Type} (r S : α → α → Prop) [DecidableRel r]
    (htot : ∀ a b, r a b ∨ r b a) (htrans : ∀ a b c, r a b → r b c → r a c)
    (a : α) (L : List α) (hL : L.Pairwise fun x y => r x y ∧ (r y x → S x y))
    (ha : ∀ b ∈ L, S a b) :
    (L.orderedInsert r a).Pairwise fun x y => r x y ∧ (r y x → S x y) := by
  induction L with
  | nil => simp
  | cons b L ih =>
    rw [List.pairwise_cons] at hL
    rw [List.orderedInsert]
    by_cases hab : r a b
    · rw [if_pos hab, List.pairwise_cons, List.pairwise_cons]
      refine ⟨?_, hL.1, hL.2⟩
      intro x hx
      rcases List.mem_cons.1 hx with rfl | hx
      · exact ⟨hab, fun _ => ha _ (List.mem_cons_self _ _)⟩
      · exact ⟨htrans _ _ _ hab (hL.1 x hx).1, fun _ => ha _ (List.mem_cons_of_mem _ hx)⟩
    · rw [if_neg hab, List.pairwise_cons]
      refine ⟨?_, ih hL.2 fun x hx => ha _ (List.mem_cons_of_mem _ hx)⟩
      intro x hx
      rcases (List.mem_orderedInsert r).1 hx with rfl | hx
      · exact ⟨(htot _ _).resolve_right hab, fun h => absurd h hab⟩
      · exact hL.1 x hx

/-- Insertion sort is stable: the result is sorted, and elements the order does
not separate keep the relative position they had in the input. -/
theorem pairwise_insertionSort_stable {α : Type} (r S : α → α → Prop) [DecidableRel r]
    (htot : ∀ a b, r a b ∨ r b a) (htrans : ∀ a b c, r a b → r b c → r a c)
    (l : List α) (hl : l.Pairwise S) :
    (l.insertionSort r).Pairwise fun x y => r x y ∧ (r y x → S x y) := by
  induction l with
  | nil => simp
  | cons a l ih =>
    rw [List.pairwise_cons] at hl
    rw [List.insertionSort]
    exact pairwise_orderedInsert_stable r S htot htrans a _ (ih hl.2)
      fun b hb => hl.1 b ((List.mem_insertionSort r).1 hb)

/-- The forecast is the stable sort of the rounded specification entries of the
distinct symbols taken in first-seen order. -/
theorem combineAlgorithmResults_eq (ars : List AlgorithmResult) :
    combineAlgorithmResults ars
      = ((firstSeen (seenSymbols ars)).map
          fun s => roundEntry (entryOf (weightedCandidates ars) s)).insertionSort
            byProbabilityDesc := by
  unfold combineAlgorithmResults seenSymbols
  rw [combinedAfter_eq_foldl, foldl_addPrediction_eq, List.map_map]
  rfl

theorem mem_seenSymbols (ars : List AlgorithmResult) (s : String) :
    s ∈ seenSymbols ars ↔ ∃ ar ∈ ars, ∃ p ∈ ar.results, p.animal = s := by
  simp only [seenSymbols, weightedCandidates, List.mem_map, List.mem_flatMap]
  constructor
  · rintro ⟨pw, ⟨ar, har, p, hp, rfl⟩, rfl⟩
    exact ⟨ar, har, p, hp, rfl⟩
  · rintro ⟨ar, har, p, hp, rfl⟩
    exact ⟨(p, ar.weight), ⟨ar, har, p, hp, rfl⟩, rfl⟩

theorem combineAlgorithmResults_perm (ars : List AlgorithmResult) :
    (combineAlgorithmResults ars).Perm
      ((firstSeen (seenSymbols ars)).map
        fun s => roundEntry (entryOf (weightedCandidates ars) s)) := by
  rw [combineAlgorithmResults_eq]
  exact List.perm_insertionSort _ _

theorem mem_combineAlgorithmResults (ars : List AlgorithmResult) (e : CombinedPrediction)
    (he : e ∈ combineAlgorithmResults ars) :
    e = roundEntry (entryOf (weightedCandidates ars) e.animal) := by
  have h := (combineAlgorithmResults_perm ars).mem_iff.1 he
  obtain ⟨s, _, rfl⟩ := List.mem_map.1 h
  rfl

/-! ### Single-algorithm input -/

theorem weightedCandidates_of_empty (l : List AlgorithmResult)
    (h : ∀ ar ∈ l, ar.results = []) : weightedCandidates l = [] := by
  induction l with
  | nil => rfl
  | cons ar l ih =>
    have h1 : ar.results = [] := h ar (List.mem_cons_self _ _)
    have h2 := ih fun x hx => h x (List.mem_cons_of_mem _ hx)
    unfold weightedCandidates at h2 ⊢
    rw [List.flatMap_cons, h2, h1]
    rfl

theorem weightedCandidates_single (pre post : List AlgorithmResult) (ar : AlgorithmResult)
    (hpre : ∀ x ∈ pre, x.results = []) (hpost : ∀ x ∈ post, x.results = []) :
    weightedCandidates (pre ++ ar :: post) = ar.results.map fun p => (p, ar.weight) := by
  have h1 := weightedCandidates_of_empty pre hpre
  have h2 := weightedCandidates_of_empty post hpost
  unfold weightedCandidates at h1 h2 ⊢
  rw [List.flatMap_append, List.flatMap_cons, h1, h2, List.nil_append, List.append_nil]

theorem sum_candidatesOf_single (results : List Prediction) (w : ℚ) (s : String) :
    ((candidatesOf (results.map fun p => (p, w)) s).map fun pw => pw.1.probability * pw.2).sum
      = ((results.filter fun p => p.animal = s).map fun p => p.probability).sum * w := by
  unfold candidatesOf
  induction results with
  | nil => simp
  | cons p results ih =>
    by_cases hp : p.animal = s
    · simp only [List.map_cons, List.filter_cons, hp, decide_True, if_true, List.sum_cons]
      simp only [List.map_cons, List.filter_cons, hp] at ih
      rw [ih, add_mul]
    · simp only [List.map_cons, List.filter_cons, hp, decide_False, Bool.false_eq_true,
        if_false]
      exact ih

/-- C6 (amended). For a single-algorithm input (one candidate list with weight
`w`, every other list empty) the combined probability of every symbol in the
output is the sum of that algorithm's candidate probabilities for the symbol
times `w`, rounded to two decimals; when the algorithm has one candidate for the
symbol this is that candidate's probability times `w` rounded to two decimals. -/
theorem combineAlgorithmResults_single (pre post : List AlgorithmResult)
    (results : List Prediction) (w : ℚ)
    (hpre : ∀ x ∈ pre, x.results = []) (hpost : ∀ x ∈ post, x.results = []) :
    ∀ e ∈ combineAlgorithmResults (pre ++ ⟨results, w⟩ :: post),
      e.probability = roundTwoDecimals
        (((results.filter fun p => p.animal = e.animal).map fun p => p.probability).sum * w) ∧
      ∀ p, (results.filter fun q => q.animal = e.animal) = [p] →
        e.probability = roundTwoDecimals (p.probability * w) := by
  intro e he
  have h := congrArg CombinedPrediction.probability (mem_combineAlgorithmResults _ e he)
  rw [weightedCandidates_single pre post ⟨results, w⟩ hpre hpost] at h
  have h' : e.probability = roundTwoDecimals
      (((results.filter fun p => p.animal = e.animal).map fun p => p.probability).sum * w) := by
    rw [← sum_candidatesOf_single]
    exact h
  refine ⟨h', ?_⟩
  intro p hp
  rw [h', hp]
  simp

theorem combineAlgorithmResults_onlyInverseFrequency :
    combineAlgorithmResults onlyInverseFrequency = [combinedAbsent] := by
  rw [combineAlgorithmResults_eq]
  simp [seenSymbols, weightedCandidates, firstSeen, onlyInverseFrequency, absentCandidate,
    combinedAbsent, roundEntry, entryOf, candidatesOf, roundTwoDecimals, mathRound]
  norm_num

theorem combineAlgorithmResults_single_witness :
    (∀ x ∈ ([] : List AlgorithmResult), x.results = []) ∧
    (∀ x ∈ [(⟨[], 1 / 5⟩ : AlgorithmResult), ⟨[], 3 / 20⟩, ⟨[], 1 / 4⟩, ⟨[], 3 / 20⟩],
      x.results = []) ∧
    combinedAbsent ∈ combineAlgorithmResults onlyInverseFrequency ∧
    combinedAbsent.probability = roundTwoDecimals
      ((([absentCandidate].filter fun p => p.animal = combinedAbsent.animal).map
        fun p => p.probability).sum * (1 / 4)) :=
  ⟨by simp, by simp,
    by rw [combineAlgorithmResults_onlyInverseFrequency]; exact List.mem_singleton_self _,
    (combineAlgorithmResults_single []
      [⟨[], 1 / 5⟩, ⟨[], 3 / 20⟩, ⟨[], 1 / 4⟩, ⟨[], 3 / 20⟩] [absentCandidate] (1 / 4)
      (by simp) (by simp) combinedAbsent
      (by show combinedAbsent ∈ combineAlgorithmResults onlyInverseFrequency
          rw [combineAlgorithmResults_onlyInverseFrequency]
          exact List.mem_singleton_self _)).1⟩

/-- C6 as stated fails: with the inverse-frequency list alone (weight 0.25, one
candidate of probability 1.94) the combined probability is 0.49, not
1.94 * 0.25 = 0.485. -/
theorem combineAlgorithmResults_single_counterexample :
    ¬ ∀ e ∈ combineAlgorithmResults onlyInverseFrequency,
        ∀ p ∈ [absentCandidate], p.animal = e.animal →
          e.probability = p.probability * (1 / 4) := by
  rw [combineAlgorithmResults_onlyInverseFrequency]
  intro h
  have := h _ (List.mem_singleton_self _) absentCandidate (List.mem_singleton_self _) rfl
  norm_num [absentCandidate, combinedAbsent] at this

/-! ### Permuting the algorithm lists -/

theorem weightedCandidates_perm {ars ars' : List AlgorithmResult} (h : ars.Perm ars') :
    (weightedCandidates ars).Perm (weightedCandidates ars') :=
  List.Perm.flatMap_right _ h

theorem firstSeen_perm {l l' : List String} (h : l.Perm l') :
    (firstSeen l).Perm (firstSeen l') := by
  rw [List.perm_ext_iff_of_nodup (nodup_firstSeen l) (nodup_firstSeen l')]
  intro a
  rw [mem_firstSeen, mem_firstSeen, h.mem_iff]

theorem candidatesOf_perm {l l' : List (Prediction × ℚ)} (h : l.Perm l') (s : String) :
    (candidatesOf l s).Perm (candidatesOf l' s) :=
  List.Perm.filter _ h

/-! ### The loop of `detectCycle` -/

theorem detectCycleStep_eq (data : List SeriesEntry) (p : ℕ) (acc : ℕ × ℕ) (i : ℕ) :
    detectCycleStep data p acc i
      = (if |dayGap data i (i - p) - p| ≤ 1 then acc.1 + 1 else acc.1, acc.2 + 1) := rfl

theorem foldl_detectCycleStep (data : List SeriesEntry) (p : ℕ) (L : List ℕ) (acc : ℕ × ℕ) :
    L.foldl (detectCycleStep data p) acc
      = (acc.1 + L.countP (fun i => |dayGap data i (i - p) - p| ≤ 1), acc.2 + L.length) := by
  induction L generalizing acc with
  | nil => simp
  | cons i L ih =>
    rw [List.foldl_cons, ih, detectCycleStep_eq]
    by_cases h : |dayGap data i (i - p) - p| ≤ 1
    · rw [if_pos h, List.countP_cons_of_pos _ _ (by simpa using h), List.length_cons]
      simp only [Prod.mk.injEq]
      exact ⟨by omega, by omega⟩
    · rw [if_neg h, List.countP_cons_of_neg _ _ (by simpa using h), List.length_cons]
      simp only [Prod.mk.injEq]
      exact ⟨trivial, by omega⟩

theorem countP_range_ge (q : ℕ → Bool) (p : ℕ) :
    ∀ n, (List.range n).countP (fun i => decide (p ≤ i) && q i)
      = (List.range' p (n - p)).countP q
  | 0 => by simp
  | n + 1 => by
    rw [List.range_succ, List.countP_append, countP_range_ge q p n]
    by_cases h : p ≤ n
    · have e : n + 1 - p = (n - p) + 1 := by omega
      rw [e, List.range'_concat, List.countP_append]
      have e' : p + 1 * (n - p) = n := by omega
      rw [e']
      simp [List.countP_cons, h]
    · have e : n + 1 - p = 0 := by omega
      have e' : n - p = 0 := by omega
      simp [e, e', h]

theorem detectCycleCounts_eq (data : List SeriesEntry) (p : ℕ) :
    detectCycleCounts data p = (matchCount data p, boundaryCount data p) := by
  unfold detectCycleCounts matchCount boundaryCount
  rw [foldl_detectCycleStep]
  have h1 := countP_range_ge (fun i => decide (|dayGap data i (i - p) - p| ≤ 1)) p data.length
  have h2 := countP_range_ge (fun _ => true) p data.length
  simp only [Bool.and_true, List.countP_true] at h2
  simp only [List.length_range'] at h2 ⊢
  rw [h2]
  simp only [zero_add, Prod.mk.injEq, and_true]
  rw [← h1]
  congr 1
  funext i
  simp

/-! ### binary64 rounding -/

theorem roundHalfEven_sub_abs (q : ℚ) : |(roundHalfEven q : ℚ) - q| ≤ 1 / 2 := by
  have h0 := Int.floor_le q
  have h1 := Int.lt_floor_add_one q
  unfold roundHalfEven
  rw [abs_le]
  split_ifs <;> push_cast <;> constructor <;> linarith

theorem two_zpow_pos (k : ℤ) : (0 : ℚ) < 2 ^ k := zpow_pos (by norm_num) k

theorem binadeOf_eq (x : ℚ) (e : ℤ) (h0 : 0 < x) (h1 : (2 : ℚ) ^ e ≤ x)
    (h2 : x < (2 : ℚ) ^ (e + 1)) (he : -1022 ≤ e) : binadeOf x = e := by
  have hlog : Int.log 2 x = e := by
    apply le_antisymm
    · have := (Int.lt_zpow_iff_log_lt (b := 2) (by norm_num) h0 (x := e + 1)).1
        (by simpa using h2)
      omega
    · exact (Int.zpow_le_iff_le_log (b := 2) (by norm_num) h0 (x := e)).1 (by simpa using h1)
  unfold binadeOf
  rw [abs_of_pos h0, hlog]
  exact max_eq_left he

theorem binadeOf_lt (x : ℚ) (k : ℤ) (h0 : 0 < x) (hk : x < (2 : ℚ) ^ k) (hk' : -1021 ≤ k) :
    binadeOf x ≤ k - 1 := by
  have hlog : Int.log 2 x < k :=
    (Int.lt_zpow_iff_log_lt (b := 2) (by norm_num) h0 (x := k)).1 (by simpa using hk)
  unfold binadeOf
  rw [abs_of_pos h0]
  exact max_le (by omega) (by omega)

/-- The value of `fl` on a positive number whose binade is known. -/
theorem fl_eq_of_binade (x : ℚ) (e : ℤ) (h0 : 0 < x) (h1 : (2 : ℚ) ^ e ≤ x)
    (h2 : x < (2 : ℚ) ^ (e + 1)) (he : -1022 ≤ e) :
    fl x = (roundHalfEven (x / 2 ^ (e - 52)) : ℚ) * 2 ^ (e - 52) := by
  unfold fl
  rw [if_neg (ne_of_gt h0), binadeOf_eq x e h0 h1 h2 he]

/-- Rounding error of `fl` below `2 ^ k`: at most half a unit in the last place. -/
theorem fl_sub_abs_le (x : ℚ) (k : ℤ) (h0 : 0 < x) (hk : x < (2 : ℚ) ^ k) (hk' : -1021 ≤ k) :
    |fl x - x| ≤ (2 : ℚ) ^ (k - 54) := by
  have hb := binadeOf_lt x k h0 hk hk'
  have hu : (0 : ℚ) < 2 ^ (binadeOf x - 52) := two_zpow_pos _
  have hule : (2 : ℚ) ^ (binadeOf x - 52) ≤ 2 ^ (k - 53) :=
    zpow_le_zpow_right₀ (by norm_num) (by omega)
  have hhalf : (2 : ℚ) ^ (k - 54) = 2 ^ (k - 53) / 2 := by
    have : k - 53 = (k - 54) + 1 := by ring
    rw [this, zpow_add_one₀ (by norm_num)]
    ring
  have hr := roundHalfEven_sub_abs (x / 2 ^ (binadeOf x - 52))
  have heq : fl x - x
      = ((roundHalfEven (x / 2 ^ (binadeOf x - 52)) : ℚ) - x / 2 ^ (binadeOf x - 52))
        * 2 ^ (binadeOf x - 52) := by
    unfold fl
    rw [if_neg (ne_of_gt h0)]
    field_simp
  rw [heq, abs_mul, abs_of_pos hu, hhalf]
  calc |(roundHalfEven (x / 2 ^ (binadeOf x - 52)) : ℚ) - x / 2 ^ (binadeOf x - 52)|
        * 2 ^ (binadeOf x - 52)
      ≤ 1 / 2 * 2 ^ (binadeOf x - 52) := mul_le_mul_of_nonneg_right hr hu.le
    _ ≤ 1 / 2 * 2 ^ (k - 53) := mul_le_mul_of_nonneg_left hule (by norm_num)
    _ = 2 ^ (k - 53) / 2 := by ring

theorem fl_zero : fl 0 = 0 := by simp [fl]

/-- The double-precision value of `(m / t) * 100` is within `2 ^ (-45)` of `100 m / t`. -/
theorem fl_ratio_times_hundred (m t : ℕ) (ht : 0 < t) (hmt : m ≤ t) (ht44 : t ≤ 2 ^ 44) :
    |fl (fl ((m : ℚ) / (t : ℚ)) * 100) - 100 * (m : ℚ) / (t : ℚ)| < 1 / 2 ^ 45 := by
  have htq : (0 : ℚ) < t := by exact_mod_cast ht
  rcases Nat.eq_zero_or_pos m with rfl | hm
  · simp [fl_zero]
  have hmq : (1 : ℚ) ≤ m := by exact_mod_cast hm
  have hmtq : (m : ℚ) ≤ t := by exact_mod_cast hmt
  have ht44q : (t : ℚ) ≤ 2 ^ 44 := by exact_mod_cast ht44
  have hx0 : (0 : ℚ) < (m : ℚ) / t := by positivity
  have hx1 : (m : ℚ) / t ≤ 1 := (div_le_one htq).2 hmtq
  have hxlow : (1 : ℚ) / 2 ^ 44 ≤ (m : ℚ) / t := by
    rw [div_le_div_iff₀ (by positivity) htq]
    nlinarith
  have e1 := fl_sub_abs_le ((m : ℚ) / t) 1 hx0 (by norm_num; linarith) (by norm_num)
  have hz1 : (2 : ℚ) ^ ((1 : ℤ) - 54) = 1 / 2 ^ 53 := by norm_num
  rw [hz1, abs_le] at e1
  set y := fl ((m : ℚ) / t) with hy
  have hy0 : (0 : ℚ) < y * 100 := by
    have : (0 : ℚ) < y := by
      have : (1 : ℚ) / 2 ^ 53 < 1 / 2 ^ 44 := by norm_num
      linarith [e1.1]
    positivity
  have hy7 : y * 100 < (2 : ℚ) ^ (7 : ℤ) := by
    have : (1 : ℚ) / 2 ^ 53 < 1 / 100 := by norm_num
    norm_num
    linarith [e1.2]
  have e2 := fl_sub_abs_le (y * 100) 7 hy0 hy7 (by norm_num)
  have hz2 : (2 : ℚ) ^ ((7 : ℤ) - 54) = 1 / 2 ^ 47 := by norm_num
  rw [hz2, abs_le] at e2
  have hxe : 100 * (m : ℚ) / t = (m : ℚ) / t * 100 := by ring
  rw [hxe, abs_lt]
  have hnum : (1 : ℚ) / 2 ^ 47 + 100 * (1 / 2 ^ 53) < 1 / 2 ^ 45 := by norm_num
  constructor <;> linarith [e1.1, e1.2, e2.1, e2.2]

/-- The integer nearest to `100 m / t` (a tie going up), by integer division. -/
theorem mathRound_ratio (m t : ℕ) (ht : 0 < t) :
    mathRound (100 * (m : ℚ) / (t : ℚ)) = ((200 * m + t) / (2 * t) : ℕ) := by
  have htq : (0 : ℚ) < t := by exact_mod_cast ht
  have hdiv := Nat.div_add_mod (200 * m + t) (2 * t)
  have hmod := Nat.mod_lt (200 * m + t) (show 0 < 2 * t by omega)
  generalize (200 * m + t) / (2 * t) = n at hdiv ⊢
  generalize (200 * m + t) % (2 * t) = r at hdiv hmod
  have hdivq : 2 * (t : ℚ) * n + r = 200 * m + t := by exact_mod_cast hdiv
  have hmodq : (r : ℚ) < 2 * t := by exact_mod_cast hmod
  have hr0 : (0 : ℚ) ≤ r := by positivity
  have hw : 100 * (m : ℚ) / t + 1 / 2 = (n : ℚ) + (r : ℚ) / (2 * t) := by
    have e : (n : ℚ) + (r : ℚ) / (2 * t) = (2 * (t : ℚ) * n + r) / (2 * t) := by
      field_simp
      ring
    rw [e, hdivq]
    field_simp
    ring
  unfold mathRound
  rw [hw, Int.floor_eq_iff]
  have h0 : (0 : ℚ) ≤ (r : ℚ) / (2 * t) := by positivity
  have h1 : (r : ℚ) / (2 * t) < 1 := by
    rw [div_lt_one (by positivity)]
    exact hmodq
  constructor
  · simp only [Int.cast_natCast]; linarith
  · simp only [Int.cast_natCast]; linarith

theorem ratio_decomp (m t : ℕ) (ht : 0 < t) :
    100 * (m : ℚ) / t + 1 / 2
      = (((200 * m + t) / (2 * t) : ℕ) : ℚ) + (((200 * m + t) % (2 * t) : ℕ) : ℚ) / (2 * t) := by
  have htq : (0 : ℚ) < t := by exact_mod_cast ht
  have hdiv := Nat.div_add_mod (200 * m + t) (2 * t)
  generalize (200 * m + t) / (2 * t) = n at hdiv ⊢
  generalize (200 * m + t) % (2 * t) = r at hdiv ⊢
  have hdivq : 2 * (t : ℚ) * n + r = 200 * m + t := by exact_mod_cast hdiv
  have e : (n : ℚ) + (r : ℚ) / (2 * t) = (2 * (t : ℚ) * n + r) / (2 * t) := by
    field_simp
    ring
  rw [e, hdivq]
  field_simp
  ring

/-- The rounding of the double-precision product lands on the quotient `n` of
`200 m + t` by `2 t` when the remainder `r` is not zero, and on `n` or `n - 1` always. -/
theorem confidenceOf_core (m t n r : ℕ) (ht : 0 < t) (hmt : m ≤ t) (ht44 : t ≤ 2 ^ 44)
    (hr : r < 2 * t) (hw : 100 * (m : ℚ) / t + 1 / 2 = (n : ℚ) + (r : ℚ) / (2 * t)) :
    (0 < r → confidenceOf m t = (n : ℤ)) ∧
    (n : ℤ) - 1 ≤ confidenceOf m t ∧ confidenceOf m t ≤ (n : ℤ) := by
  have htq : (0 : ℚ) < t := by exact_mod_cast ht
  have ht44q : (t : ℚ) ≤ 2 ^ 44 := by exact_mod_cast ht44
  have hz := fl_ratio_times_hundred m t ht hmt ht44
  rw [abs_lt] at hz
  have hc : confidenceOf m t = ⌊fl (fl ((m : ℚ) / (t : ℚ)) * 100) + 1 / 2⌋ := by
    unfold confidenceOf mathRound
    rw [if_pos ht]
  set z := fl (fl ((m : ℚ) / (t : ℚ)) * 100) with hzdef
  have hε : (1 : ℚ) / 2 ^ 45 ≤ 1 / (2 * t) := by
    apply one_div_le_one_div_of_le (by positivity)
    have : (2 : ℚ) ^ 45 = 2 * 2 ^ 44 := by norm_num
    linarith
  have hρ : (r : ℚ) / (2 * t) = r * (1 / (2 * t)) := by ring
  have hεt : (2 * (t : ℚ)) * (1 / (2 * t)) = 1 := by field_simp
  have hεpos : (0 : ℚ) < 1 / (2 * t) := by positivity
  have hr0 : (0 : ℚ) ≤ r := by positivity
  have hrq : (r : ℚ) + 1 ≤ 2 * t := by exact_mod_cast hr
  have hρ1 : (r : ℚ) * (1 / (2 * t)) + 1 / (2 * t) ≤ 1 := by
    have := mul_le_mul_of_nonneg_right hrq hεpos.le
    linarith
  have hρ0 : (0 : ℚ) ≤ (r : ℚ) * (1 / (2 * t)) := by positivity
  have hsmall : (1 : ℚ) / 2 ^ 45 < 1 := by norm_num
  rw [hρ] at hw
  have hupper : confidenceOf m t ≤ (n : ℤ) := by
    rw [hc, ← Int.lt_add_one_iff, Int.floor_lt]
    push_cast
    linarith [hz.2]
  have hlower : (n : ℤ) - 1 ≤ confidenceOf m t := by
    rw [hc, Int.le_floor]
    push_cast
    linarith [hz.1]
  refine ⟨?_, hlower, hupper⟩
  intro hpos
  have hr1 : (1 : ℚ) ≤ r := by exact_mod_cast hpos
  have hρε : (1 : ℚ) / (2 * t) ≤ (r : ℚ) * (1 / (2 * t)) := by
    have := mul_le_mul_of_nonneg_right hr1 hεpos.le
    linarith
  apply le_antisymm hupper
  rw [hc, Int.le_floor]
  push_cast
  linarith [hz.1]

/-- Away from a tie the confidence is the exact rounding, computed by integer division. -/
theorem confidenceOf_of_mod_ne (m t : ℕ) (ht : 0 < t) (hmt : m ≤ t) (ht44 : t ≤ 2 ^ 44)
    (h : (200 * m + t) % (2 * t) ≠ 0) :
    confidenceOf m t = (((200 * m + t) / (2 * t) : ℕ) : ℤ) :=
  (confidenceOf_core m t _ _ ht hmt ht44 (Nat.mod_lt _ (by omega)) (ratio_decomp m t ht)).1
    (Nat.pos_of_ne_zero h)

/-- `Math.round((m / t) * 100)` in doubles against the exact `round(100 m / t)`:
equal unless `100 m / t` is half-way between two integers, and never more than
one below. -/
theorem confidenceOf_near (m t : ℕ) (ht : 0 < t) (hmt : m ≤ t) (ht44 : t ≤ 2 ^ 44) :
    (Int.fract (100 * (m : ℚ) / t) ≠ 1 / 2 →
      confidenceOf m t = mathRound (100 * (m : ℚ) / t)) ∧
    mathRound (100 * (m : ℚ) / t) - 1 ≤ confidenceOf m t ∧
    confidenceOf m t ≤ mathRound (100 * (m : ℚ) / t) := by
  have hcore := confidenceOf_core m t _ _ ht hmt ht44 (Nat.mod_lt _ (by omega))
    (ratio_decomp m t ht)
  have hw := ratio_decomp m t ht
  rw [mathRound_ratio m t ht]
  refine ⟨fun hfract => hcore.1 (Nat.pos_of_ne_zero fun h0 => hfract ?_), hcore.2⟩
  rw [Int.fract_eq_iff]
  refine ⟨by norm_num, by norm_num, (((200 * m + t) / (2 * t) : ℕ) : ℤ) - 1, ?_⟩
  rw [h0] at hw
  simp only [Nat.cast_zero, zero_div, add_zero] at hw
  simp only [Int.cast_sub, Int.cast_one, Int.cast_natCast]
  linarith

theorem roundHalfEven_of_lt (q : ℚ) (k : ℤ) (h0 : (k : ℚ) ≤ q) (h1 : q < k + 1 / 2) :
    roundHalfEven q = k := by
  have hf : ⌊q⌋ = k := by
    rw [Int.floor_eq_iff]
    constructor <;> linarith
  unfold roundHalfEven
  rw [hf, if_pos (by linarith)]

/-- In doubles `(23 / 40) * 100` is `57.49999999999999`, which `Math.round` takes to 57. -/
theorem confidenceOf_23_40 : confidenceOf 23 40 = 57 := by
  have h1 : fl ((23 : ℚ) / 40) = 5179139571476070 / 2 ^ 53 := by
    rw [fl_eq_of_binade _ (-1) (by norm_num) (by norm_num) (by norm_num) (by norm_num),
      roundHalfEven_of_lt _ 5179139571476070 (by norm_num) (by norm_num)]
    norm_num
  have h2 : fl ((5179139571476070 : ℚ) / 2 ^ 53 * 100) = 8092405580431359 / 2 ^ 47 := by
    rw [fl_eq_of_binade _ 5 (by norm_num) (by norm_num) (by norm_num) (by norm_num),
      roundHalfEven_of_lt _ 8092405580431359 (by norm_num) (by norm_num)]
    norm_num
  unfold confidenceOf mathRound
  rw [if_pos (by norm_num)]
  push_cast
  rw [h1, h2, Int.floor_eq_iff]
  constructor <;> norm_num

/-! ### More on binary64 rounding -/

theorem roundHalfEven_of_gt (q : ℚ) (k : ℤ) (h0 : (k : ℚ) - 1 / 2 < q) (h1 : q ≤ k) :
    roundHalfEven q = k := by
  rcases h1.eq_or_lt with h | h
  · exact roundHalfEven_of_lt q k h.ge (by linarith)
  · have hf : ⌊q⌋ = k - 1 := by
      rw [Int.floor_eq_iff]
      push_cast
      constructor <;> linarith
    unfold roundHalfEven
    rw [hf, if_neg (by push_cast; linarith), if_pos (by push_cast; linarith)]
    ring

theorem roundHalfEven_of_tie (q : ℚ) (k : ℤ) (h : q = k + 1 / 2) :
    roundHalfEven q = if k % 2 = 0 then k else k + 1 := by
  have hf : ⌊q⌋ = k := by
    rw [Int.floor_eq_iff]
    constructor <;> linarith
  unfold roundHalfEven
  rw [hf, if_neg (by linarith), if_neg (by linarith)]

theorem roundHalfEven_intCast (k : ℤ) : roundHalfEven (k : ℚ) = k :=
  roundHalfEven_of_lt _ k le_rfl (by linarith)

/-- The value of `fl` on a positive number, from its binade and rounded significand. -/
theorem fl_eval (x : ℚ) (e k : ℤ) (h0 : 0 < x) (h1 : (2 : ℚ) ^ e ≤ x)
    (h2 : x < (2 : ℚ) ^ (e + 1)) (he : -1022 ≤ e)
    (hk : roundHalfEven (x / 2 ^ (e - 52)) = k) : fl x = (k : ℚ) * 2 ^ (e - 52) := by
  rw [fl_eq_of_binade x e h0 h1 h2 he, hk]

/-- A positive integer below `2 ^ 53` is a double. -/
theorem fl_natCast (n : ℕ) (h : n < 2 ^ 53) : fl (n : ℚ) = n := by
  rcases Nat.eq_zero_or_pos n with rfl | hn
  · simp [fl_zero]
  have h0 : (0 : ℚ) < n := by exact_mod_cast hn
  have hlt : (n : ℚ) < (2 : ℚ) ^ (53 : ℤ) := by
    have : (n : ℚ) < ((2 ^ 53 : ℕ) : ℚ) := by exact_mod_cast h
    rw [show ((53 : ℤ)) = ((53 : ℕ) : ℤ) from rfl, zpow_natCast]
    exact_mod_cast this
  have hb := binadeOf_lt (n : ℚ) 53 h0 hlt (by norm_num)
  have hb0 : -1022 ≤ binadeOf (n : ℚ) := le_max_right _ _
  obtain ⟨j, hj⟩ : ∃ j : ℕ, (52 : ℤ) - binadeOf (n : ℚ) = j := ⟨(52 - binadeOf (n : ℚ)).toNat,
    (Int.toNat_of_nonneg (by omega)).symm⟩
  have hq : (n : ℚ) / 2 ^ (binadeOf (n : ℚ) - 52) = ((n * 2 ^ j : ℕ) : ℤ) := by
    have : binadeOf (n : ℚ) - 52 = -(j : ℤ) := by omega
    rw [this, zpow_neg, div_inv_eq_mul, zpow_natCast]
    push_cast
    ring
  unfold fl
  rw [if_neg (ne_of_gt h0), hq, roundHalfEven_intCast]
  have : binadeOf (n : ℚ) - 52 = -(j : ℤ) := by omega
  rw [this, zpow_neg, zpow_natCast]
  push_cast
  field_simp

theorem fl_nonneg (x : ℚ) (h : 0 ≤ x) : 0 ≤ fl x := by
  rcases h.eq_or_lt with h0 | h0
  · rw [← h0, fl_zero]
  unfold fl
  rw [if_neg (ne_of_gt h0)]
  have hu : (0 : ℚ) < 2 ^ (binadeOf x - 52) := two_zpow_pos _
  have hq : 0 ≤ x / 2 ^ (binadeOf x - 52) := (div_pos h0 hu).le
  have hr : 0 ≤ roundHalfEven (x / 2 ^ (binadeOf x - 52)) := by
    have hf : 0 ≤ ⌊x / 2 ^ (binadeOf x - 52)⌋ := Int.floor_nonneg.2 hq
    unfold roundHalfEven
    split_ifs <;> omega
  have : (0 : ℚ) ≤ roundHalfEven (x / 2 ^ (binadeOf x - 52)) := by exact_mod_cast hr
  positivity

/-- Rounding error of `fl` on `[0, 2 ^ k)`. -/
theorem fl_sub_abs_le_of_nonneg (x : ℚ) (k : ℤ) (h0 : 0 ≤ x) (hk : x < (2 : ℚ) ^ k)
    (hk' : -1021 ≤ k) : |fl x - x| ≤ (2 : ℚ) ^ (k - 54) := by
  rcases h0.eq_or_lt with h | h
  · rw [← h, fl_zero, sub_zero, abs_zero]
    exact (two_zpow_pos _).le
  · exact fl_sub_abs_le x k h hk hk'

/-! ### The result of `detectCycle` -/

theorem detectCycle_confidence_eq (data : List SeriesEntry) (p : ℕ) :
    (detectCycle data p).confidence = confidenceOf (matchCount data p) (boundaryCount data p) := by
  unfold detectCycle
  rw [detectCycleCounts_eq]

theorem detectCycle_detected_eq (data : List SeriesEntry) (p : ℕ) :
    (detectCycle data p).detected = decide ((detectCycle data p).confidence ≥ 60) := rfl

theorem matchCount_le (data : List SeriesEntry) (p : ℕ) :
    matchCount data p ≤ boundaryCount data p :=
  List.countP_mono_left fun i _ h => by
    simp only [decide_eq_true_eq] at h ⊢
    exact h.1

theorem boundaryCount_le (data : List SeriesEntry) (p : ℕ) :
    boundaryCount data p ≤ data.length := by
  unfold boundaryCount
  exact (List.countP_le_length _).trans (by simp)

theorem confidenceOf_zero_total (m : ℕ) : confidenceOf m 0 = 0 := by
  simp [confidenceOf]

/-- C2 (amended). For every series (of a JS array's length) and every period `p`,
with `t` the number of indices `i`, `p ≤ i < length`, and `m` the number of those
whose day gap to entry `i - p` differs from `p` by at most 1: the confidence is 0
when `t = 0`, and otherwise `Math.round` of the double-precision value of
`(m / t) * 100` (the quotient rounded to a double, then the product); this is
`round(100 m / t)` whenever `100 m / t` is not half-way between two integers,
and in every case `round(100 m / t)` or one less. -/
theorem detectCycle_confidence (data : List SeriesEntry) (p : ℕ)
    (hlen : data.length < 2 ^ 32) :
    (detectCycle data p).confidence
      = (if boundaryCount data p = 0 then 0
         else mathRound
          (fl (fl ((matchCount data p : ℚ) / (boundaryCount data p : ℚ)) * 100))) ∧
    (0 < boundaryCount data p →
      Int.fract (100 * (matchCount data p : ℚ) / (boundaryCount data p : ℚ)) ≠ 1 / 2 →
      (detectCycle data p).confidence
        = mathRound (100 * (matchCount data p : ℚ) / (boundaryCount data p : ℚ))) ∧
    (0 < boundaryCount data p →
      mathRound (100 * (matchCount data p : ℚ) / (boundaryCount data p : ℚ)) - 1
          ≤ (detectCycle data p).confidence ∧
      (detectCycle data p).confidence
          ≤ mathRound (100 * (matchCount data p : ℚ) / (boundaryCount data p : ℚ))) := by
  have ht44 : boundaryCount data p ≤ 2 ^ 44 :=
    (boundaryCount_le data p).trans (hlen.le.trans (by norm_num))
  rw [detectCycle_confidence_eq]
  refine ⟨?_, fun ht => ?_, fun ht => ?_⟩
  · unfold confidenceOf
    by_cases h : boundaryCount data p = 0
    · rw [if_pos h, if_neg (by omega)]
    · rw [if_neg h, if_pos (by omega)]
  · exact (confidenceOf_near _ _ ht (matchCount_le data p) ht44).1
  · exact (confidenceOf_near _ _ ht (matchCount_le data p) ht44).2

theorem detectCycle_confidence_witness :
    tieSeries.length < 2 ^ 32 ∧
    (detectCycle tieSeries 1).confidence
      = (if boundaryCount tieSeries 1 = 0 then 0
         else mathRound
          (fl (fl ((matchCount tieSeries 1 : ℚ) / (boundaryCount tieSeries 1 : ℚ)) * 100))) :=
  ⟨by decide, (detectCycle_confidence tieSeries 1 (by decide)).1⟩

theorem counts_tieSeries : matchCount tieSeries 1 = 23 ∧ boundaryCount tieSeries 1 = 40 := by
  decide

/-- C2 as stated fails: on a chronological series with `t = 40` boundaries of
which `m = 23` match, the code returns 57 (the double-precision product is
`57.49999999999999`), while `round(100 * 23 / 40) = round(57.5) = 58`. -/
theorem detectCycle_confidence_counterexample :
    tieSeries.Pairwise (fun a b => a.date.ms ≤ b.date.ms) ∧
    matchCount tieSeries 1 = 23 ∧ boundaryCount tieSeries 1 = 40 ∧
    (detectCycle tieSeries 1).confidence = 57 ∧
    mathRound (100 * ((23 : ℕ) : ℚ) / ((40 : ℕ) : ℚ)) = 58 := by
  refine ⟨by decide, counts_tieSeries.1, counts_tieSeries.2, ?_, ?_⟩
  · rw [detectCycle_confidence_eq, counts_tieSeries.1, counts_tieSeries.2]
    exact confidenceOf_23_40
  · rw [mathRound_ratio 23 40 (by norm_num)]
    norm_num

theorem confidence_series59 : (detectCycle series59 1).confidence = 59 := by
  have hc : matchCount series59 1 = 10 ∧ boundaryCount series59 1 = 17 := by decide
  rw [detectCycle_confidence_eq, hc.1, hc.2,
    confidenceOf_of_mod_ne 10 17 (by norm_num) (by norm_num) (by norm_num) (by norm_num)]
  norm_num

theorem confidence_series60 : (detectCycle series60 1).confidence = 60 := by
  have hc : matchCount series60 1 = 3 ∧ boundaryCount series60 1 = 5 := by decide
  rw [detectCycle_confidence_eq, hc.1, hc.2,
    confidenceOf_of_mod_ne 3 5 (by norm_num) (by norm_num) (by norm_num) (by norm_num)]
  norm_num

/-- C3. `detectCycle` returns `detected = true` if and only if the returned
confidence is at least 60; a series whose confidence is 59 is not detected and
one whose confidence is 60 is detected. -/
theorem detectCycle_detected_iff :
    (∀ (data : List SeriesEntry) (p : ℕ),
      (detectCycle data p).detected = true ↔ 60 ≤ (detectCycle data p).confidence) ∧
    ((detectCycle series59 1).confidence = 59 ∧ (detectCycle series59 1).detected = false) ∧
    ((detectCycle series60 1).confidence = 60 ∧ (detectCycle series60 1).detected = true) := by
  refine ⟨fun data p => ?_, ⟨confidence_series59, ?_⟩, ⟨confidence_series60, ?_⟩⟩
  · rw [detectCycle_detected_eq, decide_eq_true_eq]
  · rw [detectCycle_detected_eq, confidence_series59]
    decide
  · rw [detectCycle_detected_eq, confidence_series60]
    decide

/-! ### The next expected date and the moments of the series -/

theorem formatDay_addDays (m : Moment) (n : ℤ) : (m.addDays n).formatDay = m.formatDay + n :=
  Int.add_mul_ediv_right _ _ (by decide)

theorem detectCycle_nextExpected_eq (data : List SeriesEntry) (p : ℕ) :
    (detectCycle data p).nextExpected
      = if (detectCycle data p).detected = true ∧ data.length > 0 then
          data.getLast?.map fun last => (last.date.addDays p).formatDay
        else none := rfl

theorem length_pos_of_detected (data : List SeriesEntry) (p : ℕ)
    (h : (detectCycle data p).detected = true) : 0 < data.length := by
  rw [detectCycle_detected_eq, decide_eq_true_eq, detectCycle_confidence_eq] at h
  by_contra h0
  have hb : boundaryCount data p = 0 := by
    have := boundaryCount_le data p
    omega
  rw [hb, confidenceOf_zero_total] at h
  omega

theorem foldl_congr_of_mem {α β : Type} (f g : β → α → β) :
    ∀ (L : List α) (b : β), (∀ b, ∀ a ∈ L, f b a = g b a) → L.foldl f b = L.foldl g b
  | [], _, _ => rfl
  | a :: L, b, h => by
    rw [List.foldl_cons, List.foldl_cons, h b a (List.mem_cons_self _ _)]
    exact foldl_congr_of_mem f g L _ fun b x hx => h b x (List.mem_cons_of_mem _ hx)

theorem getD_map_deref (σ : MomentStore) (refs : List SeriesRef) (i : ℕ)
    (hi : i < refs.length) :
    ((refs.map (SeriesRef.deref σ)).getD i default).date = σ.read (refs.getD i default).date := by
  rw [List.getD_eq_getElem _ _ (by simpa using hi), List.getD_eq_getElem _ _ hi,
    List.getElem_map]
  rfl

theorem detectCycleStepOnStore_eq (σ : MomentStore) (refs : List SeriesRef) (p : ℕ)
    (acc : ℕ × ℕ) (i : ℕ) (hi : i < refs.length) :
    detectCycleStepOnStore σ refs p acc i
      = detectCycleStep (refs.map (SeriesRef.deref σ)) p acc i := by
  unfold detectCycleStepOnStore detectCycleStep
  rw [getD_map_deref σ refs i hi, getD_map_deref σ refs (i - p) (by omega)]

theorem counts_onStore (σ : MomentStore) (refs : List SeriesRef) (p : ℕ) :
    (List.range' p (refs.length - p)).foldl (detectCycleStepOnStore σ refs p) (0, 0)
      = detectCycleCounts (refs.map (SeriesRef.deref σ)) p := by
  unfold detectCycleCounts
  rw [List.length_map]
  refine foldl_congr_of_mem _ _ _ _ fun acc i hi => ?_
  rw [List.mem_range'_1] at hi
  exact detectCycleStepOnStore_eq σ refs p acc i (by omega)

theorem read_clone_addDays (σ : MomentStore) (r : ℕ) (n : ℤ) :
    (((σ.clone r).1.addDays (σ.clone r).2 n).read (σ.clone r).2) = (σ.read r).addDays n := by
  simp [MomentStore.clone, MomentStore.addDays, MomentStore.read]

theorem take_clone_addDays (σ : MomentStore) (r : ℕ) (n : ℤ) :
    ((σ.clone r).1.addDays (σ.clone r).2 n).take σ.length = σ := by
  simp [MomentStore.clone, MomentStore.addDays, MomentStore.read]

/-- The reference-level `detectCycle` returns what the value-level one returns on
the series read from the store. -/
theorem detectCycleOnStore_fst (σ : MomentStore) (refs : List SeriesRef) (p : ℕ) :
    (detectCycleOnStore σ refs p).1 = detectCycle (refs.map (SeriesRef.deref σ)) p := by
  unfold detectCycleOnStore detectCycle
  rw [counts_onStore, List.length_map, List.getLast?_map]
  simp only []
  split_ifs with h
  · cases hl : refs.getLast? with
    | none => simp
    | some last => simp [read_clone_addDays, SeriesRef.deref]
  · rfl

/-- The call leaves every moment that existed before it as it was. -/
theorem detectCycleOnStore_snd (σ : MomentStore) (refs : List SeriesRef) (p : ℕ) :
    (detectCycleOnStore σ refs p).2.take σ.length = σ := by
  unfold detectCycleOnStore
  simp only []
  split_ifs with h
  · cases hl : refs.getLast? with
    | none => simp
    | some last => simp [take_clone_addDays]
  · simp

/-- C4. When `detectCycle` reports `detected = true` its `nextExpected` is the
date of the last entry of the series plus `p` days (the latest entry when the
series is chronological), and when it reports `detected = false` `nextExpected`
is absent; the moments of the input series are left unchanged. -/
theorem detectCycle_nextExpected (data : List SeriesEntry) (p : ℕ) :
    ((detectCycle data p).detected = true →
      ∃ last, data.getLast? = some last ∧
        (detectCycle data p).nextExpected = some (last.date.formatDay + p) ∧
        (data.Pairwise (fun a b => a.date.ms ≤ b.date.ms) →
          ∀ e ∈ data, e.date.ms ≤ last.date.ms)) ∧
    ((detectCycle data p).detected = false → (detectCycle data p).nextExpected = none) ∧
    ∀ (σ : MomentStore) (refs : List SeriesRef), refs.map (SeriesRef.deref σ) = data →
      (detectCycleOnStore σ refs p).1 = detectCycle data p ∧
      (detectCycleOnStore σ refs p).2.take σ.length = σ := by
  refine ⟨fun hd => ?_, fun hd => ?_, fun σ refs h => ?_⟩
  · have hpos := length_pos_of_detected data p hd
    have hne : data ≠ [] := fun h => by simp [h] at hpos
    obtain ⟨last, hlast⟩ : ∃ last, data.getLast? = some last := by
      cases h : data.getLast? with
      | none => exact absurd (List.getLast?_eq_none_iff.1 h) hne
      | some last => exact ⟨last, rfl⟩
    refine ⟨last, hlast, ?_, fun hsorted e he => ?_⟩
    · rw [detectCycle_nextExpected_eq, if_pos ⟨hd, hpos⟩, hlast, Option.map_some',
        formatDay_addDays]
    · obtain ⟨ys, rfl⟩ := List.getLast?_eq_some_iff.1 hlast
      rw [List.pairwise_append] at hsorted
      rcases List.mem_append.1 he with h | h
      · exact hsorted.2.2 e h last (List.mem_singleton_self _)
      · rw [List.mem_singleton.1 h]
  · rw [detectCycle_nextExpected_eq, if_neg]
    rintro ⟨h, _⟩
    rw [hd] at h
    exact absurd h (by decide)
  · subst h
    exact ⟨detectCycleOnStore_fst σ refs p, detectCycleOnStore_snd σ refs p⟩

/-! ### The inverse-frequency algorithm -/

theorem recentMap_snoc (l : List AnimalStat) (s : AnimalStat) (k : String) :
    recentMap (l ++ [s]) k = if k = s.animal_name then some s.count else recentMap l k := by
  simp [recentMap, List.foldl_append]

theorem recentMap_of_not_mem (l : List AnimalStat) (k : String)
    (h : k ∉ l.map fun s => s.animal_name) : recentMap l k = none := by
  induction l using List.reverseRecOn with
  | nil => rfl
  | append_singleton l s ih =>
    rw [List.map_append, List.mem_append, not_or] at h
    rw [recentMap_snoc, if_neg (fun e => h.2 (by simp [e])), ih h.1]

theorem recentMap_of_mem (l : List AnimalStat) (stat : AnimalStat) (hs : stat ∈ l)
    (hn : (l.map fun s => s.animal_name).Nodup) :
    recentMap l stat.animal_name = some stat.count := by
  induction l using List.reverseRecOn with
  | nil => simp at hs
  | append_singleton l s ih =>
    rw [List.map_append, List.nodup_append] at hn
    rw [recentMap_snoc]
    rcases List.mem_append.1 hs with h | h
    · have hne : stat.animal_name ≠ s.animal_name := by
        intro e
        exact hn.2.2 (List.mem_map.2 ⟨stat, h, rfl⟩) (by simp [e])
      rw [if_neg hne]
      exact ih h hn.1
    · rw [List.mem_singleton.1 h, if_pos rfl]

theorem recentCountOf_eq (l : List AnimalStat) (k : String) :
    recentCountOf l k = (recentMap l k).getD 0 := by
  unfold recentCountOf
  cases recentMap l k with
  | none => rfl
  | some c =>
    by_cases h : c = 0
    · simp [h]
    · simp [h]

theorem inverseFrequencyCandidate_eq (recentStats : List AnimalStat) (animal : CatalogAnimal) :
    inverseFrequencyCandidate recentStats animal
      = if inverseProbabilityOf (recentCountOf recentStats animal.name) > 1 then
          some { animal := animal.name
                 probability := roundTwoDecimals
                  (inverseProbabilityOf (recentCountOf recentStats animal.name))
                 algorithm := "inverse_frequency"
                 confidence := 70
                 reason :=
                  s!"Baja frecuencia reciente: {recentCountOf recentStats animal.name} apariciones" }
        else none := by
  unfold inverseFrequencyCandidate inverseProbabilityOf absenceOf
  simp only [mul_comm (10 : ℚ)]

theorem mem_calculateInverseFrequencyPredictions (animals : List CatalogAnimal)
    (recentStats weeklyStats : List AnimalStat) (cand : Prediction) :
    cand ∈ calculateInverseFrequencyPredictions animals recentStats weeklyStats
      ↔ ∃ animal ∈ animals, inverseFrequencyCandidate recentStats animal = some cand := by
  unfold calculateInverseFrequencyPredictions
  rw [List.mem_insertionSort, List.mem_filterMap]

/-- C8. For every catalog symbol with recent-window count `c`,
`calculateInverseFrequencyPredictions` computes `absence = max(0, 7/36 - c)` and
`p = min(15, 10 * absence)`; the result contains a candidate for the symbol if
and only if `p > 1`, with probability `p` rounded to two decimals and confidence
70, and contains no candidate for a symbol outside the catalog. The count `c` is
0 for a symbol without a row in the stats and the count of its row otherwise. -/
theorem calculateInverseFrequencyPredictions_spec (animals : List CatalogAnimal)
    (recentStats weeklyStats : List AnimalStat) (name : String) :
    ((∃ cand ∈ calculateInverseFrequencyPredictions animals recentStats weeklyStats,
        cand.animal = name)
      ↔ (name ∈ animals.map (fun a => a.name) ∧
          inverseProbabilityOf (recentCountOf recentStats name) > 1)) ∧
    (∀ cand ∈ calculateInverseFrequencyPredictions animals recentStats weeklyStats,
      cand.animal = name →
        cand.probability
          = roundTwoDecimals (inverseProbabilityOf (recentCountOf recentStats name)) ∧
        cand.confidence = 70) ∧
    (name ∉ recentStats.map (fun s => s.animal_name) → recentCountOf recentStats name = 0) ∧
    (∀ stat ∈ recentStats, (recentStats.map fun s => s.animal_name).Nodup →
      stat.animal_name = name → recentCountOf recentStats name = stat.count) := by
  refine ⟨⟨?_, ?_⟩, ?_, ?_, ?_⟩
  · rintro ⟨cand, hc, rfl⟩
    obtain ⟨animal, ha, he⟩ := (mem_calculateInverseFrequencyPredictions _ _ _ _).1 hc
    rw [inverseFrequencyCandidate_eq] at he
    split_ifs at he with hp
    cases he
    exact ⟨List.mem_map.2 ⟨animal, ha, rfl⟩, hp⟩
  · rintro ⟨hmem, hp⟩
    obtain ⟨animal, ha, rfl⟩ := List.mem_map.1 hmem
    refine ⟨{ animal := animal.name
              probability := roundTwoDecimals
                (inverseProbabilityOf (recentCountOf recentStats animal.name))
              algorithm := "inverse_frequency"
              confidence := 70
              reason :=
                s!"Baja frecuencia reciente: {recentCountOf recentStats animal.name} apariciones" },
      (mem_calculateInverseFrequencyPredictions _ _ _ _).2 ⟨animal, ha, ?_⟩, rfl⟩
    rw [inverseFrequencyCandidate_eq, if_pos hp]
  · rintro cand hc rfl
    obtain ⟨animal, _, he⟩ := (mem_calculateInverseFrequencyPredictions _ _ _ _).1 hc
    rw [inverseFrequencyCandidate_eq] at he
    split_ifs at he with hp
    cases he
    exact ⟨rfl, rfl⟩
  · intro h
    rw [recentCountOf_eq, recentMap_of_not_mem _ _ h]
    rfl
  · rintro stat hs hn rfl
    rw [recentCountOf_eq, recentMap_of_mem _ _ hs hn]
    rfl

/-! ### The cyclical algorithm -/

theorem mem_calculateCyclicalPredictions (today : Moment) (cycles : List Cycle)
    (cand : Prediction) :
    cand ∈ calculateCyclicalPredictions today cycles
      ↔ ∃ cycle ∈ cycles, cyclicalCandidate today cycle = some cand := by
  unfold calculateCyclicalPredictions
  rw [List.mem_insertionSort, List.mem_filterMap]

theorem cyclicalCandidate_eq_some (today : Moment) (cycle : Cycle) (cand : Prediction)
    (h : cyclicalCandidate today cycle = some cand) :
    ∃ day, cycle.next_expected = some day ∧
      0 ≤ (Moment.ofDay day).diffDays today ∧ (Moment.ofDay day).diffDays today ≤ 2 ∧
      cand.animal = cycle.animal ∧ cand.confidence = cycle.confidence ∧
      cand.probability = max 5 (cycle.confidence / 10) := by
  unfold cyclicalCandidate at h
  cases hd : cycle.next_expected with
  | none => rw [hd] at h; cases h
  | some day =>
    rw [hd] at h
    simp only [] at h
    split_ifs at h with hc
    cases h
    exact ⟨day, rfl, hc.1, hc.2, rfl, rfl, rfl⟩

/-- C9, the code at the failing input: at noon of day 0 a cycle whose next
expected date is day 3 (today + 3) yields a candidate, announced "in 2 days". -/
theorem calculateCyclicalPredictions_three_days_ahead :
    noonOfDayZero.formatDay = 0 ∧ cycleDueDayThree.next_expected = some (0 + 3) ∧
    calculateCyclicalPredictions noonOfDayZero [cycleDueDayThree]
      = [{ animal := "Delfin", probability := 8, algorithm := "cyclical", confidence := 80,
           reason := "Ciclo 3-day sugiere aparición en 2 días" }] := by
  refine ⟨by decide, rfl, ?_⟩
  have hd : (Moment.ofDay 3).diffDays noonOfDayZero = 2 := by decide
  have hp : max (5 : ℚ) (80 / 10) = 8 := by norm_num
  simp [calculateCyclicalPredictions, cyclicalCandidate, cycleDueDayThree, hd, hp]
  decide

/-- C10. Every candidate returned by `calculateCyclicalPredictions` carries the
symbol and confidence of the cycle it comes from and has probability
`max(5, confidence / 10)`; for a cycle confidence in 0..100 the probability lies
in [5, 10]. -/
theorem calculateCyclicalPredictions_candidate (today : Moment) (cycles : List Cycle) :
    ∀ cand ∈ calculateCyclicalPredictions today cycles,
      ∃ cycle ∈ cycles, cand.animal = cycle.animal ∧ cand.confidence = cycle.confidence ∧
        cand.probability = max 5 (cycle.confidence / 10) ∧
        (0 ≤ cycle.confidence → cycle.confidence ≤ 100 →
          5 ≤ cand.probability ∧ cand.probability ≤ 10) := by
  intro cand hc
  obtain ⟨cycle, hcy, he⟩ := (mem_calculateCyclicalPredictions _ _ _).1 hc
  obtain ⟨_, _, _, _, ha, hconf, hp⟩ := cyclicalCandidate_eq_some _ _ _ he
  refine ⟨cycle, hcy, ha, hconf, hp, fun _ h100 => ?_⟩
  rw [hp]
  exact ⟨le_max_left _ _, max_le (by norm_num) (by linarith)⟩

theorem candidateDayEleven_mem :
    candidateDayEleven ∈ calculateCyclicalPredictions (Moment.ofDay 10) [cycleDueDayEleven] := by
  rw [mem_calculateCyclicalPredictions]
  refine ⟨cycleDueDayEleven, List.mem_singleton_self _, ?_⟩
  have hd : (Moment.ofDay 11).diffDays (Moment.ofDay 10) = 1 := by decide
  have hp : max (5 : ℚ) (40 / 10) = 5 := by norm_num
  simp [cyclicalCandidate, cycleDueDayEleven, candidateDayEleven, hd, hp]
  decide

theorem calculateCyclicalPredictions_candidate_witness :
    candidateDayEleven ∈ calculateCyclicalPredictions (Moment.ofDay 10) [cycleDueDayEleven] ∧
    ∃ cycle ∈ [cycleDueDayEleven],
      candidateDayEleven.animal = cycle.animal ∧
      candidateDayEleven.confidence = cycle.confidence ∧
      candidateDayEleven.probability = max 5 (cycle.confidence / 10) ∧
      (0 ≤ cycle.confidence → cycle.confidence ≤ 100 →
        5 ≤ candidateDayEleven.probability ∧ candidateDayEleven.probability ≤ 10) :=
  ⟨candidateDayEleven_mem,
    calculateCyclicalPredictions_candidate (Moment.ofDay 10) [cycleDueDayEleven]
      candidateDayEleven candidateDayEleven_mem⟩

theorem diffDays_ofDay (today : Moment) (day : ℤ) :
    (0 ≤ (Moment.ofDay day).diffDays today ∧ (Moment.ofDay day).diffDays today ≤ 2)
      ↔ (today.formatDay ≤ day ∧ day ≤ today.formatDay + 2) ∨
        (day = today.formatDay + 3 ∧ today.ms % msPerDay ≠ 0) := by
  unfold Moment.diffDays Moment.ofDay Moment.formatDay msPerDay
  simp only []
  by_cases hx : 0 ≤ day * 86400000 - today.ms
  · rw [Int.tdiv_eq_ediv hx (by norm_num)]
    omega
  · have hneg : (day * 86400000 - today.ms).tdiv 86400000
        = -((-(day * 86400000 - today.ms)) / 86400000) := by
      rw [← Int.tdiv_eq_ediv (by omega) (by norm_num), Int.neg_tdiv, neg_neg]
    rw [hneg]
    omega

/-- What the date test of `calculateCyclicalPredictions` lets through: a cycle
yields a candidate exactly when its next expected date is today, today + 1 or
today + 2, or is today + 3 while the current time is past midnight. -/
theorem cyclicalCandidate_isSome_iff (today : Moment) (cycle : Cycle) :
    (cyclicalCandidate today cycle).isSome = true
      ↔ ∃ day, cycle.next_expected = some day ∧
          ((today.formatDay ≤ day ∧ day ≤ today.formatDay + 2) ∨
            (day = today.formatDay + 3 ∧ today.ms % msPerDay ≠ 0)) := by
  unfold cyclicalCandidate
  cases hd : cycle.next_expected with
  | none => simp
  | some day =>
    simp only [Option.some.injEq, exists_eq_left', ← diffDays_ofDay]
    split_ifs with h
    · simpa using h
    · simpa using h

/-! ### The sequential algorithm -/

theorem foldl_push {α β : Type} (f : α → β) (l : List α) (init : List β) :
    l.foldl (fun acc a => acc ++ [f a]) init = init ++ l.map f := by
  induction l generalizing init with
  | nil => simp
  | cons a l ih => rw [List.foldl_cons, ih]; simp

theorem sequentialThen_cons_cons (patterns : List SequentialPattern)
    (predictions : List Prediction) (last secondLast : DrawResult) (rest : List DrawResult) :
    sequentialThen patterns predictions (last :: secondLast :: rest)
      = predictions ++ (patterns.filter fun pattern =>
          pattern.prev_2 = secondLast.animal_name ∧ pattern.prev_1 = last.animal_name).map
            sequentialCandidate := by
  unfold sequentialThen
  rw [if_pos (by simp)]
  simp only [foldl_push]
  rfl

theorem sequentialThen_of_length_lt (patterns : List SequentialPattern)
    (predictions : List Prediction) (recentResults : List DrawResult)
    (h : recentResults.length < 2) :
    sequentialThen patterns predictions recentResults = predictions := by
  unfold sequentialThen
  rw [if_neg (by omega)]

theorem sequentialCandidate_scenario :
    sequentialCandidate { prev_2 := "Fox", prev_1 := "Dog", current := "X", frequency := 5 }
      = { animal := "X", probability := 10, algorithm := "sequential", confidence := 75,
          reason := "Secuencia detectada: Fox → Dog → X" } := by
  have hp : min (12 : ℚ) (((5 : ℤ) : ℚ) * 2) = 10 := by norm_num
  have hc : min (80 : ℚ) (((5 : ℤ) : ℚ) * 15) = 75 := by norm_num
  simp only [sequentialCandidate, hp, hc]
  decide

/-- C11. Given the pattern table and the two most recent outcomes (last,
secondLast), the sequential algorithm (the callback of the lookup, and so the
array once the lookup has resolved) produces exactly one candidate per pattern
whose `prev_2` equals secondLast and `prev_1` equals last, with symbol the
pattern's `current`, probability `min(12, 2 * frequency)` and confidence
`min(80, 15 * frequency)`, and no candidate when fewer than two recent outcomes
exist; pattern (Fox, Dog, X) of frequency 5 with recent outcomes Dog (last), Fox
(secondLast) gives candidate X with probability 10 and confidence 75. -/
theorem calculateSequentialPredictions_candidates (patterns : List SequentialPattern)
    (recentResults : List DrawResult) :
    (∀ last secondLast rest, recentResults = last :: secondLast :: rest →
      ∃ matching : List SequentialPattern,
        matching = patterns.filter (fun pattern =>
          pattern.prev_2 = secondLast.animal_name ∧ pattern.prev_1 = last.animal_name) ∧
        (calculateSequentialPredictions patterns).settled (.ok recentResults)
          = matching.map sequentialCandidate ∧
        sequentialThen patterns [] recentResults = matching.map sequentialCandidate) ∧
    (∀ pattern : SequentialPattern,
      (sequentialCandidate pattern).animal = pattern.current ∧
      (sequentialCandidate pattern).probability = min 12 (2 * (pattern.frequency : ℚ)) ∧
      (sequentialCandidate pattern).confidence = min 80 (15 * (pattern.frequency : ℚ))) ∧
    (recentResults.length < 2 →
      (calculateSequentialPredictions patterns).settled (.ok recentResults) = [] ∧
      sequentialThen patterns [] recentResults = []) ∧
    (calculateSequentialPredictions scenarioPatterns).settled (.ok scenarioRecent)
      = [{ animal := "X", probability := 10, algorithm := "sequential", confidence := 75,
           reason := "Secuencia detectada: Fox → Dog → X" }] := by
  refine ⟨?_, ?_, ?_, ?_⟩
  · rintro last secondLast rest rfl
    refine ⟨_, rfl, ?_, ?_⟩
    · show sequentialThen patterns [] _ = _
      rw [sequentialThen_cons_cons, List.nil_append]
    · rw [sequentialThen_cons_cons, List.nil_append]
  · intro pattern
    refine ⟨rfl, ?_, ?_⟩
    · show min (12 : ℚ) _ = _
      rw [mul_comm]
    · show min (80 : ℚ) _ = _
      rw [mul_comm]
  · intro h
    refine ⟨?_, sequentialThen_of_length_lt _ _ _ h⟩
    show sequentialThen patterns [] _ = _
    exact sequentialThen_of_length_lt _ _ _ h
  · show sequentialThen scenarioPatterns [] scenarioRecent = _
    unfold scenarioRecent
    rw [sequentialThen_cons_cons, List.nil_append]
    have hf : (scenarioPatterns.filter fun pattern =>
        pattern.prev_2 = (⟨"Fox"⟩ : DrawResult).animal_name ∧
        pattern.prev_1 = (⟨"Dog"⟩ : DrawResult).animal_name)
        = [{ prev_2 := "Fox", prev_1 := "Dog", current := "X", frequency := 5 }] := by
      decide
    rw [hf, List.map_singleton, sequentialCandidate_scenario]

/-- C12. For every pattern table and every state of the history store, the
candidate list `calculateSequentialPredictions` returns is empty at the moment
the function returns: the lookup of the two most recent outcomes is not awaited,
and its outcome reaches the array only when the pending callback runs. -/
theorem calculateSequentialPredictions_returned (patterns : List SequentialPattern)
    (outcome : Except String (List DrawResult)) :
    (calculateSequentialPredictions patterns).returned = [] ∧
    ((calculateSequentialPredictions patterns).settled outcome
      = match outcome with
        | .ok recentResults => sequentialThen patterns [] recentResults
        | .error _ => []) ∧
    ((calculateSequentialPredictions scenarioPatterns).returned = [] ∧
      (calculateSequentialPredictions scenarioPatterns).settled (.ok scenarioRecent) ≠ []) := by
  refine ⟨rfl, ?_, rfl, ?_⟩
  · cases outcome <;> rfl
  · show sequentialThen scenarioPatterns [] scenarioRecent ≠ []
    unfold scenarioRecent
    rw [sequentialThen_cons_cons, List.nil_append]
    have hf : (scenarioPatterns.filter fun pattern =>
        pattern.prev_2 = (⟨"Fox"⟩ : DrawResult).animal_name ∧
        pattern.prev_1 = (⟨"Dog"⟩ : DrawResult).animal_name)
        = [{ prev_2 := "Fox", prev_1 := "Dog", current := "X", frequency := 5 }] := by
      decide
    rw [hf]
    simp

/-! ### The order of the keys of an object -/

theorem arrayIndex?_inj (a b : String) (n : ℕ) (ha : arrayIndex? a = some n)
    (hb : arrayIndex? b = some n) : a = b := by
  have key : ∀ k : String, arrayIndex? k = some n → toString n = k := by
    intro k hk
    unfold arrayIndex? at hk
    cases hd : digitsValue? k.data with
    | none => rw [hd] at hk; cases hk
    | some m =>
      rw [hd] at hk
      simp only at hk
      split_ifs at hk with hc
      cases hk
      exact hc.1
  rw [← key a ha, ← key b hb]

theorem objectOrder_perm {α : Type} (key : α → String) (entries : List α) :
    (objectOrder key entries).Perm entries := by
  unfold objectOrder
  refine ((List.perm_insertionSort _ _).append_right _).trans ?_
  have h := List.filter_append_perm (fun e : α => (arrayIndex? (key e)).isSome) entries
  have hnot : (fun e : α => (arrayIndex? (key e)).isNone)
      = fun e => !(arrayIndex? (key e)).isSome := by
    funext e
    cases arrayIndex? (key e) <;> rfl
  rw [hnot]
  exact h

theorem mem_objectOrder {α : Type} (key : α → String) (entries : List α) (e : α) :
    e ∈ objectOrder key entries ↔ e ∈ entries :=
  (objectOrder_perm key entries).mem_iff

/-! ### The dictionary of the binary64 combiner -/

theorem entryOf64_animal (l : List (Prediction × ℚ)) (s : String) :
    (entryOf64 l s).animal = s := rfl

theorem entryOf64_snoc (l : List (Prediction × ℚ)) (x : Prediction × ℚ) (s : String) :
    entryOf64 (l ++ [x]) s
      = if s = x.1.animal then (entryOf64 l s).accumulate64 x.1 x.2 else entryOf64 l s := by
  by_cases h : s = x.1.animal
  · rw [if_pos h]
    simp [entryOf64, candidatesOf, CombinedPrediction.accumulate64, List.filter_append, h,
      sum64, List.foldl_append]
  · rw [if_neg h]
    have h' : ¬ x.1.animal = s := fun e => h e.symm
    simp [entryOf64, candidatesOf, List.filter_append, h']

theorem entryOf64_of_not_mem (l : List (Prediction × ℚ)) (s : String)
    (h : s ∉ l.map fun pw => pw.1.animal) : entryOf64 l s = CombinedPrediction.fresh s := by
  have : candidatesOf l s = [] := by
    unfold candidatesOf
    rw [List.filter_eq_nil_iff]
    intro pw hpw
    simp only [decide_eq_true_eq]
    intro e
    exact h (List.mem_map.2 ⟨pw, hpw, e⟩)
  simp [entryOf64, this, CombinedPrediction.fresh, sum64]

/-- One step of the loops on a dictionary that holds the binary64 entries of the
symbols seen so far. -/
theorem addPrediction64_entries (l : List (Prediction × ℚ)) (x : Prediction × ℚ)
    (hx : x.1.animal ∉ objectPrototypeKeys) :
    addPrediction64 x.2 ((firstSeen (l.map fun pw => pw.1.animal)).map (entryOf64 l)) x.1
      = .ok ((firstSeen ((l ++ [x]).map fun pw => pw.1.animal)).map (entryOf64 (l ++ [x]))) := by
  rw [List.map_append, List.map_cons, List.map_nil, firstSeen_snoc]
  have hupd : ∀ s, (if (entryOf64 l s).animal = x.1.animal
        then (entryOf64 l s).accumulate64 x.1 x.2 else entryOf64 l s) = entryOf64 (l ++ [x]) s := by
    intro s
    rw [entryOf64_snoc, entryOf64_animal]
  have hany : (List.map (entryOf64 l) (firstSeen (l.map fun pw => pw.1.animal))).any
        (fun c => c.animal == x.1.animal) = true
      ↔ x.1.animal ∈ firstSeen (l.map fun pw => pw.1.animal) := by
    simp [List.any_eq_true, entryOf64_animal]
  unfold addPrediction64
  rw [if_neg hx]
  by_cases hm : x.1.animal ∈ firstSeen (l.map fun pw => pw.1.animal)
  · rw [if_pos (hany.2 hm), if_pos hm]
    dsimp only
    rw [List.map_map]
    congr 1
    exact List.map_congr_left fun s _ => hupd s
  · rw [if_neg (fun h => hm (hany.1 h)), if_neg hm]
    dsimp only
    rw [List.map_append, List.map_append, List.map_map]
    congr 2
    · exact List.map_congr_left fun s _ => hupd s
    · have hnot : x.1.animal ∉ l.map fun pw => pw.1.animal :=
        fun h => hm ((mem_firstSeen _ _).2 h)
      rw [← entryOf64_of_not_mem l _ hnot]
      simp only [List.map_cons, List.map_nil]
      rw [hupd]

theorem foldlM_addPrediction64_eq (l : List (Prediction × ℚ))
    (h : ∀ pw ∈ l, pw.1.animal ∉ objectPrototypeKeys) :
    l.foldlM (fun acc pw => addPrediction64 pw.2 acc pw.1) []
      = .ok ((firstSeen (l.map fun pw => pw.1.animal)).map (entryOf64 l)) := by
  induction l using List.reverseRecOn with
  | nil => simp [firstSeen, pure, Except.pure]
  | append_singleton l x ih =>
    rw [List.foldlM_append, ih fun pw hpw => h pw (List.mem_append_left _ hpw)]
    simp only [List.foldlM_cons, List.foldlM_nil, bind, Except.bind, pure, Except.pure]
    rw [addPrediction64_entries l x (h x (by simp))]

/-- The nested loops of the combiner as one pass over the weighted candidates. -/
theorem combinedAfter64_eq_foldlM (ars : List AlgorithmResult) :
    combinedAfter64 ars
      = (weightedCandidates ars).foldlM (fun acc pw => addPrediction64 pw.2 acc pw.1) [] := by
  unfold combinedAfter64 weightedCandidates
  generalize ([] : List CombinedPrediction) = init
  induction ars generalizing init with
  | nil => simp
  | cons ar ars ih =>
    simp only [List.foldlM_cons, List.flatMap_cons, List.foldlM_append, List.foldlM_map]
    congr 1
    funext combined
    exact ih combined

theorem foldlM_addPrediction64_error (l : List (Prediction × ℚ)) :
    ∀ init : List CombinedPrediction, (∃ pw ∈ l, pw.1.animal ∈ objectPrototypeKeys) →
      ∃ e, l.foldlM (fun acc pw => addPrediction64 pw.2 acc pw.1) init = .error e := by
  induction l with
  | nil => rintro init ⟨pw, hpw, _⟩; cases hpw
  | cons x l ih =>
    rintro init ⟨pw, hpw, hbad⟩
    rw [List.foldlM_cons]
    by_cases hx : x.1.animal ∈ objectPrototypeKeys
    · refine ⟨"TypeError: Cannot read properties of undefined", ?_⟩
      unfold addPrediction64
      rw [if_pos hx]
      rfl
    · rcases List.mem_cons.1 hpw with rfl | hpw
      · exact absurd hbad hx
      · unfold addPrediction64
        rw [if_neg hx]
        exact ih _ ⟨pw, hpw, hbad⟩

theorem mem_weightedCandidates (ars : List AlgorithmResult) (pw : Prediction × ℚ) :
    pw ∈ weightedCandidates ars ↔ ∃ ar ∈ ars, pw.1 ∈ ar.results ∧ pw.2 = ar.weight := by
  simp only [weightedCandidates, List.mem_flatMap, List.mem_map]
  constructor
  · rintro ⟨ar, har, p, hp, rfl⟩
    exact ⟨ar, har, hp, rfl⟩
  · rintro ⟨ar, har, hp, hw⟩
    exact ⟨ar, har, pw.1, hp, by rw [← hw]⟩

/-- The forecast of the binary64 combiner when no symbol is named like a member
of `Object.prototype`: the stable sort of the rounded entries of the distinct
symbols, taken in the order of `Object.values`. -/
theorem combineAlgorithmResults64_eq (ars : List AlgorithmResult)
    (h : ∀ ar ∈ ars, ∀ p ∈ ar.results, p.animal ∉ objectPrototypeKeys) :
    combineAlgorithmResults64 ars
      = .ok (((objectValuesOrder ((firstSeen (seenSymbols ars)).map
          (entryOf64 (weightedCandidates ars)))).map roundEntry64).insertionSort
            byProbabilityDesc) := by
  unfold combineAlgorithmResults64 seenSymbols
  rw [combinedAfter64_eq_foldlM, foldlM_addPrediction64_eq]
  · rfl
  · intro pw hpw
    obtain ⟨ar, har, hp, _⟩ := (mem_weightedCandidates ars pw).1 hpw
    exact h ar har pw.1 hp

/-- The binary64 combiner throws exactly when a candidate's symbol is named like
a member of `Object.prototype`. -/
theorem combineAlgorithmResults64_error_iff (ars : List AlgorithmResult) :
    (∃ e, combineAlgorithmResults64 ars = .error e)
      ↔ ∃ ar ∈ ars, ∃ p ∈ ar.results, p.animal ∈ objectPrototypeKeys := by
  constructor
  · rintro ⟨e, he⟩
    by_contra hno
    push_neg at hno
    rw [combineAlgorithmResults64_eq ars hno] at he
    cases he
  · rintro ⟨ar, har, p, hp, hbad⟩
    obtain ⟨e, he⟩ := foldlM_addPrediction64_error (weightedCandidates ars) []
      ⟨(p, ar.weight), (mem_weightedCandidates ars _).2 ⟨ar, har, hp, rfl⟩, hbad⟩
    refine ⟨e, ?_⟩
    unfold combineAlgorithmResults64
    rw [combinedAfter64_eq_foldlM, he]
    rfl

theorem objectValuesOrder_perm (combined : List CombinedPrediction) :
    (objectValuesOrder combined).Perm combined :=
  objectOrder_perm _ combined

/-- In the order of `Object.values` the entries whose symbol is an array index
stand first, in ascending order of the index, and the others follow in the order
in which they were created. -/
theorem pairwise_objectValuesOrder (names : List String) (combined : List CombinedPrediction)
    (hn : (combined.map fun c => c.animal).Nodup)
    (hp : combined.Pairwise fun a b => names.indexOf a.animal < names.indexOf b.animal) :
    (objectValuesOrder combined).Pairwise fun a b => valuesBefore names a.animal b.animal := by
  unfold objectValuesOrder objectOrder
  rw [List.pairwise_append]
  refine ⟨?_, ?_, ?_⟩
  · haveI : IsTotal CombinedPrediction (fun a b =>
        (arrayIndex? a.animal).getD 0 ≤ (arrayIndex? b.animal).getD 0) :=
      ⟨fun a b => le_total _ _⟩
    haveI : IsTrans CombinedPrediction (fun a b =>
        (arrayIndex? a.animal).getD 0 ≤ (arrayIndex? b.animal).getD 0) :=
      ⟨fun a b c hab hbc => le_trans hab hbc⟩
    have hsorted := List.sorted_insertionSort
      (fun a b : CombinedPrediction =>
        (arrayIndex? a.animal).getD 0 ≤ (arrayIndex? b.animal).getD 0)
      (combined.filter fun c => (arrayIndex? c.animal).isSome)
    have hne : ((combined.filter fun c => (arrayIndex? c.animal).isSome).insertionSort
        (fun a b => (arrayIndex? a.animal).getD 0 ≤ (arrayIndex? b.animal).getD 0)).Pairwise
        fun a b => a.animal ≠ b.animal := by
      have h1 : ((combined.filter fun c => (arrayIndex? c.animal).isSome).map
          fun c => c.animal).Nodup := hn.sublist ((List.filter_sublist _).map _)
      have h2 := ((List.perm_insertionSort
        (fun a b : CombinedPrediction =>
          (arrayIndex? a.animal).getD 0 ≤ (arrayIndex? b.animal).getD 0)
        (combined.filter fun c => (arrayIndex? c.animal).isSome)).map
          fun c => c.animal).nodup_iff.2 h1
      exact (List.pairwise_map.1 h2)
    refine ((hsorted.and hne).imp_of_mem ?_)
    intro a b ha hb hab
    have ha' := (List.mem_filter.1 ((List.mem_insertionSort _).1 ha)).2
    have hb' := (List.mem_filter.1 ((List.mem_insertionSort _).1 hb)).2
    obtain ⟨m, hm⟩ := Option.isSome_iff_exists.1 ha'
    obtain ⟨n, hn'⟩ := Option.isSome_iff_exists.1 hb'
    unfold valuesBefore
    rw [hm, hn']
    have hle : m ≤ n := by simpa [hm, hn'] using hab.1
    rcases hle.eq_or_lt with heq | hlt
    · exact absurd (arrayIndex?_inj _ _ n (heq ▸ hm) hn') hab.2
    · exact hlt
  · refine (hp.sublist (List.filter_sublist _)).imp_of_mem ?_
    intro a b ha hb hab
    have ha' := (List.mem_filter.1 ha).2
    have hb' := (List.mem_filter.1 hb).2
    unfold valuesBefore
    rw [Option.isNone_iff_eq_none.1 ha', Option.isNone_iff_eq_none.1 hb']
    exact hab
  · intro a ha b hb
    have ha' := (List.mem_filter.1 ((List.mem_insertionSort _).1 ha)).2
    have hb' := (List.mem_filter.1 hb).2
    obtain ⟨m, hm⟩ := Option.isSome_iff_exists.1 ha'
    unfold valuesBefore
    rw [hm, Option.isNone_iff_eq_none.1 hb']
    trivial

/-! ### The forecast of the binary64 combiner -/

theorem combineAlgorithmResults64_perm (ars : List AlgorithmResult) :
    ((((objectValuesOrder ((firstSeen (seenSymbols ars)).map
        (entryOf64 (weightedCandidates ars)))).map roundEntry64).insertionSort
          byProbabilityDesc)).Perm
      ((firstSeen (seenSymbols ars)).map
        fun s => roundEntry64 (entryOf64 (weightedCandidates ars) s)) := by
  refine (List.perm_insertionSort _ _).trans ?_
  refine ((objectValuesOrder_perm _).map _).trans ?_
  rw [List.map_map]
  rfl

/-- C1 (amended). When no candidate's symbol is named like a member of
`Object.prototype`, `combineAlgorithmResults` returns exactly one entry per
distinct symbol occurring in any candidate list. The entry's probability is
`Math.round(s * 100) / 100` evaluated in binary64, where `s` is the running sum,
in the order the candidates are encountered, of the products
`probability * weight`, every product and every addition rounded to binary64;
its confidence is `Math.round` of the like sum of the products
`confidence * weight`; its reasons and algorithms are the rationales and tags of
exactly those candidates in the order they were encountered. -/
theorem combineAlgorithmResults64_entries (ars : List AlgorithmResult)
    (h : ∀ ar ∈ ars, ∀ p ∈ ar.results, p.animal ∉ objectPrototypeKeys) :
    ∃ forecast, combineAlgorithmResults64 ars = .ok forecast ∧
      (forecast.map fun e => e.animal).Nodup ∧
      (∀ s, s ∈ forecast.map (fun e => e.animal)
          ↔ ∃ ar ∈ ars, ∃ p ∈ ar.results, p.animal = s) ∧
      ∀ e ∈ forecast,
        e.probability = fl ((mathRound (fl (sum64
          ((candidatesOf (weightedCandidates ars) e.animal).map
            fun pw => mul64 pw.1.probability pw.2) * 100)) : ℚ) / 100) ∧
        e.confidence = (mathRound (sum64
          ((candidatesOf (weightedCandidates ars) e.animal).map
            fun pw => mul64 pw.1.confidence pw.2)) : ℚ) ∧
        e.reasons
          = (candidatesOf (weightedCandidates ars) e.animal).map (fun pw => pw.1.reason) ∧
        e.algorithms
          = (candidatesOf (weightedCandidates ars) e.animal).map (fun pw => pw.1.algorithm) := by
  refine ⟨_, combineAlgorithmResults64_eq ars h, ?_, ?_, ?_⟩
  · have hp := (combineAlgorithmResults64_perm ars).map fun e => e.animal
    rw [List.map_map] at hp
    have hid : ((fun e : CombinedPrediction => e.animal) ∘
        fun s => roundEntry64 (entryOf64 (weightedCandidates ars) s)) = id := by
      funext s; rfl
    rw [hid, List.map_id] at hp
    exact hp.nodup_iff.2 (nodup_firstSeen _)
  · intro s
    have hp := (combineAlgorithmResults64_perm ars).map fun e => e.animal
    rw [List.map_map] at hp
    have hid : ((fun e : CombinedPrediction => e.animal) ∘
        fun s => roundEntry64 (entryOf64 (weightedCandidates ars) s)) = id := by
      funext s; rfl
    rw [hid, List.map_id] at hp
    rw [hp.mem_iff, mem_firstSeen, mem_seenSymbols]
  · intro e he
    obtain ⟨s, _, rfl⟩ := List.mem_map.1 ((combineAlgorithmResults64_perm ars).mem_iff.1 he)
    exact ⟨rfl, rfl, rfl, rfl⟩

/-- C5 (amended). When no candidate's symbol is named like a member of
`Object.prototype`, the list returned by `combineAlgorithmResults` is sorted
non-increasing by rounded probability, and entries with equal probability stand
in the order of `Object.values`: the symbols that are array indices first, in
ascending numeric order, then the other symbols in the order in which they were
first seen. When no symbol is an array index, ties follow first-seen order. -/
theorem combineAlgorithmResults64_sorted (ars : List AlgorithmResult)
    (h : ∀ ar ∈ ars, ∀ p ∈ ar.results, p.animal ∉ objectPrototypeKeys) :
    ∃ forecast, combineAlgorithmResults64 ars = .ok forecast ∧
      forecast.Pairwise (fun a b => b.probability ≤ a.probability) ∧
      forecast.Pairwise (fun a b => a.probability = b.probability →
        valuesBefore (seenSymbols ars) a.animal b.animal) ∧
      ((∀ s ∈ seenSymbols ars, arrayIndex? s = none) →
        forecast.Pairwise (fun a b => a.probability = b.probability →
          (seenSymbols ars).indexOf a.animal < (seenSymbols ars).indexOf b.animal)) := by
  have hin : ((objectValuesOrder ((firstSeen (seenSymbols ars)).map
      (entryOf64 (weightedCandidates ars)))).map roundEntry64).Pairwise
      (fun a b : CombinedPrediction => valuesBefore (seenSymbols ars) a.animal b.animal) := by
    rw [List.pairwise_map]
    refine pairwise_objectValuesOrder (seenSymbols ars) _ ?_ ?_
    · rw [List.map_map]
      have hid : ((fun c : CombinedPrediction => c.animal) ∘
          entryOf64 (weightedCandidates ars)) = id := by
        funext s; rfl
      rw [hid, List.map_id]
      exact nodup_firstSeen _
    · rw [List.pairwise_map]
      exact pairwise_firstSeen _
  have hs := pairwise_insertionSort_stable byProbabilityDesc _
    (fun a b => le_total b.probability a.probability)
    (fun a b c hab hbc => le_trans hbc hab) _ hin
  refine ⟨_, combineAlgorithmResults64_eq ars h, hs.imp fun hxy => hxy.1,
    hs.imp fun hxy heq => hxy.2 (le_of_eq heq), fun hnone => ?_⟩
  refine hs.imp_of_mem ?_
  intro a b ha hb hxy heq
  have hv := hxy.2 (le_of_eq heq)
  have hmem : ∀ e ∈ ((objectValuesOrder ((firstSeen (seenSymbols ars)).map
      (entryOf64 (weightedCandidates ars)))).map roundEntry64).insertionSort byProbabilityDesc,
      arrayIndex? e.animal = none := by
    intro e he
    obtain ⟨s, hs', rfl⟩ := List.mem_map.1 ((combineAlgorithmResults64_perm ars).mem_iff.1 he)
    exact hnone s ((mem_firstSeen _ _).1 hs')
  unfold valuesBefore at hv
  rw [hmem a ha, hmem b hb] at hv
  exact hv

/-- C7 (amended). When no candidate's symbol is named like a member of
`Object.prototype`, every permutation of the list of algorithm results gives a
forecast with the same symbols, one entry each, and the reasons and the
algorithms of a symbol in the two forecasts are permutations of one another. A
symbol whose candidates are encountered in the same order in both lists, such as
a symbol with a single candidate, has the same entry in both forecasts. -/
theorem combineAlgorithmResults64_of_perm (ars ars' : List AlgorithmResult)
    (hperm : ars.Perm ars')
    (h : ∀ ar ∈ ars, ∀ p ∈ ar.results, p.animal ∉ objectPrototypeKeys) :
    ∃ forecast forecast', combineAlgorithmResults64 ars = .ok forecast ∧
      combineAlgorithmResults64 ars' = .ok forecast' ∧
      (forecast.map fun e => e.animal).Perm (forecast'.map fun e => e.animal) ∧
      (forecast.map fun e => e.animal).Nodup ∧
      ∀ e ∈ forecast, ∀ e' ∈ forecast', e.animal = e'.animal →
        e.reasons.Perm e'.reasons ∧ e.algorithms.Perm e'.algorithms ∧
        (candidatesOf (weightedCandidates ars) e.animal
            = candidatesOf (weightedCandidates ars') e.animal → e = e') := by
  have h' : ∀ ar ∈ ars', ∀ p ∈ ar.results, p.animal ∉ objectPrototypeKeys :=
    fun ar har => h ar (hperm.mem_iff.2 har)
  have hid : ∀ l : List AlgorithmResult, ((fun e : CombinedPrediction => e.animal) ∘
      fun s => roundEntry64 (entryOf64 (weightedCandidates l) s)) = id := by
    intro l; funext s; rfl
  have hp := (combineAlgorithmResults64_perm ars).map fun e => e.animal
  have hp' := (combineAlgorithmResults64_perm ars').map fun e => e.animal
  rw [List.map_map, hid, List.map_id] at hp hp'
  have hw := weightedCandidates_perm hperm
  refine ⟨_, _, combineAlgorithmResults64_eq ars h, combineAlgorithmResults64_eq ars' h',
    hp.trans ((firstSeen_perm (hw.map _)).trans hp'.symm), hp.nodup_iff.2 (nodup_firstSeen _),
    ?_⟩
  intro e he e' he' hee
  obtain ⟨s, _, rfl⟩ := List.mem_map.1 ((combineAlgorithmResults64_perm ars).mem_iff.1 he)
  obtain ⟨s', _, rfl⟩ := List.mem_map.1 ((combineAlgorithmResults64_perm ars').mem_iff.1 he')
  have hss : s = s' := hee
  subst hss
  refine ⟨(candidatesOf_perm hw s).map _, (candidatesOf_perm hw s).map _, fun hc => ?_⟩
  have hs : (roundEntry64 (entryOf64 (weightedCandidates ars) s)).animal = s := rfl
  rw [hs] at hc
  unfold entryOf64
  rw [hc]

/-! ### A sum that binary64 rounds below the tie -/

theorem fl_194 :
    fl (97 / 50)
      = 4368491638549381 / 2251799813685248 := by
  rw [fl_eq_of_binade _ (0) (by norm_num) (by norm_num) (by norm_num) (by norm_num),
    roundHalfEven_of_lt _ 8736983277098762 (by norm_num) (by norm_num)]
  norm_num

theorem fl_quarter :
    fl (1 / 4)
      = 1 / 4 := by
  rw [fl_eq_of_binade _ (-2) (by norm_num) (by norm_num) (by norm_num) (by norm_num),
    roundHalfEven_of_lt _ 4503599627370496 (by norm_num) (by norm_num)]
  norm_num

theorem fl_194_quarter :
    fl (4368491638549381 / 2251799813685248 * (1 / 4))
      = 4368491638549381 / 9007199254740992 := by
  rw [fl_eq_of_binade _ (-2) (by norm_num) (by norm_num) (by norm_num) (by norm_num),
    roundHalfEven_of_lt _ 8736983277098762 (by norm_num) (by norm_num)]
  norm_num

theorem fl_485 :
    fl (0 + 4368491638549381 / 9007199254740992)
      = 4368491638549381 / 9007199254740992 := by
  rw [fl_eq_of_binade _ (-2) (by norm_num) (by norm_num) (by norm_num) (by norm_num),
    roundHalfEven_of_lt _ 8736983277098762 (by norm_num) (by norm_num)]
  norm_num

theorem fl_015 :
    fl (3 / 20)
      = 5404319552844595 / 36028797018963968 := by
  rw [fl_eq_of_binade _ (-3) (by norm_num) (by norm_num) (by norm_num) (by norm_num),
    roundHalfEven_of_lt _ 5404319552844595 (by norm_num) (by norm_num)]
  norm_num

theorem fl_six :
    fl (6)
      = 6 := by
  rw [fl_eq_of_binade _ (2) (by norm_num) (by norm_num) (by norm_num) (by norm_num),
    roundHalfEven_of_lt _ 6755399441055744 (by norm_num) (by norm_num)]
  norm_num

theorem fl_six_015 :
    fl (6 * (5404319552844595 / 36028797018963968))
      = 2026619832316723 / 2251799813685248 := by
  rw [fl_eq_of_binade _ (-1) (by norm_num) (by norm_num) (by norm_num) (by norm_num),
    roundHalfEven_of_tie _ 8106479329266892 (by norm_num)]
  norm_num

theorem fl_1385 :
    fl (4368491638549381 / 9007199254740992 + 2026619832316723 / 2251799813685248)
      = 779685685488517 / 562949953421312 := by
  rw [fl_eq_of_binade _ (0) (by norm_num) (by norm_num) (by norm_num) (by norm_num),
    roundHalfEven_of_tie _ 6237485483908136 (by norm_num)]
  norm_num

theorem fl_1385_hundred :
    fl (779685685488517 / 562949953421312 * 100)
      = 4873035534303231 / 35184372088832 := by
  rw [fl_eq_of_binade _ (7) (by norm_num) (by norm_num) (by norm_num) (by norm_num),
    roundHalfEven_of_lt _ 4873035534303231 (by norm_num) (by norm_num)]
  norm_num

theorem fl_138 :
    fl (138 / 100)
      = 1553741871442821 / 1125899906842624 := by
  rw [fl_eq_of_binade _ (0) (by norm_num) (by norm_num) (by norm_num) (by norm_num),
    roundHalfEven_of_lt _ 6214967485771284 (by norm_num) (by norm_num)]
  norm_num

theorem fl_seventy :
    fl (70)
      = 70 := by
  rw [fl_eq_of_binade _ (6) (by norm_num) (by norm_num) (by norm_num) (by norm_num),
    roundHalfEven_of_lt _ 4925812092436480 (by norm_num) (by norm_num)]
  norm_num

theorem fl_seventy_quarter :
    fl (70 * (1 / 4))
      = 35 / 2 := by
  rw [fl_eq_of_binade _ (4) (by norm_num) (by norm_num) (by norm_num) (by norm_num),
    roundHalfEven_of_lt _ 4925812092436480 (by norm_num) (by norm_num)]
  norm_num

theorem fl_zero_add_175 :
    fl (0 + 35 / 2)
      = 35 / 2 := by
  rw [fl_eq_of_binade _ (4) (by norm_num) (by norm_num) (by norm_num) (by norm_num),
    roundHalfEven_of_lt _ 4925812092436480 (by norm_num) (by norm_num)]
  norm_num

theorem fl_thirty :
    fl (30)
      = 30 := by
  rw [fl_eq_of_binade _ (4) (by norm_num) (by norm_num) (by norm_num) (by norm_num),
    roundHalfEven_of_lt _ 8444249301319680 (by norm_num) (by norm_num)]
  norm_num

theorem fl_thirty_015 :
    fl (30 * (5404319552844595 / 36028797018963968))
      = 9 / 2 := by
  rw [fl_eq_of_binade _ (2) (by norm_num) (by norm_num) (by norm_num) (by norm_num),
    roundHalfEven_of_gt _ 5066549580791808 (by norm_num) (by norm_num)]
  norm_num

theorem fl_twenty_two :
    fl (35 / 2 + 9 / 2)
      = 22 := by
  rw [fl_eq_of_binade _ (4) (by norm_num) (by norm_num) (by norm_num) (by norm_num),
    roundHalfEven_of_lt _ 6192449487634432 (by norm_num) (by norm_num)]
  norm_num

theorem fl_139 :
    fl (139 / 100)
      = 6260003482044989 / 4503599627370496 := by
  rw [fl_eq_of_binade _ (0) (by norm_num) (by norm_num) (by norm_num) (by norm_num),
    roundHalfEven_of_lt _ 6260003482044989 (by norm_num) (by norm_num)]
  norm_num

theorem fl_four :
    fl (4)
      = 4 := by
  rw [fl_eq_of_binade _ (2) (by norm_num) (by norm_num) (by norm_num) (by norm_num),
    roundHalfEven_of_lt _ 4503599627370496 (by norm_num) (by norm_num)]
  norm_num

theorem fl_four_quarter :
    fl (4 * (1 / 4))
      = 1 := by
  rw [fl_eq_of_binade _ (0) (by norm_num) (by norm_num) (by norm_num) (by norm_num),
    roundHalfEven_of_lt _ 4503599627370496 (by norm_num) (by norm_num)]
  norm_num

theorem fl_zero_add_one :
    fl (0 + 1)
      = 1 := by
  rw [fl_eq_of_binade _ (0) (by norm_num) (by norm_num) (by norm_num) (by norm_num),
    roundHalfEven_of_lt _ 4503599627370496 (by norm_num) (by norm_num)]
  norm_num

theorem fl_one_hundred :
    fl (1 * 100)
      = 100 := by
  rw [fl_eq_of_binade _ (6) (by norm_num) (by norm_num) (by norm_num) (by norm_num),
    roundHalfEven_of_lt _ 7036874417766400 (by norm_num) (by norm_num)]
  norm_num

theorem fl_hundredth_hundred :
    fl (100 / 100)
      = 1 := by
  rw [fl_eq_of_binade _ (0) (by norm_num) (by norm_num) (by norm_num) (by norm_num),
    roundHalfEven_of_lt _ 4503599627370496 (by norm_num) (by norm_num)]
  norm_num

theorem fl_sixty_four :
    fl (64)
      = 64 := by
  rw [fl_eq_of_binade _ (6) (by norm_num) (by norm_num) (by norm_num) (by norm_num),
    roundHalfEven_of_lt _ 4503599627370496 (by norm_num) (by norm_num)]
  norm_num

theorem fl_sixty_four_quarter :
    fl (64 * (1 / 4))
      = 16 := by
  rw [fl_eq_of_binade _ (4) (by norm_num) (by norm_num) (by norm_num) (by norm_num),
    roundHalfEven_of_lt _ 4503599627370496 (by norm_num) (by norm_num)]
  norm_num

theorem fl_zero_add_sixteen :
    fl (0 + 16)
      = 16 := by
  rw [fl_eq_of_binade _ (4) (by norm_num) (by norm_num) (by norm_num) (by norm_num),
    roundHalfEven_of_lt _ 4503599627370496 (by norm_num) (by norm_num)]
  norm_num

theorem fl_fifth :
    fl (1 / 5)
      = 3602879701896397 / 18014398509481984 := by
  rw [fl_eq_of_binade _ (-3) (by norm_num) (by norm_num) (by norm_num) (by norm_num),
    roundHalfEven_of_gt _ 7205759403792794 (by norm_num) (by norm_num)]
  norm_num

theorem fl_61 :
    fl (61 / 10)
      = 3433994715870003 / 562949953421312 := by
  rw [fl_eq_of_binade _ (2) (by norm_num) (by norm_num) (by norm_num) (by norm_num),
    roundHalfEven_of_lt _ 6867989431740006 (by norm_num) (by norm_num)]
  norm_num

theorem fl_61_fifth :
    fl (3433994715870003 / 562949953421312 * (3602879701896397 / 18014398509481984))
      = 5494391545392005 / 4503599627370496 := by
  rw [fl_eq_of_binade _ (0) (by norm_num) (by norm_num) (by norm_num) (by norm_num),
    roundHalfEven_of_lt _ 5494391545392005 (by norm_num) (by norm_num)]
  norm_num

theorem fl_four_015 :
    fl (4 * (5404319552844595 / 36028797018963968))
      = 5404319552844595 / 9007199254740992 := by
  rw [fl_eq_of_binade _ (-1) (by norm_num) (by norm_num) (by norm_num) (by norm_num),
    roundHalfEven_of_lt _ 5404319552844595 (by norm_num) (by norm_num)]
  norm_num

theorem fl_sum_a :
    fl (4368491638549381 / 9007199254740992 + 5494391545392005 / 4503599627370496)
      = 959829670583337 / 562949953421312 := by
  rw [fl_eq_of_binade _ (0) (by norm_num) (by norm_num) (by norm_num) (by norm_num),
    roundHalfEven_of_tie _ 7678637364666695 (by norm_num)]
  norm_num

theorem fl_sum_ab :
    fl (959829670583337 / 562949953421312 + 5404319552844595 / 9007199254740992)
      = 5190398570544497 / 2251799813685248 := by
  rw [fl_eq_of_binade _ (1) (by norm_num) (by norm_num) (by norm_num) (by norm_num),
    roundHalfEven_of_gt _ 5190398570544497 (by norm_num) (by norm_num)]
  norm_num

theorem fl_sum_ab_hundred :
    fl (5190398570544497 / 2251799813685248 * 100)
      = 8109997766475777 / 35184372088832 := by
  rw [fl_eq_of_binade _ (7) (by norm_num) (by norm_num) (by norm_num) (by norm_num),
    roundHalfEven_of_gt _ 8109997766475777 (by norm_num) (by norm_num)]
  norm_num

theorem fl_sum_c :
    fl (4368491638549381 / 9007199254740992 + 5404319552844595 / 9007199254740992)
      = 1221601398924247 / 1125899906842624 := by
  rw [fl_eq_of_binade _ (0) (by norm_num) (by norm_num) (by norm_num) (by norm_num),
    roundHalfEven_of_lt _ 4886405595696988 (by norm_num) (by norm_num)]
  norm_num

theorem fl_sum_cd :
    fl (1221601398924247 / 1125899906842624 + 5494391545392005 / 4503599627370496)
      = 324399910659031 / 140737488355328 := by
  rw [fl_eq_of_binade _ (1) (by norm_num) (by norm_num) (by norm_num) (by norm_num),
    roundHalfEven_of_tie _ 5190398570544496 (by norm_num)]
  norm_num

theorem fl_sum_cd_hundred :
    fl (324399910659031 / 140737488355328 * 100)
      = 8109997766475775 / 35184372088832 := by
  rw [fl_eq_of_binade _ (7) (by norm_num) (by norm_num) (by norm_num) (by norm_num),
    roundHalfEven_of_lt _ 8109997766475775 (by norm_num) (by norm_num)]
  norm_num

theorem fl_231 :
    fl (231 / 100)
      = 5201657569612923 / 2251799813685248 := by
  rw [fl_eq_of_binade _ (1) (by norm_num) (by norm_num) (by norm_num) (by norm_num),
    roundHalfEven_of_gt _ 5201657569612923 (by norm_num) (by norm_num)]
  norm_num

theorem fl_230 :
    fl (230 / 100)
      = 2589569785738035 / 1125899906842624 := by
  rw [fl_eq_of_binade _ (1) (by norm_num) (by norm_num) (by norm_num) (by norm_num),
    roundHalfEven_of_lt _ 5179139571476070 (by norm_num) (by norm_num)]
  norm_num

/-! ### The binary64 combiner on concrete inputs -/

theorem mathRound_1385 : mathRound (4873035534303231 / 35184372088832) = 138 := by
  unfold mathRound
  rw [Int.floor_eq_iff]
  constructor <;> norm_num

theorem mathRound_natCast (n : ℕ) : mathRound (n : ℚ) = n := by
  unfold mathRound
  rw [Int.floor_eq_iff]
  constructor <;> push_cast <;> linarith

theorem combineAlgorithmResults64_absentThenSequence :
    combineAlgorithmResults64 absentThenSequence
      = .ok [{ animal := "Delfin", probability := 1553741871442821 / 1125899906842624,
               confidence := 22,
               reasons := ["Baja frecuencia reciente: 0 apariciones",
                 "Secuencia detectada: A → B → C"],
               algorithms := ["inverse_frequency", "sequential"] }] := by
  rw [combineAlgorithmResults64_eq _ (by decide)]
  have hidx : arrayIndex? "Delfin" = none := by decide
  have h22 : mathRound 22 = 22 := mathRound_natCast 22
  simp only [seenSymbols, weightedCandidates, absentThenSequence, absentCandidate,
    List.flatMap_cons, List.flatMap_nil, List.map_cons, List.map_nil, List.append_nil,
    List.singleton_append, firstSeen, List.foldl_cons, List.foldl_nil, List.not_mem_nil,
    if_false, List.nil_append, List.mem_singleton, if_true, entryOf64, candidatesOf,
    List.filter_cons, decide_True, List.filter_nil, sum64, objectValuesOrder, objectOrder, hidx,
    Option.isSome_none, Option.isNone_none, Bool.false_eq_true, List.insertionSort,
    roundEntry64, List.orderedInsert, mul64, add64]
  rw [fl_194, fl_quarter, fl_194_quarter, fl_485, fl_six, fl_015, fl_six_015, fl_1385,
    fl_1385_hundred, mathRound_1385, fl_seventy, fl_seventy_quarter, fl_zero_add_175,
    fl_thirty, fl_thirty_015, fl_twenty_two, h22]
  simp only [Int.cast_ofNat]
  rw [fl_138]

/-- C1 as stated fails: for a symbol with an inverse-frequency candidate of
probability 1.94 (weight 0.25) and a sequential candidate of probability 6
(weight 0.15) the sum of `probability * weight` is 1.385, which rounds to 1.39;
in binary64 the running sum is 1.3849999999999998 and the entry returned has the
probability 1.38. -/
theorem combineAlgorithmResults64_entries_counterexample :
    roundTwoDecimals (97 / 50 * (1 / 4) + 6 * (3 / 20)) = 139 / 100 ∧
    ∃ e, combineAlgorithmResults64 absentThenSequence = .ok [e] ∧
      e.probability = fl (138 / 100) ∧ e.probability ≠ fl (139 / 100) ∧
      e.probability ≠ 139 / 100 := by
  refine ⟨?_, _, combineAlgorithmResults64_absentThenSequence, ?_, ?_, ?_⟩
  · unfold roundTwoDecimals mathRound
    have h : ⌊(97 / 50 * (1 / 4) + 6 * (3 / 20) : ℚ) * 100 + 1 / 2⌋ = 139 := by
      rw [Int.floor_eq_iff]
      constructor <;> norm_num
    rw [h]
    norm_num
  · rw [fl_138]
  · rw [fl_139]
    norm_num
  · norm_num

theorem combineAlgorithmResults64_entries_witness :
    (∀ ar ∈ absentThenSequence, ∀ p ∈ ar.results, p.animal ∉ objectPrototypeKeys) ∧
    ∃ forecast, combineAlgorithmResults64 absentThenSequence = .ok forecast ∧
      (forecast.map fun e => e.animal).Nodup ∧
      (∀ s, s ∈ forecast.map (fun e => e.animal)
          ↔ ∃ ar ∈ absentThenSequence, ∃ p ∈ ar.results, p.animal = s) :=
  ⟨by decide,
    let ⟨forecast, h1, h2, h3, _⟩ :=
      combineAlgorithmResults64_entries absentThenSequence (by decide)
    ⟨forecast, h1, h2, h3⟩⟩

theorem combineAlgorithmResults64_numberedSymbols :
    combineAlgorithmResults64 numberedSymbols
      = .ok [{ animal := "2", probability := 1, confidence := 16,
               reasons := ["Patrón horario/diario favorable: 12:00 hrs, día 2"],
               algorithms := ["temporal"] },
             { animal := "10", probability := 1, confidence := 16,
               reasons := ["Patrón horario/diario favorable: 12:00 hrs, día 2"],
               algorithms := ["temporal"] },
             { animal := "b", probability := 1, confidence := 16,
               reasons := ["Patrón horario/diario favorable: 12:00 hrs, día 2"],
               algorithms := ["temporal"] }] := by
  rw [combineAlgorithmResults64_eq _ (by decide)]
  have hb : arrayIndex? "b" = none := by decide
  have h10 : arrayIndex? "10" = some 10 := by decide
  have h2 : arrayIndex? "2" = some 2 := by decide
  have h16 : mathRound 16 = 16 := mathRound_natCast 16
  have h100 : mathRound 100 = 100 := mathRound_natCast 100
  have hne1 : ¬ "10" = "b" := by decide
  have hne2 : ¬ "2" = "b" := by decide
  have hne3 : ¬ "2" = "10" := by decide
  have hne4 : ¬ "b" = "10" := by decide
  have hne5 : ¬ "b" = "2" := by decide
  have hne6 : ¬ "10" = "2" := by decide
  simp only [seenSymbols, weightedCandidates, numberedSymbols,
    List.flatMap_cons, List.flatMap_nil, List.map_cons, List.map_nil, List.append_nil,
    List.singleton_append, firstSeen, List.foldl_cons, List.foldl_nil, List.not_mem_nil,
    if_false, List.nil_append, List.mem_singleton, List.mem_cons, if_true, entryOf64,
    candidatesOf, List.cons_append, or_false, or_self,
    List.filter_cons, decide_True, decide_False, List.filter_nil, sum64, objectValuesOrder,
    objectOrder,
    hb, h10, h2, hne1, hne2, hne3, hne4, hne5, hne6,
    Option.isSome_none, Option.isNone_none, Option.isSome_some, Option.isNone_some,
    Bool.false_eq_true, List.insertionSort, Option.getD_some,
    roundEntry64, List.orderedInsert, mul64, add64, byProbabilityDesc]
  rw [fl_four, fl_quarter, fl_four_quarter, fl_zero_add_one, fl_one_hundred, h100,
    fl_sixty_four, fl_sixty_four_quarter, fl_zero_add_sixteen, h16]
  simp only [Int.cast_ofNat]
  rw [fl_hundredth_hundred]
  simp [byProbabilityDesc]

/-- C5 as stated fails: the symbols `b`, `10` and `2`, first seen in this order
and of equal rounded probability, are returned in the order `2`, `10`, `b`. -/
theorem combineAlgorithmResults64_sorted_counterexample :
    seenSymbols numberedSymbols = ["b", "10", "2"] ∧
    (combineAlgorithmResults64 numberedSymbols).map
        (fun forecast => forecast.map fun e => (e.animal, e.probability))
      = .ok [("2", 1), ("10", 1), ("b", 1)] := by
  refine ⟨rfl, ?_⟩
  rw [combineAlgorithmResults64_numberedSymbols]
  rfl

theorem combineAlgorithmResults64_sorted_witness :
    (∀ ar ∈ numberedSymbols, ∀ p ∈ ar.results, p.animal ∉ objectPrototypeKeys) ∧
    ∃ forecast, combineAlgorithmResults64 numberedSymbols = .ok forecast ∧
      forecast.Pairwise (fun a b => b.probability ≤ a.probability) ∧
      forecast.Pairwise (fun a b => a.probability = b.probability →
        valuesBefore (seenSymbols numberedSymbols) a.animal b.animal) :=
  ⟨by decide,
    let ⟨forecast, h1, h2, h3, _⟩ :=
      combineAlgorithmResults64_sorted numberedSymbols (by decide)
    ⟨forecast, h1, h2, h3⟩⟩

theorem mathRound_2305_up : mathRound (8109997766475777 / 35184372088832) = 231 := by
  unfold mathRound
  rw [Int.floor_eq_iff]
  constructor <;> norm_num

theorem mathRound_2305_down : mathRound (8109997766475775 / 35184372088832) = 230 := by
  unfold mathRound
  rw [Int.floor_eq_iff]
  constructor <;> norm_num

theorem probability_threeAlgorithms :
    (combineAlgorithmResults64 threeAlgorithms).map
        (fun forecast => forecast.map fun e => (e.probability, e.reasons))
      = .ok [(5201657569612923 / 2251799813685248,
          ["Baja frecuencia reciente: 0 apariciones", "Ciclo weekly sugiere aparición en 1 días",
            "Secuencia detectada: A → B → Delfin"])] := by
  rw [combineAlgorithmResults64_eq _ (by decide)]
  have hidx : arrayIndex? "Delfin" = none := by decide
  simp only [seenSymbols, weightedCandidates, threeAlgorithms, absentCandidate,
    List.flatMap_cons, List.flatMap_nil, List.map_cons, List.map_nil, List.append_nil,
    List.singleton_append, firstSeen, List.foldl_cons, List.foldl_nil, List.not_mem_nil,
    if_false, List.nil_append, List.mem_singleton, if_true, entryOf64, candidatesOf,
    List.filter_cons, decide_True, List.filter_nil, sum64, objectValuesOrder, objectOrder, hidx,
    Option.isSome_none, Option.isNone_none, Bool.false_eq_true, List.insertionSort,
    roundEntry64, List.orderedInsert, mul64, add64, Except.map]
  rw [fl_194, fl_quarter, fl_194_quarter, fl_485, fl_61, fl_fifth, fl_61_fifth, fl_four, fl_015,
    fl_four_015, fl_sum_a, fl_sum_ab, fl_sum_ab_hundred, mathRound_2305_up]
  simp only [Int.cast_ofNat]
  rw [fl_231]

theorem probability_threeAlgorithmsSwapped :
    (combineAlgorithmResults64 threeAlgorithmsSwapped).map
        (fun forecast => forecast.map fun e => (e.probability, e.reasons))
      = .ok [(2589569785738035 / 1125899906842624,
          ["Baja frecuencia reciente: 0 apariciones", "Secuencia detectada: A → B → Delfin",
            "Ciclo weekly sugiere aparición en 1 días"])] := by
  rw [combineAlgorithmResults64_eq _ (by decide)]
  have hidx : arrayIndex? "Delfin" = none := by decide
  simp only [seenSymbols, weightedCandidates, threeAlgorithmsSwapped, absentCandidate,
    List.flatMap_cons, List.flatMap_nil, List.map_cons, List.map_nil, List.append_nil,
    List.singleton_append, firstSeen, List.foldl_cons, List.foldl_nil, List.not_mem_nil,
    if_false, List.nil_append, List.mem_singleton, if_true, entryOf64, candidatesOf,
    List.filter_cons, decide_True, List.filter_nil, sum64, objectValuesOrder, objectOrder, hidx,
    Option.isSome_none, Option.isNone_none, Bool.false_eq_true, List.insertionSort,
    roundEntry64, List.orderedInsert, mul64, add64, Except.map]
  rw [fl_194, fl_quarter, fl_194_quarter, fl_485, fl_61, fl_fifth, fl_61_fifth, fl_four, fl_015,
    fl_four_015, fl_sum_c, fl_sum_cd, fl_sum_cd_hundred, mathRound_2305_down]
  simp only [Int.cast_ofNat]
  rw [fl_230]

/-- C7 as stated fails: exchanging the cyclical and the sequential list of a
symbol scored by three algorithms changes the order of the entry's reasons and
its probability: the running sum in binary64 is 2.305 in one order and
2.3049999999999997 in the other, so the entry has the probability 2.31 in one
forecast and 2.30 in the other. -/
theorem combineAlgorithmResults64_perm_counterexample :
    threeAlgorithms.Perm threeAlgorithmsSwapped ∧
    (combineAlgorithmResults64 threeAlgorithms).map
        (fun forecast => forecast.map fun e => (e.probability, e.reasons))
      = .ok [(fl (231 / 100),
          ["Baja frecuencia reciente: 0 apariciones", "Ciclo weekly sugiere aparición en 1 días",
            "Secuencia detectada: A → B → Delfin"])] ∧
    (combineAlgorithmResults64 threeAlgorithmsSwapped).map
        (fun forecast => forecast.map fun e => (e.probability, e.reasons))
      = .ok [(fl (230 / 100),
          ["Baja frecuencia reciente: 0 apariciones", "Secuencia detectada: A → B → Delfin",
            "Ciclo weekly sugiere aparición en 1 días"])] ∧
    fl (231 / 100) ≠ fl (230 / 100) ∧
    combineAlgorithmResults64 threeAlgorithms
      ≠ combineAlgorithmResults64 threeAlgorithmsSwapped := by
  have hne : fl (231 / 100) ≠ fl (230 / 100) := by
    rw [fl_231, fl_230]
    norm_num
  refine ⟨?_, ?_, ?_, hne, fun heq => ?_⟩
  · unfold threeAlgorithms threeAlgorithmsSwapped
    exact (List.Perm.swap _ _ _).cons _
  · rw [probability_threeAlgorithms, fl_231]
  · rw [probability_threeAlgorithmsSwapped, fl_230]
  · have h := probability_threeAlgorithms
    rw [heq, probability_threeAlgorithmsSwapped] at h
    simp only [Except.ok.injEq, List.cons.injEq, Prod.mk.injEq, and_true] at h
    have h1 := h.1
    norm_num at h1

theorem combineAlgorithmResults64_of_perm_witness :
    threeAlgorithms.Perm threeAlgorithmsSwapped ∧
    (∀ ar ∈ threeAlgorithms, ∀ p ∈ ar.results, p.animal ∉ objectPrototypeKeys) ∧
    ∃ forecast forecast', combineAlgorithmResults64 threeAlgorithms = .ok forecast ∧
      combineAlgorithmResults64 threeAlgorithmsSwapped = .ok forecast' ∧
      (forecast.map fun e => e.animal).Perm (forecast'.map fun e => e.animal) :=
  ⟨(List.Perm.swap _ _ _).cons _, by decide,
    let ⟨forecast, forecast', h1, h2, h3, _⟩ :=
      combineAlgorithmResults64_of_perm threeAlgorithms threeAlgorithmsSwapped
        ((List.Perm.swap _ _ _).cons _) (by decide)
    ⟨forecast, forecast', h1, h2, h3⟩⟩

/-! ### The temporal algorithm -/

theorem foldl_temporalUpdate (hour : Bool) (rows : List (String × ℤ)) :
    ∀ init : List (String × TemporalCounts),
      rows.foldl (fun m r => temporalUpdate m r.1 (TemporalCounts.setField hour r.2)) init
        = assignAll hour (ownRows rows) init := by
  induction rows with
  | nil => intro init; rfl
  | cons r rows ih =>
    intro init
    rw [List.foldl_cons, ih]
    unfold temporalUpdate ownRows
    by_cases h : r.1 ∈ objectPrototypeKeys
    · rw [if_pos h, List.filter_cons_of_neg (by simpa using h)]
    · rw [if_neg h, List.filter_cons_of_pos (by simpa using h)]
      rfl

theorem temporalAnimalsOf_eq (currentHour currentDay : ℤ) (hourly : List HourlyFrequency)
    (daily : List DailyFrequency) :
    temporalAnimalsOf currentHour currentDay hourly daily
      = assignAll false (ownRows (currentDayRows currentDay daily))
          (assignAll true (ownRows (currentHourRows currentHour hourly)) []) := by
  rw [← foldl_temporalUpdate, ← foldl_temporalUpdate]
  unfold temporalAnimalsOf currentDayRows currentHourRows
  simp only [List.foldl_map]
  rfl

theorem lastCountOf_ownRows (rows : List (String × ℤ)) (k : String)
    (hk : k ∉ objectPrototypeKeys) : lastCountOf (ownRows rows) k = lastCountOf rows k := by
  have h : (ownRows rows).filter (fun r => r.1 = k) = rows.filter fun r => r.1 = k := by
    unfold ownRows
    rw [List.filter_filter]
    refine List.filter_congr fun r _ => ?_
    by_cases hr : r.1 = k
    · simp [hr, hk]
    · simp [hr]
  unfold lastCountOf
  rw [h]

theorem mem_map_fst_ownRows (rows : List (String × ℤ)) (k : String) :
    k ∈ (ownRows rows).map Prod.fst ↔ k ∉ objectPrototypeKeys ∧ k ∈ rows.map Prod.fst := by
  unfold ownRows
  simp only [List.mem_map, List.mem_filter, decide_eq_true_eq]
  constructor
  · rintro ⟨r, ⟨hr, hp⟩, rfl⟩
    exact ⟨hp, r, hr, rfl⟩
  · rintro ⟨hp, r, hr, rfl⟩
    exact ⟨r, ⟨hr, hp⟩, rfl⟩

theorem mem_temporalAssign (m : List (String × TemporalCounts)) (name : String)
    (assign : TemporalCounts → TemporalCounts) (k : String) (t : TemporalCounts) :
    (k, t) ∈ temporalAssign m name assign ↔
      (k ≠ name ∧ (k, t) ∈ m) ∨
      (k = name ∧ ∃ t0, t = assign t0 ∧
        ((name, t0) ∈ m ∨ ((∀ t', (name, t') ∉ m) ∧ t0 = { hourCount := 0, dayCount := 0 }))) := by
  have hany : (m.any fun e => e.1 == name) = true ↔ ∃ t', (name, t') ∈ m := by
    rw [List.any_eq_true]
    constructor
    · rintro ⟨⟨k', t'⟩, hmem, hk⟩
      simp only [beq_iff_eq] at hk
      subst hk
      exact ⟨t', hmem⟩
    · rintro ⟨t', hmem⟩
      exact ⟨(name, t'), hmem, by simp⟩
  have hmap : ∀ L : List (String × TemporalCounts),
      (k, t) ∈ L.map (fun e => if e.1 = name then (e.1, assign e.2) else e) ↔
        (k ≠ name ∧ (k, t) ∈ L) ∨ (k = name ∧ ∃ t0, t = assign t0 ∧ (name, t0) ∈ L) := by
    intro L
    rw [List.mem_map]
    constructor
    · rintro ⟨⟨k', t'⟩, hmem, he⟩
      by_cases hk : k' = name
      · simp only [hk, if_true, Prod.mk.injEq] at he
        subst hk
        exact Or.inr ⟨he.1.symm, t', he.2.symm, hmem⟩
      · simp only [hk, if_false, Prod.mk.injEq] at he
        obtain ⟨rfl, rfl⟩ := he
        exact Or.inl ⟨hk, hmem⟩
    · rintro (⟨hk, hmem⟩ | ⟨rfl, t0, rfl, hmem⟩)
      · exact ⟨(k, t), hmem, by simp [hk]⟩
      · exact ⟨(k, t0), hmem, by simp⟩
  unfold temporalAssign
  by_cases h : (m.any fun e => e.1 == name) = true
  · simp only [h, if_true]
    rw [hmap]
    constructor
    · rintro (h1 | ⟨hk, t0, ht, hmem⟩)
      · exact Or.inl h1
      · exact Or.inr ⟨hk, t0, ht, Or.inl hmem⟩
    · rintro (h1 | ⟨hk, t0, ht, hmem | ⟨hno, _⟩⟩)
      · exact Or.inl h1
      · exact Or.inr ⟨hk, t0, ht, hmem⟩
      · obtain ⟨t', ht'⟩ := hany.1 h
        exact absurd ht' (hno t')
  · simp only [h, if_false]
    have hno : ∀ t', (name, t') ∉ m := fun t' hm => h (hany.2 ⟨t', hm⟩)
    rw [hmap]
    constructor
    · rintro (⟨hk, hmem⟩ | ⟨hk, t0, ht, hmem⟩)
      · rcases List.mem_append.1 hmem with hm | hm
        · exact Or.inl ⟨hk, hm⟩
        · simp only [List.mem_singleton, Prod.mk.injEq] at hm
          exact absurd hm.1 hk
      · rcases List.mem_append.1 hmem with hm | hm
        · exact absurd hm (hno t0)
        · simp only [List.mem_singleton, Prod.mk.injEq] at hm
          exact Or.inr ⟨hk, t0, ht, Or.inr ⟨hno, hm.2⟩⟩
    · rintro (⟨hk, hmem⟩ | ⟨hk, t0, ht, hmem | ⟨_, h0⟩⟩)
      · exact Or.inl ⟨hk, List.mem_append_left _ hmem⟩
      · exact absurd hmem (hno t0)
      · exact Or.inr ⟨hk, t0, ht, List.mem_append_right _ (by simp [h0])⟩

theorem lastCountOf_snoc (rows : List (String × ℤ)) (r : String × ℤ) (k : String) :
    lastCountOf (rows ++ [r]) k = if r.1 = k then r.2 else lastCountOf rows k := by
  unfold lastCountOf
  by_cases h : r.1 = k
  · simp [List.filter_append, h]
  · simp [List.filter_append, h]

theorem lastCountOf_of_not_mem (rows : List (String × ℤ)) (k : String)
    (h : k ∉ rows.map Prod.fst) : lastCountOf rows k = 0 := by
  unfold lastCountOf
  have : (rows.filter fun r => r.1 = k) = [] := by
    rw [List.filter_eq_nil_iff]
    intro r hr
    simp only [decide_eq_true_eq]
    intro e
    exact h (List.mem_map.2 ⟨r, hr, e⟩)
  rw [this]
  rfl

theorem field_setField (hour : Bool) (c : ℤ) (t : TemporalCounts) :
    (TemporalCounts.setField hour c t).field hour = c ∧
    (TemporalCounts.setField hour c t).field (!hour) = t.field (!hour) := by
  cases hour <;> exact ⟨rfl, rfl⟩

theorem assignAll_snoc (hour : Bool) (rows : List (String × ℤ)) (r : String × ℤ)
    (init : List (String × TemporalCounts)) :
    assignAll hour (rows ++ [r]) init
      = temporalAssign (assignAll hour rows init) r.1 (TemporalCounts.setField hour r.2) := by
  simp [assignAll, List.foldl_append]

/-- One loop over the rows: every entry holds the last count of its symbol in the
field the loop assigns and keeps its other field; the symbols are those of the
rows and of the dictionary before the loop. -/
theorem assignAll_spec (hour : Bool) (F : String → ℤ) (init : List (String × TemporalCounts))
    (h0 : ∀ k t, (k, t) ∈ init → t.field hour = 0 ∧ t.field (!hour) = F k)
    (hF : ∀ k, (∀ t, (k, t) ∉ init) → F k = 0) (rows : List (String × ℤ)) :
    (∀ k t, (k, t) ∈ assignAll hour rows init →
      t.field hour = lastCountOf rows k ∧ t.field (!hour) = F k) ∧
    (∀ k, (∃ t, (k, t) ∈ assignAll hour rows init)
      ↔ (k ∈ rows.map Prod.fst ∨ ∃ t, (k, t) ∈ init)) := by
  induction rows using List.reverseRecOn with
  | nil =>
    refine ⟨fun k t h => ?_, fun k => ?_⟩
    · exact h0 k t h
    · simp [assignAll]
  | append_singleton rows r ih =>
    obtain ⟨ihv, ihk⟩ := ih
    refine ⟨fun k t h => ?_, fun k => ?_⟩
    · rw [assignAll_snoc, mem_temporalAssign] at h
      rw [lastCountOf_snoc]
      rcases h with ⟨hk, hmem⟩ | ⟨rfl, t0, rfl, hmem | ⟨hno, rfl⟩⟩
      · rw [if_neg (fun e => hk e.symm)]
        exact ihv k t hmem
      · rw [if_pos rfl]
        exact ⟨(field_setField hour r.2 t0).1,
          (field_setField hour r.2 t0).2.trans (ihv _ _ hmem).2⟩
      · rw [if_pos rfl]
        refine ⟨(field_setField hour r.2 _).1, (field_setField hour r.2 _).2.trans ?_⟩
        have hnone : ∀ t, (r.1, t) ∉ init := fun t ht =>
          (ihk r.1).2 (Or.inr ⟨t, ht⟩) |>.elim fun t' ht' => hno t' ht'
        rw [hF r.1 hnone]
        cases hour <;> rfl
    · rw [assignAll_snoc]
      constructor
      · rintro ⟨t, ht⟩
        rw [mem_temporalAssign] at ht
        rcases ht with ⟨_, hmem⟩ | ⟨rfl, _⟩
        · rcases (ihk k).1 ⟨t, hmem⟩ with h | h
          · exact Or.inl (by simp only [List.map_append, List.mem_append]; exact Or.inl h)
          · exact Or.inr h
        · exact Or.inl (by simp)
      · intro h
        by_cases hk : k = r.1
        · subst hk
          by_cases hex : ∃ t0, (r.1, t0) ∈ assignAll hour rows init
          · obtain ⟨t0, ht0⟩ := hex
            exact ⟨_, (mem_temporalAssign _ _ _ _ _).2
              (Or.inr ⟨rfl, t0, rfl, Or.inl ht0⟩)⟩
          · exact ⟨_, (mem_temporalAssign _ _ _ _ _).2
              (Or.inr ⟨rfl, _, rfl, Or.inr ⟨fun t' ht' => hex ⟨t', ht'⟩, rfl⟩⟩)⟩
        · have h' : k ∈ rows.map Prod.fst ∨ ∃ t, (k, t) ∈ init := by
            rcases h with h | h
            · simp only [List.map_append, List.mem_append, List.map_cons, List.map_nil,
                List.mem_singleton] at h
              rcases h with h | h
              · exact Or.inl h
              · exact absurd h hk
            · exact Or.inr h
          obtain ⟨t, ht⟩ := (ihk k).2 h'
          exact ⟨t, (mem_temporalAssign _ _ _ _ _).2 (Or.inl ⟨hk, ht⟩)⟩

/-- The dictionary `temporalAnimals`: an entry per symbol that has a row in the
current hour or on the current weekday and is not named like a member of
`Object.prototype`, holding the two counts of the symbol. -/
theorem temporalAnimalsOf_spec (currentHour currentDay : ℤ) (hourly : List HourlyFrequency)
    (daily : List DailyFrequency) :
    (∀ k t, (k, t) ∈ temporalAnimalsOf currentHour currentDay hourly daily →
      k ∉ objectPrototypeKeys ∧
      t.hourCount = hourCountOf currentHour hourly k ∧
      t.dayCount = dayCountOf currentDay daily k) ∧
    (∀ k, (∃ t, (k, t) ∈ temporalAnimalsOf currentHour currentDay hourly daily)
      ↔ k ∉ objectPrototypeKeys ∧
        (k ∈ (currentHourRows currentHour hourly).map Prod.fst ∨
          k ∈ (currentDayRows currentDay daily).map Prod.fst)) := by
  have p1 := assignAll_spec true (fun _ => 0) [] (fun k t h => by simp at h)
    (fun _ _ => rfl) (ownRows (currentHourRows currentHour hourly))
  have hkeys1 : ∀ k,
      (∃ t, (k, t) ∈ assignAll true (ownRows (currentHourRows currentHour hourly)) [])
        ↔ k ∈ (ownRows (currentHourRows currentHour hourly)).map Prod.fst := by
    intro k
    rw [p1.2 k]
    simp
  have p2 := assignAll_spec false (lastCountOf (ownRows (currentHourRows currentHour hourly)))
    (assignAll true (ownRows (currentHourRows currentHour hourly)) [])
    (fun k t h => ⟨(p1.1 k t h).2, (p1.1 k t h).1⟩)
    (fun k hno => lastCountOf_of_not_mem _ _ fun hk =>
      ((hkeys1 k).2 hk).elim fun t ht => hno t ht)
    (ownRows (currentDayRows currentDay daily))
  have hkeys : ∀ k, (∃ t, (k, t) ∈ temporalAnimalsOf currentHour currentDay hourly daily)
      ↔ k ∉ objectPrototypeKeys ∧
        (k ∈ (currentHourRows currentHour hourly).map Prod.fst ∨
          k ∈ (currentDayRows currentDay daily).map Prod.fst) := by
    intro k
    rw [temporalAnimalsOf_eq, p2.2 k, hkeys1 k, mem_map_fst_ownRows, mem_map_fst_ownRows]
    tauto
  refine ⟨fun k t h => ?_, hkeys⟩
  have hk : k ∉ objectPrototypeKeys := ((hkeys k).1 ⟨t, h⟩).1
  rw [temporalAnimalsOf_eq] at h
  refine ⟨hk, ?_, ?_⟩
  · exact ((p2.1 k t h).2).trans (lastCountOf_ownRows _ k hk)
  · exact ((p2.1 k t h).1).trans (lastCountOf_ownRows _ k hk)

theorem mem_calculateTemporalPredictions (currentHour currentDay : ℤ)
    (hourly : List HourlyFrequency) (daily : List DailyFrequency) (cand : Prediction) :
    cand ∈ calculateTemporalPredictions currentHour currentDay (.ok hourly) (.ok daily)
      ↔ ∃ entry ∈ temporalAnimalsOf currentHour currentDay hourly daily,
          temporalCandidate currentHour currentDay entry = some cand := by
  show cand ∈ List.insertionSort _ _ ↔ _
  rw [List.mem_insertionSort, List.mem_filterMap]
  simp only [mem_objectOrder]

theorem temporalCandidate_eq (currentHour currentDay : ℤ) (entry : String × TemporalCounts) :
    temporalCandidate currentHour currentDay entry
      = if min 10 (temporalScore64 entry.2.hourCount entry.2.dayCount) > 2 then
          some { animal := entry.1
                 probability := min 10 (temporalScore64 entry.2.hourCount entry.2.dayCount)
                 algorithm := "temporal"
                 confidence := 65
                 reason :=
                  s!"Patrón horario/diario favorable: {currentHour}:00 hrs, día {currentDay}" }
        else none := rfl

theorem fl_06 :
    fl (3 / 5)
      = 5404319552844595 / 9007199254740992 := by
  rw [fl_eq_of_binade _ (-1) (by norm_num) (by norm_num) (by norm_num) (by norm_num),
    roundHalfEven_of_lt _ 5404319552844595 (by norm_num) (by norm_num)]
  norm_num

theorem fl_04 :
    fl (2 / 5)
      = 3602879701896397 / 9007199254740992 := by
  rw [fl_eq_of_binade _ (-2) (by norm_num) (by norm_num) (by norm_num) (by norm_num),
    roundHalfEven_of_gt _ 7205759403792794 (by norm_num) (by norm_num)]
  norm_num

theorem fl_three_06 :
    fl (3 * (5404319552844595 / 9007199254740992))
      = 2026619832316723 / 1125899906842624 := by
  rw [fl_eq_of_binade _ (0) (by norm_num) (by norm_num) (by norm_num) (by norm_num),
    roundHalfEven_of_tie _ 8106479329266892 (by norm_num)]
  norm_num

theorem fl_one_04 :
    fl (1 * (3602879701896397 / 9007199254740992))
      = 3602879701896397 / 9007199254740992 := by
  rw [fl_eq_of_binade _ (-2) (by norm_num) (by norm_num) (by norm_num) (by norm_num),
    roundHalfEven_of_lt _ 7205759403792794 (by norm_num) (by norm_num)]
  norm_num

theorem fl_score_3_1 :
    fl (2026619832316723 / 1125899906842624 + 3602879701896397 / 9007199254740992)
      = 4953959590107545 / 2251799813685248 := by
  rw [fl_eq_of_binade _ (1) (by norm_num) (by norm_num) (by norm_num) (by norm_num),
    roundHalfEven_of_lt _ 4953959590107545 (by norm_num) (by norm_num)]
  norm_num

theorem fl_22 :
    fl (11 / 5)
      = 2476979795053773 / 1125899906842624 := by
  rw [fl_eq_of_binade _ (1) (by norm_num) (by norm_num) (by norm_num) (by norm_num),
    roundHalfEven_of_gt _ 4953959590107546 (by norm_num) (by norm_num)]
  norm_num

theorem fl_five_04 :
    fl (5 * (3602879701896397 / 9007199254740992))
      = 2 := by
  rw [fl_eq_of_binade _ (1) (by norm_num) (by norm_num) (by norm_num) (by norm_num),
    roundHalfEven_of_lt _ 4503599627370496 (by norm_num) (by norm_num)]
  norm_num

theorem fl_score_0_5 :
    fl (0 + 2)
      = 2 := by
  rw [fl_eq_of_binade _ (1) (by norm_num) (by norm_num) (by norm_num) (by norm_num),
    roundHalfEven_of_lt _ 4503599627370496 (by norm_num) (by norm_num)]
  norm_num

theorem fl_two_06 :
    fl (2 * (5404319552844595 / 9007199254740992))
      = 5404319552844595 / 4503599627370496 := by
  rw [fl_eq_of_binade _ (0) (by norm_num) (by norm_num) (by norm_num) (by norm_num),
    roundHalfEven_of_lt _ 5404319552844595 (by norm_num) (by norm_num)]
  norm_num

theorem fl_two_04 :
    fl (2 * (3602879701896397 / 9007199254740992))
      = 3602879701896397 / 4503599627370496 := by
  rw [fl_eq_of_binade _ (-1) (by norm_num) (by norm_num) (by norm_num) (by norm_num),
    roundHalfEven_of_lt _ 7205759403792794 (by norm_num) (by norm_num)]
  norm_num

theorem fl_score_2_2 :
    fl (5404319552844595 / 4503599627370496 + 3602879701896397 / 4503599627370496)
      = 2 := by
  rw [fl_eq_of_binade _ (1) (by norm_num) (by norm_num) (by norm_num) (by norm_num),
    roundHalfEven_of_lt _ 4503599627370496 (by norm_num) (by norm_num)]
  norm_num

theorem fl_nat_1 :
    fl (1)
      = 1 := by
  rw [fl_eq_of_binade _ (0) (by norm_num) (by norm_num) (by norm_num) (by norm_num),
    roundHalfEven_of_lt _ 4503599627370496 (by norm_num) (by norm_num)]
  norm_num

theorem fl_nat_2 :
    fl (2)
      = 2 := by
  rw [fl_eq_of_binade _ (1) (by norm_num) (by norm_num) (by norm_num) (by norm_num),
    roundHalfEven_of_lt _ 4503599627370496 (by norm_num) (by norm_num)]
  norm_num

theorem fl_nat_3 :
    fl (3)
      = 3 := by
  rw [fl_eq_of_binade _ (1) (by norm_num) (by norm_num) (by norm_num) (by norm_num),
    roundHalfEven_of_lt _ 6755399441055744 (by norm_num) (by norm_num)]
  norm_num

theorem fl_nat_5 :
    fl (5)
      = 5 := by
  rw [fl_eq_of_binade _ (2) (by norm_num) (by norm_num) (by norm_num) (by norm_num),
    roundHalfEven_of_lt _ 5629499534213120 (by norm_num) (by norm_num)]
  norm_num

/-! ### The temporal score in binary64 -/

theorem fl_intCast_of_nonneg (h : ℤ) (h0 : 0 ≤ h) (h1 : h < 2 ^ 53) : fl (h : ℚ) = h := by
  obtain ⟨n, rfl⟩ := Int.eq_ofNat_of_zero_le h0
  have hn : n < 2 ^ 53 := by exact_mod_cast h1
  simpa using fl_natCast n hn

theorem temporalScore64_3_1 : temporalScore64 3 1 = 4953959590107545 / 2251799813685248 := by
  unfold temporalScore64 mul64 add64
  have h3 : fl ((3 : ℤ) : ℚ) = 3 := by simpa using fl_nat_3
  have h1 : fl ((1 : ℤ) : ℚ) = 1 := by simpa using fl_nat_1
  rw [h3, h1, fl_06, fl_04, fl_three_06, fl_one_04, fl_score_3_1]

theorem temporalScore64_0_5 : temporalScore64 0 5 = 2 := by
  unfold temporalScore64 mul64 add64
  have h5 : fl ((5 : ℤ) : ℚ) = 5 := by simpa using fl_nat_5
  have h0 : fl ((0 : ℤ) : ℚ) = 0 := by simpa using fl_zero
  rw [h5, h0, fl_06, fl_04, zero_mul, fl_zero, fl_five_04, fl_score_0_5]

theorem temporalScore64_2_2 : temporalScore64 2 2 = 2 := by
  unfold temporalScore64 mul64 add64
  have h2 : fl ((2 : ℤ) : ℚ) = 2 := by simpa using fl_nat_2
  rw [h2, fl_06, fl_04, fl_two_06, fl_two_04, fl_score_2_2]

/-- The binary64 score is within `2 ^ (-11)` of `0.6 h + 0.4 d` for counts below `2 ^ 40`. -/
theorem temporalScore64_near (h d : ℤ) (h0 : 0 ≤ h) (d0 : 0 ≤ d) (h1 : h < 2 ^ 40)
    (d1 : d < 2 ^ 40) :
    |temporalScore64 h d - (3 / 5 * (h : ℚ) + 2 / 5 * (d : ℚ))| ≤ 1 / 2 ^ 11 := by
  have hq0 : (0 : ℚ) ≤ h := by exact_mod_cast h0
  have dq0 : (0 : ℚ) ≤ d := by exact_mod_cast d0
  have hq1 : (h : ℚ) < 2 ^ 40 := by exact_mod_cast h1
  have dq1 : (d : ℚ) < 2 ^ 40 := by exact_mod_cast d1
  unfold temporalScore64 mul64 add64
  rw [fl_intCast_of_nonneg h h0 (by omega), fl_intCast_of_nonneg d d0 (by omega), fl_06, fl_04]
  set c6 : ℚ := 5404319552844595 / 9007199254740992 with hc6
  set c4 : ℚ := 3602879701896397 / 9007199254740992 with hc4
  have e6 : |c6 - 3 / 5| ≤ 1 / 2 ^ 54 := by rw [hc6, abs_le]; constructor <;> norm_num
  have e4 : |c4 - 2 / 5| ≤ 1 / 2 ^ 54 := by rw [hc4, abs_le]; constructor <;> norm_num
  have c6pos : (0 : ℚ) ≤ c6 := by rw [hc6]; norm_num
  have c4pos : (0 : ℚ) ≤ c4 := by rw [hc4]; norm_num
  have c6lt : c6 < 1 := by rw [hc6]; norm_num
  have c4lt : c4 < 1 := by rw [hc4]; norm_num
  have ha0 : 0 ≤ (h : ℚ) * c6 := mul_nonneg hq0 c6pos
  have hb0 : 0 ≤ (d : ℚ) * c4 := mul_nonneg dq0 c4pos
  have ha1 : (h : ℚ) * c6 < (2 : ℚ) ^ (40 : ℤ) := by
    have : (h : ℚ) * c6 ≤ h * 1 := mul_le_mul_of_nonneg_left c6lt.le hq0
    norm_num
    linarith
  have hb1 : (d : ℚ) * c4 < (2 : ℚ) ^ (40 : ℤ) := by
    have : (d : ℚ) * c4 ≤ d * 1 := mul_le_mul_of_nonneg_left c4lt.le dq0
    norm_num
    linarith
  have ea := fl_sub_abs_le_of_nonneg _ 40 ha0 ha1 (by norm_num)
  have eb := fl_sub_abs_le_of_nonneg _ 40 hb0 hb1 (by norm_num)
  have hz : (2 : ℚ) ^ ((40 : ℤ) - 54) = 1 / 2 ^ 14 := by norm_num
  rw [hz] at ea eb
  set a := fl ((h : ℚ) * c6) with hadef
  set b := fl ((d : ℚ) * c4) with hbdef
  have a0 : 0 ≤ a := fl_nonneg _ ha0
  have b0 : 0 ≤ b := fl_nonneg _ hb0
  rw [abs_le] at ea eb e6 e4
  have hs1 : a + b < (2 : ℚ) ^ (42 : ℤ) := by
    norm_num at ha1 hb1 ⊢
    linarith [ea.2, eb.2]
  have es := fl_sub_abs_le_of_nonneg (a + b) 42 (add_nonneg a0 b0) hs1 (by norm_num)
  have hz2 : (2 : ℚ) ^ ((42 : ℤ) - 54) = 1 / 2 ^ 12 := by norm_num
  rw [hz2, abs_le] at es
  have h6 : |(h : ℚ) * c6 - 3 / 5 * h| ≤ 1 / 2 ^ 14 := by
    have : (h : ℚ) * c6 - 3 / 5 * h = h * (c6 - 3 / 5) := by ring
    rw [this, abs_mul, abs_of_nonneg hq0]
    have hle : |c6 - 3 / 5| ≤ 1 / 2 ^ 54 := abs_le.2 e6
    calc (h : ℚ) * |c6 - 3 / 5| ≤ 2 ^ 40 * (1 / 2 ^ 54) :=
          mul_le_mul hq1.le hle (abs_nonneg _) (by norm_num)
      _ = 1 / 2 ^ 14 := by norm_num
  have h4 : |(d : ℚ) * c4 - 2 / 5 * d| ≤ 1 / 2 ^ 14 := by
    have : (d : ℚ) * c4 - 2 / 5 * d = d * (c4 - 2 / 5) := by ring
    rw [this, abs_mul, abs_of_nonneg dq0]
    have hle : |c4 - 2 / 5| ≤ 1 / 2 ^ 54 := abs_le.2 e4
    calc (d : ℚ) * |c4 - 2 / 5| ≤ 2 ^ 40 * (1 / 2 ^ 54) :=
          mul_le_mul dq1.le hle (abs_nonneg _) (by norm_num)
      _ = 1 / 2 ^ 14 := by norm_num
  rw [abs_le] at h6 h4
  have hnum : (1 : ℚ) / 2 ^ 12 + 1 / 2 ^ 14 + 1 / 2 ^ 14 + 1 / 2 ^ 14 + 1 / 2 ^ 14
      ≤ 1 / 2 ^ 11 := by norm_num
  rw [abs_le]
  constructor <;> linarith [es.1, es.2, ea.1, ea.2, eb.1, eb.2, h6.1, h6.2, h4.1, h4.2]

/-- For non-negative counts below `2 ^ 40` the binary64 score passes the emission
test exactly when `0.6 h + 0.4 d > 2`, that is `3 h + 2 d > 10`. -/
theorem temporalScore64_gt_two_iff (h d : ℤ) (h0 : 0 ≤ h) (d0 : 0 ≤ d) (h1 : h < 2 ^ 40)
    (d1 : d < 2 ^ 40) :
    min 10 (temporalScore64 h d) > 2 ↔ 3 * h + 2 * d > 10 := by
  have hnear := temporalScore64_near h d h0 d0 h1 d1
  rw [abs_le] at hnear
  have hmin : min 10 (temporalScore64 h d) > 2 ↔ temporalScore64 h d > 2 := by
    constructor
    · intro hm
      exact lt_of_lt_of_le hm (min_le_right _ _)
    · intro hs
      exact lt_min (by norm_num) hs
  rw [hmin]
  constructor
  · intro hs
    by_contra hle
    have hle' : 3 * h + 2 * d ≤ 10 := by omega
    rcases hle'.eq_or_lt with heq | hlt
    · have hcases : (h = 0 ∧ d = 5) ∨ (h = 2 ∧ d = 2) := by omega
      rcases hcases with ⟨rfl, rfl⟩ | ⟨rfl, rfl⟩
      · rw [temporalScore64_0_5] at hs
        exact lt_irrefl _ hs
      · rw [temporalScore64_2_2] at hs
        exact lt_irrefl _ hs
    · have h9 : 3 * h + 2 * d ≤ 9 := by omega
      have h9q : 3 * (h : ℚ) + 2 * (d : ℚ) ≤ 9 := by exact_mod_cast h9
      have : (1 : ℚ) / 2 ^ 11 < 1 / 5 := by norm_num
      linarith [hnear.2]
  · intro hgt
    have h11 : 11 ≤ 3 * h + 2 * d := by omega
    have h11q : (11 : ℚ) ≤ 3 * (h : ℚ) + 2 * (d : ℚ) := by exact_mod_cast h11
    have : (1 : ℚ) / 2 ^ 11 < 1 / 5 := by norm_num
    show 2 < temporalScore64 h d
    linarith [hnear.1]

theorem temporalScore64_0_0 : temporalScore64 0 0 = 0 := by
  unfold temporalScore64 mul64 add64
  have h0 : fl ((0 : ℤ) : ℚ) = 0 := by simpa using fl_zero
  rw [h0, zero_mul, zero_mul, fl_zero, add_zero, fl_zero]

/-- What `calculateTemporalPredictions` returns for one symbol, in terms of the
binary64 score of its two counts. -/
theorem calculateTemporalPredictions_of_symbol (currentHour currentDay : ℤ)
    (hourly : List HourlyFrequency) (daily : List DailyFrequency) (name : String) :
    ((∃ cand ∈ calculateTemporalPredictions currentHour currentDay (.ok hourly) (.ok daily),
        cand.animal = name)
      ↔ name ∉ objectPrototypeKeys ∧
        min 10 (temporalScore64 (hourCountOf currentHour hourly name)
          (dayCountOf currentDay daily name)) > 2) ∧
    (∀ cand ∈ calculateTemporalPredictions currentHour currentDay (.ok hourly) (.ok daily),
      cand.animal = name →
        cand.probability = min 10 (temporalScore64 (hourCountOf currentHour hourly name)
          (dayCountOf currentDay daily name)) ∧
        cand.confidence = 65) := by
  obtain ⟨hval, hkeys⟩ := temporalAnimalsOf_spec currentHour currentDay hourly daily
  have hcand : ∀ cand ∈ calculateTemporalPredictions currentHour currentDay (.ok hourly)
      (.ok daily), cand.animal = name →
        (name ∉ objectPrototypeKeys ∧
          min 10 (temporalScore64 (hourCountOf currentHour hourly name)
            (dayCountOf currentDay daily name)) > 2) ∧
        cand.probability = min 10 (temporalScore64 (hourCountOf currentHour hourly name)
          (dayCountOf currentDay daily name)) ∧
        cand.confidence = 65 := by
    rintro cand hc rfl
    obtain ⟨⟨k, t⟩, hmem, he⟩ := (mem_calculateTemporalPredictions _ _ _ _ _).1 hc
    rw [temporalCandidate_eq] at he
    split_ifs at he with hp
    cases he
    obtain ⟨h0, h1, h2⟩ := hval k t hmem
    show (k ∉ objectPrototypeKeys ∧
        min 10 (temporalScore64 (hourCountOf currentHour hourly k)
          (dayCountOf currentDay daily k)) > 2) ∧
      min 10 (temporalScore64 t.hourCount t.dayCount)
        = min 10 (temporalScore64 (hourCountOf currentHour hourly k)
          (dayCountOf currentDay daily k)) ∧ (65 : ℚ) = 65
    rw [← h1, ← h2]
    exact ⟨⟨h0, hp⟩, rfl, rfl⟩
  refine ⟨⟨?_, ?_⟩, fun cand hc hn => (hcand cand hc hn).2⟩
  · rintro ⟨cand, hc, hn⟩
    exact (hcand cand hc hn).1
  · rintro ⟨hname, hp⟩
    have hkey : name ∈ (currentHourRows currentHour hourly).map Prod.fst ∨
        name ∈ (currentDayRows currentDay daily).map Prod.fst := by
      by_contra hno
      rw [not_or] at hno
      have h1 : hourCountOf currentHour hourly name = 0 := lastCountOf_of_not_mem _ _ hno.1
      have h2 : dayCountOf currentDay daily name = 0 := lastCountOf_of_not_mem _ _ hno.2
      rw [h1, h2, temporalScore64_0_0] at hp
      norm_num at hp
    obtain ⟨t, ht⟩ := (hkeys name).2 ⟨hname, hkey⟩
    obtain ⟨_, h1, h2⟩ := hval name t ht
    refine ⟨{ animal := name
              probability := min 10 (temporalScore64 t.hourCount t.dayCount)
              algorithm := "temporal"
              confidence := 65
              reason :=
                s!"Patrón horario/diario favorable: {currentHour}:00 hrs, día {currentDay}" },
      (mem_calculateTemporalPredictions _ _ _ _ _).2 ⟨(name, t), ht, ?_⟩, rfl⟩
    rw [temporalCandidate_eq, if_pos (by simpa only [h1, h2] using hp)]

/-- C13 (amended). For every symbol that is not named like a member of
`Object.prototype`, with count `h` in the current hour and count `d` on the
current weekday (0 when the symbol has no row), `calculateTemporalPredictions`
computes the score `h * 0.6 + d * 0.4` in binary64, both products and the sum
rounded to the nearest double, and `probability = min(10, score)`, and returns a
candidate for the symbol, with that probability and confidence 65, if and only
if `probability > 2`. For counts from 0 to below `2 ^ 40` the score is within
`2 ^ (-11)` of `0.6 h + 0.4 d`, and a candidate is returned if and only if
`0.6 h + 0.4 d > 2`, that is `3 h + 2 d > 10`. -/
theorem calculateTemporalPredictions_binary64 (currentHour currentDay : ℤ)
    (hourly : List HourlyFrequency) (daily : List DailyFrequency) (name : String)
    (hname : name ∉ objectPrototypeKeys) :
    ((∃ cand ∈ calculateTemporalPredictions currentHour currentDay (.ok hourly) (.ok daily),
        cand.animal = name)
      ↔ min 10 (temporalScore64 (hourCountOf currentHour hourly name)
          (dayCountOf currentDay daily name)) > 2) ∧
    (∀ cand ∈ calculateTemporalPredictions currentHour currentDay (.ok hourly) (.ok daily),
      cand.animal = name →
        cand.probability = min 10 (temporalScore64 (hourCountOf currentHour hourly name)
          (dayCountOf currentDay daily name)) ∧
        cand.confidence = 65) ∧
    (0 ≤ hourCountOf currentHour hourly name → hourCountOf currentHour hourly name < 2 ^ 40 →
      0 ≤ dayCountOf currentDay daily name → dayCountOf currentDay daily name < 2 ^ 40 →
        |temporalScore64 (hourCountOf currentHour hourly name) (dayCountOf currentDay daily name)
          - (3 / 5 * (hourCountOf currentHour hourly name : ℚ)
              + 2 / 5 * (dayCountOf currentDay daily name : ℚ))| ≤ 1 / 2 ^ 11 ∧
        ((∃ cand ∈ calculateTemporalPredictions currentHour currentDay (.ok hourly) (.ok daily),
            cand.animal = name)
          ↔ 3 * hourCountOf currentHour hourly name
              + 2 * dayCountOf currentDay daily name > 10)) := by
  obtain ⟨hiff, hval⟩ :=
    calculateTemporalPredictions_of_symbol currentHour currentDay hourly daily name
  have hiff' : (∃ cand ∈ calculateTemporalPredictions currentHour currentDay (.ok hourly)
      (.ok daily), cand.animal = name)
      ↔ min 10 (temporalScore64 (hourCountOf currentHour hourly name)
          (dayCountOf currentDay daily name)) > 2 :=
    hiff.trans ⟨fun h => h.2, fun h => ⟨hname, h⟩⟩
  refine ⟨hiff', hval, fun h0 h1 d0 d1 => ⟨temporalScore64_near _ _ h0 d0 h1 d1, ?_⟩⟩
  exact hiff'.trans (temporalScore64_gt_two_iff _ _ h0 d0 h1 d1)

theorem calculateTemporalPredictions_toro :
    calculateTemporalPredictions 12 2 (.ok toroHourly) (.ok toroDaily)
      = [{ animal := "Toro", probability := 4953959590107545 / 2251799813685248,
           algorithm := "temporal", confidence := 65,
           reason := "Patrón horario/diario favorable: 12:00 hrs, día 2" }] := by
  have hidx : arrayIndex? "Toro" = none := by decide
  have hproto : "Toro" ∉ objectPrototypeKeys := by decide
  have hmin : min (10 : ℚ) (4953959590107545 / 2251799813685248)
      = 4953959590107545 / 2251799813685248 := by
    rw [min_eq_right]
    norm_num
  have hgt : (4953959590107545 / 2251799813685248 : ℚ) > 2 := by norm_num
  have hT : temporalAnimalsOf 12 2 toroHourly toroDaily
      = [("Toro", { hourCount := 3, dayCount := 1 })] := by decide
  unfold calculateTemporalPredictions
  simp only [hT, objectOrder, List.filter_cons, List.filter_nil, hidx, Option.isSome_none,
    Option.isNone_none, Bool.false_eq_true, if_false, if_true, List.insertionSort,
    List.nil_append, List.filterMap_cons, List.filterMap_nil, temporalCandidate_eq,
    temporalScore64_3_1, hmin, hgt, List.orderedInsert]
  rfl

/-- C13 as stated fails: for a symbol drawn three times in the current hour and
once on the current weekday the score `0.6 * 3 + 0.4 * 1` is 2.2, but the
candidate returned has the probability 2.1999999999999997, which is neither 2.2
nor the double nearest to 2.2. -/
theorem calculateTemporalPredictions_score_counterexample :
    hourCountOf 12 toroHourly "Toro" = 3 ∧ dayCountOf 2 toroDaily "Toro" = 1 ∧
    min (10 : ℚ) (3 / 5 * 3 + 2 / 5 * 1) = 11 / 5 ∧
    ∃ cand ∈ calculateTemporalPredictions 12 2 (.ok toroHourly) (.ok toroDaily),
      cand.animal = "Toro" ∧ cand.probability = 4953959590107545 / 2251799813685248 ∧
      cand.probability ≠ 11 / 5 ∧ cand.probability ≠ fl (11 / 5) := by
  refine ⟨by decide, by decide, by norm_num,
    { animal := "Toro", probability := 4953959590107545 / 2251799813685248,
      algorithm := "temporal", confidence := 65,
      reason := "Patrón horario/diario favorable: 12:00 hrs, día 2" }, ?_, rfl, rfl, ?_, ?_⟩
  · rw [calculateTemporalPredictions_toro]
    exact List.mem_singleton_self _
  · norm_num
  · rw [fl_22]
    norm_num

theorem calculateTemporalPredictions_binary64_witness :
    "Toro" ∉ objectPrototypeKeys ∧
    ((∃ cand ∈ calculateTemporalPredictions 12 2 (.ok toroHourly) (.ok toroDaily),
        cand.animal = "Toro")
      ↔ min 10 (temporalScore64 (hourCountOf 12 toroHourly "Toro")
          (dayCountOf 2 toroDaily "Toro")) > 2) ∧
    ∃ cand ∈ calculateTemporalPredictions 12 2 (.ok toroHourly) (.ok toroDaily),
      cand.animal = "Toro" :=
  ⟨by decide, (calculateTemporalPredictions_binary64 12 2 toroHourly toroDaily "Toro"
      (by decide)).1,
    ⟨_, by rw [calculateTemporalPredictions_toro]; exact List.mem_singleton_self _, rfl⟩⟩

/-! ### The least-squares slope -/

theorem sumX_eq (n : ℕ) : sumX n = (n : ℚ) * ((n : ℚ) - 1) / 2 := by
  unfold sumX
  induction n with
  | zero => simp
  | succ n ih =>
    rw [List.range_succ, List.map_append, List.sum_append, ih]
    simp only [List.map_cons, List.map_nil, List.sum_cons, List.sum_nil]
    push_cast
    ring

theorem sumX2_eq (n : ℕ) : sumX2 n = ((n : ℚ) - 1) * (n : ℚ) * (2 * (n : ℚ) - 1) / 6 := by
  unfold sumX2
  induction n with
  | zero => simp
  | succ n ih =>
    rw [List.range_succ, List.map_append, List.sum_append, ih]
    simp only [List.map_cons, List.map_nil, List.sum_cons, List.sum_nil]
    push_cast
    ring

theorem foldl_add_eq_sum (y : List ℚ) (a : ℚ) :
    y.foldl (fun sum val => sum + val) a = a + y.sum := by
  induction y generalizing a with
  | nil => simp
  | cons b y ih => rw [List.foldl_cons, ih, List.sum_cons]; ring

theorem sumXY_snoc (y : List ℚ) (a : ℚ) :
    sumXY (y ++ [a]) = sumXY y + (y.length : ℚ) * a := by
  unfold sumXY
  rw [List.length_append, List.length_singleton, List.range_succ, List.map_append,
    List.sum_append]
  congr 1
  · congr 1
    apply List.map_congr_left
    intro i hi
    rw [List.mem_range] at hi
    rw [List.getD_append _ _ _ _ hi]
  · simp [List.getD_append_right]

theorem foldl_enum_eq_sumXY (y : List ℚ) :
    y.enum.foldl (fun sum iv => sum + iv.2 * (iv.1 : ℚ)) 0 = sumXY y := by
  induction y using List.reverseRecOn with
  | nil => rfl
  | append_singleton y a ih =>
    rw [List.enum_append, List.foldl_append, ih, sumXY_snoc]
    simp [List.enumFrom]
    ring

theorem trend_denominator_pos (n : ℕ) (h : 2 ≤ n) :
    0 < (n : ℚ) * (((n : ℚ) - 1) * (n : ℚ) * (2 * (n : ℚ) - 1) / 6)
      - (n : ℚ) * ((n : ℚ) - 1) / 2 * ((n : ℚ) * ((n : ℚ) - 1) / 2) := by
  have hn : (2 : ℚ) ≤ n := by exact_mod_cast h
  have e : (n : ℚ) * (((n : ℚ) - 1) * (n : ℚ) * (2 * (n : ℚ) - 1) / 6)
      - (n : ℚ) * ((n : ℚ) - 1) / 2 * ((n : ℚ) * ((n : ℚ) - 1) / 2)
      = (n : ℚ) ^ 2 * ((n : ℚ) - 1) * ((n : ℚ) + 1) / 12 := by ring
  rw [e]
  have h1 : (0 : ℚ) < (n : ℚ) - 1 := by linarith
  positivity

/-- The value of `calculateLinearTrend` on a series of at least two values, in
terms of the sums of the specification. -/
theorem calculateLinearTrend_eq (y : List ℚ) (h : 2 ≤ y.length) :
    calculateLinearTrend y = some (olsSlope y) := by
  have hden := trend_denominator_pos y.length h
  unfold calculateLinearTrend olsSlope
  simp only [foldl_add_eq_sum, foldl_enum_eq_sumXY, zero_add]
  rw [if_neg (ne_of_gt hden), sumX_eq, sumX2_eq]
  congr 2
  ring

/-- C14. For every series `y` of `n ≥ 2` values, `calculateLinearTrend(y)` equals
the ordinary-least-squares slope of `y` against `x = 0..n-1`,
`(n Σxy - Σx Σy) / (n Σx² - (Σx)²)`: the closed forms `n(n-1)/2` and
`(n-1)n(2n-1)/6` used by the code equal `Σx` and `Σx²`, and the denominator is
non-zero. -/
theorem calculateLinearTrend_ols (y : List ℚ) (h : 2 ≤ y.length) :
    calculateLinearTrend y = some (olsSlope y) ∧
    (y.length : ℚ) * ((y.length : ℚ) - 1) / 2 = sumX y.length ∧
    ((y.length : ℚ) - 1) * (y.length : ℚ) * (2 * (y.length : ℚ) - 1) / 6 = sumX2 y.length ∧
    (y.length : ℚ) * sumX2 y.length - sumX y.length ^ 2 ≠ 0 := by
  refine ⟨calculateLinearTrend_eq y h, (sumX_eq _).symm, (sumX2_eq _).symm, ?_⟩
  have hden := trend_denominator_pos y.length h
  rw [sumX_eq, sumX2_eq]
  intro h0
  apply ne_of_gt hden
  rw [← h0]
  ring

theorem calculateLinearTrend_ols_witness :
    2 ≤ threeCounts.length ∧ calculateLinearTrend threeCounts = some (olsSlope threeCounts) :=
  ⟨by decide, (calculateLinearTrend_ols threeCounts (by decide)).1⟩

/-! ### The trend algorithm -/

theorem calculateLinearTrend_seven (a b c d e f g : ℚ) :
    calculateLinearTrend [a, b, c, d, e, f, g]
      = some ((-3 * a - 2 * b - c + e + 2 * f + 3 * g) / 28) := by
  simp only [calculateLinearTrend, List.enum, List.enumFrom, List.foldl_cons, List.foldl_nil,
    List.length_cons, List.length_nil]
  norm_num
  ring

theorem eq_seven_of_length {α : Type} (y : List α) (h : y.length = 7) :
    ∃ a b c d e f g, y = [a, b, c, d, e, f, g] := by
  match y, h with
  | [a, b, c, d, e, f, g], _ => exact ⟨a, b, c, d, e, f, g, rfl⟩

theorem trendCandidate_of_slope (last7Days : List DayResults) (animal : CatalogAnimal)
    (slope : ℚ)
    (h : calculateLinearTrend ((frequenciesOf last7Days animal).map fun (f : ℕ) => (f : ℚ))
      = some slope) :
    trendCandidate last7Days animal
      = if slope > 1 / 10 then
          some { animal := animal.name
                 probability := min 8 (slope * 10)
                 algorithm := "trend"
                 confidence := 60
                 reason := "Tendencia matemática positiva: +" ++ toFixed1 (slope * 100) ++ "%" }
        else none := by
  unfold trendCandidate
  simp only [h]

theorem slope_of_increasing (a b c d e f g : ℕ)
    (h : [a, b, c, d, e, f, g].Pairwise (· < ·)) :
    (1 : ℚ) ≤ (-3 * (a : ℚ) - 2 * b - c + e + 2 * f + 3 * g) / 28 := by
  simp only [List.pairwise_cons, List.mem_cons, List.mem_singleton, forall_eq_or_imp,
    forall_eq] at h
  have h1 : a + 6 ≤ g := by omega
  have h2 : b + 4 ≤ f := by omega
  have h3 : c + 2 ≤ e := by omega
  have h1q : (a : ℚ) + 6 ≤ g := by exact_mod_cast h1
  have h2q : (b : ℚ) + 4 ≤ f := by exact_mod_cast h2
  have h3q : (c : ℚ) + 2 ≤ e := by exact_mod_cast h3
  rw [le_div_iff₀ (by norm_num)]
  linarith

theorem slope_of_decreasing (a b c d e f g : ℕ)
    (h : [a, b, c, d, e, f, g].Pairwise (· > ·)) :
    (-3 * (a : ℚ) - 2 * b - c + e + 2 * f + 3 * g) / 28 ≤ -1 := by
  simp only [List.pairwise_cons, List.mem_cons, List.mem_singleton, forall_eq_or_imp,
    forall_eq] at h
  have h1 : g + 6 ≤ a := by omega
  have h2 : f + 4 ≤ b := by omega
  have h3 : e + 2 ≤ c := by omega
  have h1q : (g : ℚ) + 6 ≤ a := by exact_mod_cast h1
  have h2q : (f : ℚ) + 4 ≤ b := by exact_mod_cast h2
  have h3q : (e : ℚ) + 2 ≤ c := by exact_mod_cast h3
  rw [div_le_iff₀ (by norm_num)]
  linarith

/-- The sign of the slope over the array that `calculateLinearTrend` is given:
for seven counts that increase strictly along the array the slope exceeds 0.1
and an animal with this array of frequencies gets a candidate; for seven counts
that decrease strictly along the array the slope is negative and the animal gets
none. In `calculateTrendPredictions` element 0 of the array is the count of today. -/
theorem calculateLinearTrend_sign (y : List ℕ) (hlen : y.length = 7) :
    (y.Pairwise (· < ·) →
      ∃ slope, calculateLinearTrend (y.map fun (f : ℕ) => (f : ℚ)) = some slope ∧
        0 < slope ∧ 1 / 10 < slope ∧
        ∀ last7Days animal, frequenciesOf last7Days animal = y →
          (trendCandidate last7Days animal).isSome = true) ∧
    (y.Pairwise (· > ·) →
      ∃ slope, calculateLinearTrend (y.map fun (f : ℕ) => (f : ℚ)) = some slope ∧
        slope < 0 ∧
        ∀ last7Days animal, frequenciesOf last7Days animal = y →
          trendCandidate last7Days animal = none) := by
  obtain ⟨a, b, c, d, e, f, g, rfl⟩ := eq_seven_of_length y hlen
  have hs : calculateLinearTrend ([a, b, c, d, e, f, g].map fun (f : ℕ) => (f : ℚ))
      = some ((-3 * (a : ℚ) - 2 * b - c + e + 2 * f + 3 * g) / 28) :=
    calculateLinearTrend_seven _ _ _ _ _ _ _
  constructor
  · intro hinc
    have h1 := slope_of_increasing a b c d e f g hinc
    refine ⟨_, hs, by linarith, by linarith, fun last7Days animal hfreq => ?_⟩
    rw [trendCandidate_of_slope last7Days animal _ (by rw [hfreq]; exact hs),
      if_pos (by linarith)]
    rfl
  · intro hdec
    have h1 := slope_of_decreasing a b c d e f g hdec
    refine ⟨_, hs, by linarith, fun last7Days animal hfreq => ?_⟩
    rw [trendCandidate_of_slope last7Days animal _ (by rw [hfreq]; exact hs),
      if_neg (by linarith)]

theorem calculateLinearTrend_sign_witness :
    risingCounts.length = 7 ∧
    ∃ slope, calculateLinearTrend (risingCounts.map fun (f : ℕ) => (f : ℚ)) = some slope ∧
      0 < slope ∧ 1 / 10 < slope ∧
      ∀ last7Days animal, frequenciesOf last7Days animal = risingCounts →
        (trendCandidate last7Days animal).isSome = true :=
  ⟨rfl, (calculateLinearTrend_sign risingCounts rfl).1 (by decide)⟩

theorem last7DaysOf_risingStore :
    last7DaysOf 100 risingStore
      = .ok [⟨100, List.replicate 6 "Delfin"⟩, ⟨99, List.replicate 5 "Delfin"⟩,
             ⟨98, List.replicate 4 "Delfin"⟩, ⟨97, List.replicate 3 "Delfin"⟩,
             ⟨96, List.replicate 2 "Delfin"⟩, ⟨95, List.replicate 1 "Delfin"⟩,
             ⟨94, []⟩] := by
  rfl

theorem last7DaysOf_fallingStore :
    last7DaysOf 100 fallingStore
      = .ok [⟨100, []⟩, ⟨99, List.replicate 1 "Toro"⟩, ⟨98, List.replicate 2 "Toro"⟩,
             ⟨97, List.replicate 3 "Toro"⟩, ⟨96, List.replicate 4 "Toro"⟩,
             ⟨95, List.replicate 5 "Toro"⟩, ⟨94, List.replicate 6 "Toro"⟩] := by
  rfl

theorem toFixed1_hundred : toFixed1 (1 * 100) = "100.0" := by
  have h : ⌊|(1 * 100 : ℚ)| * 10 + 1 / 2⌋ = 1000 := by
    rw [Int.floor_eq_iff]
    norm_num
  unfold toFixed1
  simp only [h]
  have hn : ¬ ((1 * 100 : ℚ) < 0 ∧ (1000 : ℤ).toNat ≠ 0) := by norm_num
  rw [if_neg hn]
  decide

theorem slope_seen_rising :
    calculateLinearTrend (([6, 5, 4, 3, 2, 1, 0] : List ℕ).map fun (f : ℕ) => (f : ℚ))
      = some (-1) := by
  show calculateLinearTrend [((6 : ℕ) : ℚ), ((5 : ℕ) : ℚ), ((4 : ℕ) : ℚ), ((3 : ℕ) : ℚ),
    ((2 : ℕ) : ℚ), ((1 : ℕ) : ℚ), ((0 : ℕ) : ℚ)] = _
  rw [calculateLinearTrend_seven]
  norm_num

theorem slope_seen_falling :
    calculateLinearTrend (([0, 1, 2, 3, 4, 5, 6] : List ℕ).map fun (f : ℕ) => (f : ℚ))
      = some 1 := by
  show calculateLinearTrend [((0 : ℕ) : ℚ), ((1 : ℕ) : ℚ), ((2 : ℕ) : ℚ), ((3 : ℕ) : ℚ),
    ((4 : ℕ) : ℚ), ((5 : ℕ) : ℚ), ((6 : ℕ) : ℚ)] = _
  rw [calculateLinearTrend_seven]
  norm_num

/-- C16, the code at the failing input: an animal drawn 0, 1, ..., 6 times on
the days 94, ..., 100 (today is day 100) has the slope `+1` over its counts taken
oldest first, but element 0 of `last7Days` is today, the code sees the counts
6, 5, ..., 0, computes the slope `-1` and returns no candidate; an animal whose
counts fall from 6 to 0 gets the candidate, labelled a positive trend. -/
theorem calculateTrendPredictions_reversed :
    calculateLinearTrend (risingCounts.map fun (f : ℕ) => (f : ℚ)) = some 1 ∧
    calculateTrendPredictions [⟨"Delfin"⟩] 100 risingStore = [] ∧
    calculateTrendPredictions [⟨"Toro"⟩] 100 fallingStore
      = [{ animal := "Toro", probability := 8, algorithm := "trend", confidence := 60,
           reason := "Tendencia matemática positiva: +100.0%" }] := by
  refine ⟨slope_seen_falling, ?_, ?_⟩
  · unfold calculateTrendPredictions
    rw [last7DaysOf_risingStore]
    simp only [List.filterMap_cons, List.filterMap_nil]
    rw [trendCandidate_of_slope _ _ (-1) (by exact slope_seen_rising), if_neg (by norm_num)]
    rfl
  · unfold calculateTrendPredictions
    rw [last7DaysOf_fallingStore]
    simp only [List.filterMap_cons, List.filterMap_nil]
    rw [trendCandidate_of_slope _ _ 1 (by exact slope_seen_falling), if_pos (by norm_num),
      toFixed1_hundred]
    have hp : min (8 : ℚ) (1 * 10) = 8 := by norm_num
    simp only [hp, List.insertionSort, List.orderedInsert]
    decide

theorem last7DaysOf_growingStore :
    last7DaysOf 100 growingStore
      = .ok [⟨100, List.replicate 9 "Ballena"⟩, ⟨99, List.replicate 7 "Ballena"⟩,
             ⟨98, List.replicate 6 "Ballena"⟩, ⟨97, List.replicate 4 "Ballena"⟩,
             ⟨96, List.replicate 3 "Ballena"⟩, ⟨95, List.replicate 1 "Ballena"⟩,
             ⟨94, []⟩] := by
  rfl

theorem last7DaysOf_shrinkingStore :
    last7DaysOf 100 shrinkingStore
      = .ok [⟨100, []⟩, ⟨99, List.replicate 1 "Ballena"⟩,
             ⟨98, List.replicate 3 "Ballena"⟩, ⟨97, List.replicate 4 "Ballena"⟩,
             ⟨96, List.replicate 6 "Ballena"⟩, ⟨95, List.replicate 7 "Ballena"⟩,
             ⟨94, List.replicate 9 "Ballena"⟩] := by
  rfl

theorem toFixed1_hundred_fifty : toFixed1 (3 / 2 * 100) = "150.0" := by
  have h : ⌊|(3 / 2 * 100 : ℚ)| * 10 + 1 / 2⌋ = 1500 := by
    rw [Int.floor_eq_iff]
    norm_num
  unfold toFixed1
  simp only [h]
  have hn : ¬ ((3 / 2 * 100 : ℚ) < 0 ∧ (1500 : ℤ).toNat ≠ 0) := by norm_num
  rw [if_neg hn]
  decide

theorem slope_seen_growing :
    calculateLinearTrend (([9, 7, 6, 4, 3, 1, 0] : List ℕ).map fun (f : ℕ) => (f : ℚ))
      = some (-3 / 2) := by
  show calculateLinearTrend [((9 : ℕ) : ℚ), ((7 : ℕ) : ℚ), ((6 : ℕ) : ℚ), ((4 : ℕ) : ℚ),
    ((3 : ℕ) : ℚ), ((1 : ℕ) : ℚ), ((0 : ℕ) : ℚ)] = _
  rw [calculateLinearTrend_seven]
  norm_num

theorem slope_seen_shrinking :
    calculateLinearTrend (([0, 1, 3, 4, 6, 7, 9] : List ℕ).map fun (f : ℕ) => (f : ℚ))
      = some (3 / 2) := by
  show calculateLinearTrend [((0 : ℕ) : ℚ), ((1 : ℕ) : ℚ), ((3 : ℕ) : ℚ), ((4 : ℕ) : ℚ),
    ((6 : ℕ) : ℚ), ((7 : ℕ) : ℚ), ((9 : ℕ) : ℚ)] = _
  rw [calculateLinearTrend_seven]
  norm_num

/-- C15, the code at the failing input: today is day 100 and "Ballena" is drawn
0, 1, 3, 4, 6, 7 and 9 times on the days 94 to 100, a strictly increasing series
of 7 daily counts, yet `calculateTrendPredictions` returns no candidate: element
0 of `last7Days` is today, the slope is taken over 9, 7, 6, 4, 3, 1, 0 and is
`-1.5`. With the counts 9, 7, 6, 4, 3, 1 and 0 on the days 94 to 100, a strictly
decreasing series, a candidate is returned, labelled a positive trend. -/
theorem calculateTrendPredictions_growing :
    growingCounts.Pairwise (· < ·) ∧
    calculateLinearTrend (growingCounts.map fun (f : ℕ) => (f : ℚ)) = some (3 / 2) ∧
    calculateTrendPredictions [⟨"Ballena"⟩] 100 growingStore = [] ∧
    calculateTrendPredictions [⟨"Ballena"⟩] 100 shrinkingStore
      = [{ animal := "Ballena", probability := 8, algorithm := "trend", confidence := 60,
           reason := "Tendencia matemática positiva: +150.0%" }] := by
  refine ⟨by decide, slope_seen_shrinking, ?_, ?_⟩
  · unfold calculateTrendPredictions
    rw [last7DaysOf_growingStore]
    simp only [List.filterMap_cons, List.filterMap_nil]
    rw [trendCandidate_of_slope _ _ (-3 / 2) (by exact slope_seen_growing),
      if_neg (by norm_num)]
    rfl
  · unfold calculateTrendPredictions
    rw [last7DaysOf_shrinkingStore]
    simp only [List.filterMap_cons, List.filterMap_nil]
    rw [trendCandidate_of_slope _ _ (3 / 2) (by exact slope_seen_shrinking),
      if_pos (by norm_num), toFixed1_hundred_fifty]
    have hp : min (8 : ℚ) (3 / 2 * 10) = 8 := by norm_num
    simp only [hp, List.insertionSort, List.orderedInsert]
    decide

/-- What `calculateTrendPredictions` does for one animal: with the slope taken
over its counts listed from today backwards, a candidate exactly when the slope
exceeds 0.1, of probability `min(8, 10 * slope)` and confidence 60. -/
theorem trendCandidate_spec (last7Days : List DayResults) (animal : CatalogAnimal) (slope : ℚ)
    (h : calculateLinearTrend ((frequenciesOf last7Days animal).map fun (f : ℕ) => (f : ℚ))
      = some slope) :
    ((trendCandidate last7Days animal).isSome = true ↔ slope > 1 / 10) ∧
    ∀ cand, trendCandidate last7Days animal = some cand →
      cand.animal = animal.name ∧ cand.probability = min 8 (10 * slope) ∧
      cand.confidence = 60 := by
  rw [trendCandidate_of_slope last7Days animal slope h]
  by_cases hs : slope > 1 / 10
  · rw [if_pos hs]
    refine ⟨⟨fun _ => hs, fun _ => rfl⟩, fun cand hc => ?_⟩
    cases hc
    exact ⟨rfl, by rw [mul_comm], rfl⟩
  · rw [if_neg hs]
    exact ⟨⟨fun h => (by cases h), fun h => absurd h hs⟩, fun cand hc => (by cases hc)⟩

/-! ### Model confidence -/

theorem calculateModelConfidence_cons (top : CombinedPrediction)
    (rest : List CombinedPrediction) :
    calculateModelConfidence (top :: rest)
      = min 85 (max 30 (mathRound
          (40 + (top.algorithms.length : ℚ) * 10
            + min 20 ((if rest ≠ [] then
                top.probability - ((top :: rest).getLast (List.cons_ne_nil _ _)).probability
              else 10) * 2)))) := by
  unfold calculateModelConfidence
  rw [List.head?_cons, List.getLast?_eq_getLast _ (List.cons_ne_nil _ _)]
  simp only []
  have hl : (top :: rest).length > 1 ↔ rest ≠ [] := by
    cases rest <;> simp
  by_cases h : rest ≠ []
  · rw [if_pos (hl.2 h), if_pos h]
  · rw [if_neg (fun h' => h (hl.1 h')), if_neg h]

theorem calculateModelConfidence_nil : calculateModelConfidence [] = 0 := rfl

theorem calculateModelConfidence_bounds (top : CombinedPrediction)
    (rest : List CombinedPrediction) :
    30 ≤ calculateModelConfidence (top :: rest) ∧
    calculateModelConfidence (top :: rest) ≤ 85 := by
  rw [calculateModelConfidence_cons]
  exact ⟨le_min (by norm_num) (le_max_left _ _), min_le_left _ _⟩

/-- C17 (amended). For every non-empty ranked forecast whose first entry holds
no algorithm tag twice, `calculateModelConfidence` equals
`40 + 10 * (number of distinct algorithm tags of the first entry)
+ min(20, 2 * spread)`, rounded and clamped to [30, 85], where the spread is the
probability of the first entry minus that of the last, and is taken to be 10 for
a one-entry list (so that the spread term is 20). -/
theorem calculateModelConfidence_formula (top : CombinedPrediction)
    (rest : List CombinedPrediction) (hnodup : top.algorithms.Nodup) :
    calculateModelConfidence (top :: rest)
      = min 85 (max 30 (mathRound
          (40 + 10 * (top.algorithms.dedup.length : ℚ)
            + min 20 (2 * (if rest ≠ [] then
                top.probability - ((top :: rest).getLast (List.cons_ne_nil _ _)).probability
              else 10))))) ∧
    (rest = [] →
      calculateModelConfidence (top :: rest)
        = min 85 (max 30 (mathRound (40 + 10 * (top.algorithms.dedup.length : ℚ) + 20)))) := by
  have h1 : calculateModelConfidence (top :: rest)
      = min 85 (max 30 (mathRound
          (40 + 10 * (top.algorithms.dedup.length : ℚ)
            + min 20 (2 * (if rest ≠ [] then
                top.probability - ((top :: rest).getLast (List.cons_ne_nil _ _)).probability
              else 10))))) := by
    rw [calculateModelConfidence_cons, hnodup.dedup, mul_comm (top.algorithms.length : ℚ),
      mul_comm _ (2 : ℚ)]
  refine ⟨h1, ?_⟩
  rintro rfl
  rw [h1, if_neg (by simp)]
  norm_num

theorem calculateModelConfidence_formula_witness :
    combinedAbsent.algorithms.Nodup ∧
    calculateModelConfidence [combinedAbsent]
      = min 85 (max 30 (mathRound
          (40 + 10 * (combinedAbsent.algorithms.dedup.length : ℚ) + 20))) :=
  ⟨by decide, (calculateModelConfidence_formula combinedAbsent [] (by decide)).2 rfl⟩

/-- C17 as stated fails: for a one-entry forecast with one algorithm tag the
code returns 40 + 10 + 20 = 70, where the claim (spread term 0) gives 50; and for
a first entry tagged "cyclical" twice, 1.6 above the last entry, the code returns
round(40 + 20 + 3.2) = 63, where the claim (one distinct tag) gives 53. -/
theorem calculateModelConfidence_counterexample :
    (calculateModelConfidence [combinedAbsent] = 70 ∧
      combinedAbsent.algorithms.dedup.length = 1 ∧
      min 85 (max 30 (mathRound (40 + 10 * ((1 : ℕ) : ℚ) + 0))) = 50) ∧
    (calculateModelConfidence [twiceCyclical, trendOnly] = 63 ∧
      twiceCyclical.algorithms.dedup.length = 1 ∧
      twiceCyclical.probability - trendOnly.probability = 8 / 5 ∧
      min 85 (max 30 (mathRound (40 + 10 * ((1 : ℕ) : ℚ) + min 20 (2 * (8 / 5))))) = 53) := by
  have r70 : mathRound (70 : ℚ) = 70 := by
    unfold mathRound; rw [Int.floor_eq_iff]; norm_num
  have r63 : mathRound (316 / 5 : ℚ) = 63 := by
    unfold mathRound; rw [Int.floor_eq_iff]; norm_num
  have r53 : mathRound (266 / 5 : ℚ) = 53 := by
    unfold mathRound; rw [Int.floor_eq_iff]; norm_num
  have r50 : mathRound (50 : ℚ) = 50 := by
    unfold mathRound; rw [Int.floor_eq_iff]; norm_num
  refine ⟨⟨?_, by decide, ?_⟩, ?_, by decide, ?_, ?_⟩
  · rw [calculateModelConfidence_cons, if_neg (by simp)]
    have : (40 : ℚ) + ((combinedAbsent.algorithms.length : ℕ) : ℚ) * 10 + min 20 (10 * 2) = 70 := by
      norm_num [combinedAbsent]
    rw [this, r70]
    decide
  · have : (40 : ℚ) + 10 * ((1 : ℕ) : ℚ) + 0 = 50 := by norm_num
    rw [this, r50]
    decide
  · rw [calculateModelConfidence_cons, if_pos (by simp)]
    have : (40 : ℚ) + ((twiceCyclical.algorithms.length : ℕ) : ℚ) * 10
        + min 20 ((twiceCyclical.probability
          - ([twiceCyclical, trendOnly].getLast (List.cons_ne_nil _ _)).probability) * 2)
        = 316 / 5 := by
      norm_num [twiceCyclical, trendOnly]
    rw [this, r63]
    decide
  · norm_num [twiceCyclical, trendOnly]
  · have : (40 : ℚ) + 10 * ((1 : ℕ) : ℚ) + min 20 (2 * (8 / 5)) = 266 / 5 := by norm_num
    rw [this, r53]
    decide

/-- C18 (amended). For every non-empty ranked forecast `calculateModelConfidence`
returns a value within [30, 85]; for the empty forecast it returns 0. -/
theorem calculateModelConfidence_range (predictions : List CombinedPrediction) :
    (predictions ≠ [] →
      30 ≤ calculateModelConfidence predictions ∧ calculateModelConfidence predictions ≤ 85) ∧
    (predictions = [] → calculateModelConfidence predictions = 0) := by
  refine ⟨fun h => ?_, fun h => by rw [h]; rfl⟩
  cases predictions with
  | nil => exact absurd rfl h
  | cons top rest => exact calculateModelConfidence_bounds top rest

/-- C18 as stated fails: the empty forecast gets 0, which is not within [30, 85]. -/
theorem calculateModelConfidence_range_counterexample :
    calculateModelConfidence [] = 0 ∧
    ¬ (30 ≤ calculateModelConfidence [] ∧ calculateModelConfidence [] ≤ 85) := by
  refine ⟨rfl, ?_⟩
  rw [calculateModelConfidence_nil]
  decide

/-! ### The trend label -/

theorem calculateOverallTrend_eq (recentStats weeklyStats : List AnimalStat)
    (h1 : recentStats ≠ []) (h2 : weeklyStats ≠ []) :
    calculateOverallTrend recentStats weeklyStats
      = if overlapOf recentStats weeklyStats ≥ 4 then labelStable
        else if overlapOf recentStats weeklyStats ≤ 2 then labelVolatile
        else labelModerate := by
  unfold calculateOverallTrend overlapOf
  have hl : ¬ (recentStats.length = 0 ∨ weeklyStats.length = 0) := by
    rw [List.length_eq_zero, List.length_eq_zero]
    exact fun h => h.elim h1 h2
  rw [if_neg hl]
  simp only [List.countP_eq_length_filter]

/-- C19. For every pair of non-empty stat lists `calculateOverallTrend` computes
the overlap, the number of the first five symbols of the short-window list that
also occur among the first five symbols of the longer-window list, and returns
the stable label iff overlap ≥ 4, the volatile label iff overlap ≤ 2, and the
moderate label iff overlap = 3. -/
theorem calculateOverallTrend_spec (recentStats weeklyStats : List AnimalStat)
    (h1 : recentStats ≠ []) (h2 : weeklyStats ≠ []) :
    (calculateOverallTrend recentStats weeklyStats = labelStable
      ↔ overlapOf recentStats weeklyStats ≥ 4) ∧
    (calculateOverallTrend recentStats weeklyStats = labelVolatile
      ↔ overlapOf recentStats weeklyStats ≤ 2) ∧
    (calculateOverallTrend recentStats weeklyStats = labelModerate
      ↔ overlapOf recentStats weeklyStats = 3) := by
  rw [calculateOverallTrend_eq recentStats weeklyStats h1 h2]
  have hsv : labelStable ≠ labelVolatile := by decide
  have hsm : labelStable ≠ labelModerate := by decide
  have hvm : labelVolatile ≠ labelModerate := by decide
  by_cases ha : overlapOf recentStats weeklyStats ≥ 4
  · rw [if_pos ha]
    exact ⟨⟨fun _ => ha, fun _ => rfl⟩, ⟨fun h => absurd h hsv, fun h => by omega⟩,
      ⟨fun h => absurd h hsm, fun h => by omega⟩⟩
  · rw [if_neg ha]
    by_cases hb : overlapOf recentStats weeklyStats ≤ 2
    · rw [if_pos hb]
      exact ⟨⟨fun h => absurd h.symm hsv, fun h => absurd h ha⟩, ⟨fun _ => hb, fun _ => rfl⟩,
        ⟨fun h => absurd h hvm, fun h => by omega⟩⟩
    · rw [if_neg hb]
      exact ⟨⟨fun h => absurd h.symm hsm, fun h => absurd h ha⟩,
        ⟨fun h => absurd h.symm hvm, fun h => absurd h hb⟩,
        ⟨fun _ => by omega, fun _ => rfl⟩⟩

theorem calculateOverallTrend_spec_witness :
    recentExample ≠ [] ∧ weeklyExample ≠ [] ∧
    (calculateOverallTrend recentExample weeklyExample = labelModerate
      ↔ overlapOf recentExample weeklyExample = 3) :=
  ⟨by decide, by decide,
    (calculateOverallTrend_spec recentExample weeklyExample (by decide) (by decide)).2.2⟩

/-! ### Monotonicity of the confidence -/

/-- More matches among the same number of boundaries never lower the confidence,
and raise it when there are at most 100 boundaries. -/
theorem confidenceOf_mono (m m' t : ℕ) (ht : 0 < t) (hm : m < m') (hm' : m' ≤ t)
    (ht44 : t ≤ 2 ^ 44) :
    confidenceOf m t ≤ confidenceOf m' t ∧ (t ≤ 100 → confidenceOf m t < confidenceOf m' t) := by
  have htq : (0 : ℚ) < t := by exact_mod_cast ht
  have hmq : (m : ℚ) + 1 ≤ m' := by exact_mod_cast hm
  obtain ⟨-, -, hup⟩ := confidenceOf_near m t ht (by omega) ht44
  obtain ⟨heq, hlow, -⟩ := confidenceOf_near m' t ht hm' ht44
  have hstep : 100 * (m : ℚ) / t + 100 / t ≤ 100 * (m' : ℚ) / t := by
    rw [← add_div]
    apply div_le_div_of_nonneg_right _ htq.le
    linarith
  have hgap : (0 : ℚ) < 100 / t := by positivity
  have hone : t ≤ 100 → (1 : ℚ) ≤ 100 / t := by
    intro h100
    rw [le_div_iff₀ htq]
    have : (t : ℚ) ≤ 100 := by exact_mod_cast h100
    linarith
  unfold mathRound at hup heq hlow
  by_cases htie : Int.fract (100 * (m' : ℚ) / t) = 1 / 2
  · -- the larger ratio is a tie: `100 m' / t = k + 1/2`
    have hb : 100 * (m' : ℚ) / t = (⌊100 * (m' : ℚ) / t⌋ : ℚ) + 1 / 2 := by
      have := Int.floor_add_fract (100 * (m' : ℚ) / t)
      rw [htie] at this
      exact this.symm
    have hRb : ⌊100 * (m' : ℚ) / t + 1 / 2⌋ = ⌊100 * (m' : ℚ) / t⌋ + 1 := by
      rw [Int.floor_eq_iff]
      push_cast
      constructor <;> linarith
    rw [hRb] at hlow
    have hRa : ⌊100 * (m : ℚ) / t + 1 / 2⌋ ≤ ⌊100 * (m' : ℚ) / t⌋ := by
      rw [← Int.lt_add_one_iff, Int.floor_lt]
      push_cast
      linarith
    refine ⟨by omega, fun h100 => ?_⟩
    have ht100 : t ≠ 100 := by
      rintro rfl
      apply absurd htie
      have : 100 * (m' : ℚ) / ((100 : ℕ) : ℚ) = ((m' : ℤ) : ℚ) := by
        push_cast
        field_simp
      rw [this, Int.fract_intCast]
      norm_num
    have hgt : (1 : ℚ) < 100 / t := by
      rw [lt_div_iff₀ htq]
      have : (t : ℚ) + 1 ≤ 100 := by
        have : t + 1 ≤ 100 := by omega
        exact_mod_cast this
      linarith
    have hRa' : ⌊100 * (m : ℚ) / t + 1 / 2⌋ < ⌊100 * (m' : ℚ) / t⌋ := by
      rw [Int.floor_lt]
      linarith
    omega
  · have hconf := heq htie
    have hRa : ⌊100 * (m : ℚ) / t + 1 / 2⌋ ≤ ⌊100 * (m' : ℚ) / t + 1 / 2⌋ :=
      Int.floor_le_floor (by linarith)
    refine ⟨by omega, fun h100 => ?_⟩
    have h1 := hone h100
    have hRa' : ⌊100 * (m : ℚ) / t + 1 / 2⌋ + 1 ≤ ⌊100 * (m' : ℚ) / t + 1 / 2⌋ := by
      rw [← Int.floor_add_one]
      exact Int.floor_le_floor (by linarith)
    omega

set_option maxRecDepth 100000 in
theorem counts_fiftyOfHundredOne :
    matchCount fiftyOfHundredOne 1 = 50 ∧ boundaryCount fiftyOfHundredOne 1 = 101 := by
  decide

set_option maxRecDepth 100000 in
theorem counts_fiftyOneOfHundredOne :
    matchCount fiftyOneOfHundredOne 1 = 51 ∧ boundaryCount fiftyOneOfHundredOne 1 = 101 := by
  decide

/-- C20 (amended). For every two series (of a JS array's length) evaluated
against the same period with the same positive number of period boundaries, the
series with more matches gets a confidence that is at least as great, and
strictly greater when there are at most 100 boundaries. -/
theorem detectCycle_confidence_mono (dataA dataB : List SeriesEntry) (p : ℕ)
    (hlenB : dataB.length < 2 ^ 32)
    (ht : boundaryCount dataA p = boundaryCount dataB p) (hpos : 0 < boundaryCount dataA p)
    (hm : matchCount dataA p < matchCount dataB p) :
    (detectCycle dataA p).confidence ≤ (detectCycle dataB p).confidence ∧
    (boundaryCount dataA p ≤ 100 →
      (detectCycle dataA p).confidence < (detectCycle dataB p).confidence) := by
  have ht44 : boundaryCount dataB p ≤ 2 ^ 44 :=
    (boundaryCount_le dataB p).trans (hlenB.le.trans (by norm_num))
  rw [detectCycle_confidence_eq, detectCycle_confidence_eq, ht]
  rw [ht] at hpos
  exact confidenceOf_mono _ _ _ hpos hm (matchCount_le dataB p) ht44

theorem detectCycle_confidence_mono_witness :
    series60.length < 2 ^ 32 ∧
    boundaryCount (daySeries [0, 1, 2, 12, 22, 32]) 1 = boundaryCount series60 1 ∧
    0 < boundaryCount (daySeries [0, 1, 2, 12, 22, 32]) 1 ∧
    matchCount (daySeries [0, 1, 2, 12, 22, 32]) 1 < matchCount series60 1 ∧
    (detectCycle (daySeries [0, 1, 2, 12, 22, 32]) 1).confidence
      ≤ (detectCycle series60 1).confidence :=
  ⟨by decide, by decide, by decide, by decide,
    (detectCycle_confidence_mono (daySeries [0, 1, 2, 12, 22, 32]) series60 1
      (by decide) (by decide) (by decide) (by decide)).1⟩

/-- C20 as stated fails: two series with 101 boundaries against period 1, one
with 50 and one with 51 matches, both get confidence 50 (49.5 and 50.5 round to
the same integer). -/
theorem detectCycle_confidence_mono_counterexample :
    boundaryCount fiftyOfHundredOne 1 = 101 ∧ boundaryCount fiftyOneOfHundredOne 1 = 101 ∧
    matchCount fiftyOfHundredOne 1 = 50 ∧ matchCount fiftyOneOfHundredOne 1 = 51 ∧
    (detectCycle fiftyOfHundredOne 1).confidence = 50 ∧
    (detectCycle fiftyOneOfHundredOne 1).confidence = 50 := by
  refine ⟨counts_fiftyOfHundredOne.2, counts_fiftyOneOfHundredOne.2,
    counts_fiftyOfHundredOne.1, counts_fiftyOneOfHundredOne.1, ?_, ?_⟩
  · rw [detectCycle_confidence_eq, counts_fiftyOfHundredOne.1, counts_fiftyOfHundredOne.2,
      confidenceOf_of_mod_ne 50 101 (by norm_num) (by norm_num) (by norm_num) (by norm_num)]
    norm_num
  · rw [detectCycle_confidence_eq, counts_fiftyOneOfHundredOne.1,
      counts_fiftyOneOfHundredOne.2,
      confidenceOf_of_mod_ne 51 101 (by norm_num) (by norm_num) (by norm_num) (by norm_num)]
    norm_num

/-! ### Series that recur with the period -/

theorem confidenceOf_zero_matches (t : ℕ) : confidenceOf 0 t = 0 := by
  unfold confidenceOf
  split_ifs
  · simp only [Nat.cast_zero, zero_div, fl_zero, zero_mul]
    unfold mathRound
    rw [Int.floor_eq_iff]
    norm_num
  · rfl

theorem detectCycle_of_confidence_zero (data : List SeriesEntry) (p : ℕ)
    (h : confidenceOf (matchCount data p) (boundaryCount data p) = 0) :
    detectCycle data p = { detected := false, confidence := 0, nextExpected := none } := by
  unfold detectCycle
  rw [detectCycleCounts_eq]
  simp only [h]
  rfl

theorem dayGap_daySeries (days : List ℤ) (i j : ℕ) (hi : i < days.length)
    (hj : j < days.length) :
    dayGap (daySeries days) i j = days.getD i 0 - days.getD j 0 := by
  unfold dayGap daySeries
  rw [List.getD_eq_getElem _ _ (by simpa using hi), List.getD_eq_getElem _ _ (by simpa using hj),
    List.getD_eq_getElem _ _ hi, List.getD_eq_getElem _ _ hj, List.getElem_map, List.getElem_map]
  simp only [Moment.diffDays, Moment.ofDay, msPerDay]
  rw [← sub_mul, Int.mul_tdiv_cancel _ (by norm_num)]

theorem matchCount_periodic (p n : ℕ) (start : ℤ) (hp : 2 ≤ p) :
    matchCount (daySeries ((List.range n).map fun (k : ℕ) => start + (k : ℤ) * p)) p = 0 := by
  unfold matchCount
  rw [List.countP_eq_zero]
  intro i hi
  simp only [daySeries, List.length_map, List.length_range, List.mem_range] at hi
  simp only [decide_eq_true_eq, not_and]
  intro hpi
  rw [dayGap_daySeries _ _ _ (by simpa using hi) (by simp; omega)]
  rw [List.getD_eq_getElem _ _ (by simpa using hi),
    List.getD_eq_getElem _ _ (by simp; omega)]
  simp only [List.getElem_map, List.getElem_range]
  have h1 : (start + (i : ℤ) * p - (start + ((i - p : ℕ) : ℤ) * p) - p) = (p : ℤ) * p - p := by
    rw [Nat.cast_sub hpi]
    ring
  rw [h1]
  have h2 : (2 : ℤ) ≤ p := by exact_mod_cast hp
  have h3 : (2 : ℤ) ≤ (p : ℤ) * p - p := by nlinarith
  rw [abs_of_nonneg (by linarith)]
  linarith

theorem detectCycle_periodicDays (p n : ℕ) (start : ℤ) (hp : 2 ≤ p) :
    detectCycle (daySeries (periodicDays p n start)) p
      = { detected := false, confidence := 0, nextExpected := none } := by
  apply detectCycle_of_confidence_zero
  unfold periodicDays
  rw [matchCount_periodic p n start hp, confidenceOf_zero_matches]

theorem consecutive_gaps_periodicDays (p n : ℕ) (start : ℤ) (i : ℕ) (hi : i + 1 < n) :
    dayGap (daySeries (periodicDays p n start)) (i + 1) i = p := by
  rw [dayGap_daySeries _ _ _ (by simpa [periodicDays] using hi)
    (by simp [periodicDays]; omega)]
  unfold periodicDays
  rw [List.getD_eq_getElem _ _ (by simpa using hi), List.getD_eq_getElem _ _ (by simp; omega)]
  simp only [List.getElem_map, List.getElem_range]
  push_cast
  ring

/-- C21, the code at the failing input: for every period `p ≥ 2`, a series of
`n` observations whose consecutive dates are each exactly `p` days apart (every
`n`, in particular `n > p`) gets confidence 0 and is not detected, because entry
`i` is compared with entry `i - p`, which lies `p * p` days back; so do four
observations made every three days against the period 3. -/
theorem detectCycle_consecutive_period_undetected :
    (∀ (p n : ℕ) (start : ℤ), 2 ≤ p →
      (∀ i, i + 1 < n → dayGap (daySeries (periodicDays p n start)) (i + 1) i = p) ∧
      detectCycle (daySeries (periodicDays p n start)) p
        = { detected := false, confidence := 0, nextExpected := none }) ∧
    everyThreeDays = daySeries (periodicDays 3 4 0) ∧
    boundaryCount everyThreeDays 3 = 1 ∧ matchCount everyThreeDays 3 = 0 ∧
    detectCycle everyThreeDays 3
      = { detected := false, confidence := 0, nextExpected := none } := by
  refine ⟨fun p n start hp =>
    ⟨fun i hi => consecutive_gaps_periodicDays p n start i hi,
      detectCycle_periodicDays p n start hp⟩, by decide, by decide, by decide, ?_⟩
  have h : everyThreeDays = daySeries (periodicDays 3 4 0) := by decide
  rw [h]
  exact detectCycle_periodicDays 3 4 0 (by norm_num)

/-- C22, the code at the failing input: five observations with the date gaps
7, 8, 6 and 7 days have no index `i` with `7 ≤ i < 5`, so against the period 7
the loop body never runs: total 0, confidence 0, not detected, no next date. -/
theorem detectCycle_near_weekly :
    (dayGap nearWeekly 1 0 = 7 ∧ dayGap nearWeekly 2 1 = 8 ∧
      dayGap nearWeekly 3 2 = 6 ∧ dayGap nearWeekly 4 3 = 7) ∧
    nearWeekly.length = 5 ∧ boundaryCount nearWeekly 7 = 0 ∧
    detectCycle nearWeekly 7
      = { detected := false, confidence := 0, nextExpected := none } := by
  refine ⟨by decide, by decide, by decide, ?_⟩
  apply detectCycle_of_confidence_zero
  have h : boundaryCount nearWeekly 7 = 0 := by decide
  rw [h, confidenceOf_zero_total]

/-! ### Inverse frequency on non-negative counts -/

theorem recentMap_some_mem (l : List AnimalStat) (k : String) (c : ℤ)
    (h : recentMap l k = some c) : ∃ stat ∈ l, stat.animal_name = k ∧ stat.count = c := by
  induction l using List.reverseRecOn with
  | nil => cases h
  | append_singleton l s ih =>
    rw [recentMap_snoc] at h
    split_ifs at h with hk
    · exact ⟨s, by simp, hk.symm, Option.some.inj h⟩
    · obtain ⟨stat, hm, h1, h2⟩ := ih h
      exact ⟨stat, List.mem_append_left _ hm, h1, h2⟩

theorem recentCountOf_nonneg (recentStats : List AnimalStat)
    (h : ∀ stat ∈ recentStats, 0 ≤ stat.count) (name : String) :
    0 ≤ recentCountOf recentStats name := by
  rw [recentCountOf_eq]
  cases hm : recentMap recentStats name with
  | none => simp
  | some c =>
    obtain ⟨stat, hs, _, hc⟩ := recentMap_some_mem _ _ _ hm
    simpa [hc] using h stat hs

theorem inverseProbabilityOf_zero : inverseProbabilityOf 0 = 35 / 18 := by
  unfold inverseProbabilityOf absenceOf
  norm_num

theorem inverseProbabilityOf_of_pos (c : ℤ) (hc : 1 ≤ c) : inverseProbabilityOf c = 0 := by
  unfold inverseProbabilityOf absenceOf
  have h : (1 : ℚ) ≤ c := by exact_mod_cast hc
  rw [max_eq_left (by linarith)]
  norm_num

theorem inverseProbabilityOf_lt_cap (c : ℤ) (hc : 0 ≤ c) : inverseProbabilityOf c < 15 := by
  rcases hc.eq_or_lt with h | h
  · rw [← h, inverseProbabilityOf_zero]
    norm_num
  · rw [inverseProbabilityOf_of_pos c h]
    norm_num

theorem roundTwoDecimals_absent : roundTwoDecimals (35 / 18) = 97 / 50 := by
  unfold roundTwoDecimals mathRound
  have h : ⌊(35 / 18 : ℚ) * 100 + 1 / 2⌋ = 194 := by
    rw [Int.floor_eq_iff]
    norm_num
  rw [h]
  norm_num

theorem inverseFrequencyCandidate_nonneg (recentStats : List AnimalStat)
    (animal : CatalogAnimal) (cand : Prediction)
    (hc : 0 ≤ recentCountOf recentStats animal.name)
    (h : inverseFrequencyCandidate recentStats animal = some cand) :
    cand.animal = animal.name ∧ recentCountOf recentStats animal.name = 0 ∧
    cand.probability = 97 / 50 := by
  rw [inverseFrequencyCandidate_eq] at h
  split_ifs at h with hp
  have h0 : recentCountOf recentStats animal.name = 0 := by
    by_contra hne
    have h1 : 1 ≤ recentCountOf recentStats animal.name := by omega
    rw [inverseProbabilityOf_of_pos _ h1] at hp
    norm_num at hp
  cases h
  refine ⟨rfl, h0, ?_⟩
  show roundTwoDecimals (inverseProbabilityOf (recentCountOf recentStats animal.name)) = 97 / 50
  rw [h0, inverseProbabilityOf_zero, roundTwoDecimals_absent]

theorem recentMap_of_count_zero (recentStats : List AnimalStat) (name : String)
    (h : recentCountOf recentStats name = 0) :
    recentMap recentStats name = some 0 ∨ recentMap recentStats name = none := by
  rw [recentCountOf_eq] at h
  cases hm : recentMap recentStats name with
  | none => exact Or.inr rfl
  | some c =>
    rw [hm] at h
    left
    simpa using h

/-- C29. For every recent-stats list with non-negative counts, every candidate
returned by `calculateInverseFrequencyPredictions` belongs to a catalog symbol
whose entry in the recent dictionary is 0 or missing, and has probability exactly
1.94; a symbol with recent count at least 1 gets no candidate; and the value
`min(15, 10 * absence)` stays below the cap 15 for every symbol. -/
theorem calculateInverseFrequencyPredictions_absent_only (animals : List CatalogAnimal)
    (recentStats weeklyStats : List AnimalStat)
    (h : ∀ stat ∈ recentStats, 0 ≤ stat.count) :
    (∀ cand ∈ calculateInverseFrequencyPredictions animals recentStats weeklyStats,
      cand.animal ∈ animals.map (fun a => a.name) ∧
      (recentMap recentStats cand.animal = some 0 ∨ recentMap recentStats cand.animal = none) ∧
      cand.probability = 97 / 50) ∧
    (∀ name, 1 ≤ recentCountOf recentStats name →
      ∀ cand ∈ calculateInverseFrequencyPredictions animals recentStats weeklyStats,
        cand.animal ≠ name) ∧
    (∀ name, inverseProbabilityOf (recentCountOf recentStats name) < 15 ∧
      min 15 (max 0 (7 / 36 - (recentCountOf recentStats name : ℚ)) * 10)
        = max 0 (7 / 36 - (recentCountOf recentStats name : ℚ)) * 10) := by
  have key : ∀ cand ∈ calculateInverseFrequencyPredictions animals recentStats weeklyStats,
      cand.animal ∈ animals.map (fun a => a.name) ∧
      recentCountOf recentStats cand.animal = 0 ∧ cand.probability = 97 / 50 := by
    intro cand hcand
    obtain ⟨animal, ha, hc⟩ := (mem_calculateInverseFrequencyPredictions _ _ _ _).1 hcand
    obtain ⟨h1, h2, h3⟩ := inverseFrequencyCandidate_nonneg recentStats animal cand
      (recentCountOf_nonneg recentStats h _) hc
    rw [h1]
    exact ⟨List.mem_map.2 ⟨animal, ha, rfl⟩, h2, h3⟩
  refine ⟨fun cand hcand => ?_, fun name hname cand hcand he => ?_, fun name => ?_⟩
  · obtain ⟨h1, h2, h3⟩ := key cand hcand
    exact ⟨h1, recentMap_of_count_zero _ _ h2, h3⟩
  · have h2 := (key cand hcand).2.1
    rw [he] at h2
    omega
  · have hlt := inverseProbabilityOf_lt_cap _ (recentCountOf_nonneg recentStats h name)
    refine ⟨hlt, ?_⟩
    unfold inverseProbabilityOf absenceOf at hlt
    rw [mul_comm] at hlt
    rcases min_lt_iff.1 hlt with h15 | hv
    · exact absurd h15 (lt_irrefl _)
    · exact min_eq_right hv.le

theorem calculateInverseFrequencyPredictions_absent_only_witness :
    (∀ stat ∈ smallRecentStats, 0 ≤ stat.count) ∧
    (calculateInverseFrequencyPredictions smallCatalog smallRecentStats []).map
        (fun cand => cand.animal) = ["Delfin", "Ballena"] ∧
    ∀ cand ∈ calculateInverseFrequencyPredictions smallCatalog smallRecentStats [],
      cand.animal ∈ smallCatalog.map (fun a => a.name) ∧
      (recentMap smallRecentStats cand.animal = some 0 ∨
        recentMap smallRecentStats cand.animal = none) ∧
      cand.probability = 97 / 50 :=
  ⟨by decide, by
    have h1 : recentCountOf smallRecentStats "Delfin" = 0 := by decide
    have h2 : recentCountOf smallRecentStats "Toro" = 3 := by decide
    have h3 : recentCountOf smallRecentStats "Ballena" = 0 := by decide
    have h4 : (1 : ℚ) < 35 / 18 := by norm_num
    have h5 : inverseProbabilityOf 3 = 0 := inverseProbabilityOf_of_pos 3 (by norm_num)
    simp [calculateInverseFrequencyPredictions, smallCatalog, inverseFrequencyCandidate_eq,
      h1, h2, h3, h4, h5, inverseProbabilityOf_zero, roundTwoDecimals_absent,
      candidateByProbabilityDesc],
    (calculateInverseFrequencyPredictions_absent_only smallCatalog smallRecentStats []
      (by decide)).1⟩

/-! ### The trend label on short lists -/

theorem overlapOf_le_length (recentStats weeklyStats : List AnimalStat) :
    overlapOf recentStats weeklyStats ≤ recentStats.length := by
  unfold overlapOf
  refine (List.countP_le_length _).trans ?_
  rw [List.length_map, List.length_take]
  exact min_le_right _ _

/-- C30. For every pair of non-empty stat lists in which the short-window list
has at most 2 entries, `calculateOverallTrend` returns the volatile label,
whatever the long-window list is, the short-window list itself included. -/
theorem calculateOverallTrend_short_window (recentStats weeklyStats : List AnimalStat)
    (h1 : recentStats ≠ []) (h2 : weeklyStats ≠ []) (h : recentStats.length ≤ 2) :
    calculateOverallTrend recentStats weeklyStats = labelVolatile := by
  rw [calculateOverallTrend_eq recentStats weeklyStats h1 h2]
  have ho := overlapOf_le_length recentStats weeklyStats
  rw [if_neg (by omega), if_pos (by omega)]

theorem calculateOverallTrend_short_window_witness :
    twoStats ≠ [] ∧ twoStats.length ≤ 2 ∧ overlapOf twoStats twoStats = 2 ∧
    calculateOverallTrend twoStats twoStats = labelVolatile :=
  ⟨by decide, by decide, by decide,
    calculateOverallTrend_short_window twoStats twoStats (by decide) (by decide) (by decide)⟩

/-! ### Series no longer than the period -/

theorem boundaryCount_of_short (data : List SeriesEntry) (p : ℕ) (h : data.length ≤ p) :
    boundaryCount data p = 0 := by
  unfold boundaryCount
  rw [List.countP_eq_zero]
  intro i hi
  rw [List.mem_range] at hi
  simp only [decide_eq_true_eq, not_le]
  omega

theorem detectCycle_of_short (data : List SeriesEntry) (p : ℕ) (h : data.length ≤ p) :
    detectCycle data p = { detected := false, confidence := 0, nextExpected := none } := by
  apply detectCycle_of_confidence_zero
  rw [boundaryCount_of_short data p h, confidenceOf_zero_total]

theorem animalDataOf_snoc (patternData : List PatternRow) (item : PatternRow) :
    animalDataOf (patternData ++ [item]) = animalDataPush (animalDataOf patternData) item := by
  simp [animalDataOf, List.foldl_append]

theorem length_le_of_mem_animalDataOf (patternData : List PatternRow) :
    ∀ e ∈ animalDataOf patternData,
      e.2.length ≤ patternData.countP fun item => item.animal_name = e.1 := by
  induction patternData using List.reverseRecOn with
  | nil => intro e he; simp [animalDataOf] at he
  | append_singleton l item ih =>
    intro e he
    rw [animalDataOf_snoc] at he
    unfold animalDataPush at he
    simp only [List.mem_map] at he
    obtain ⟨e0, he0, rfl⟩ := he
    have hlen : e0.2.length ≤ l.countP fun r => r.animal_name = e0.1 := by
      split_ifs at he0
      · exact ih e0 he0
      · rcases List.mem_append.1 he0 with h | h
        · exact ih e0 h
        · rw [List.mem_singleton] at h
          rw [h]
          exact Nat.zero_le _
    rw [List.countP_append]
    by_cases hn : e0.1 = item.animal_name
    · rw [if_pos hn]
      simp only [List.length_append, List.length_singleton, List.countP_singleton]
      rw [if_pos (by simpa using hn.symm)]
      omega
    · rw [if_neg hn]
      omega

theorem cyclicalForEach_of_short (acc : CyclicalAnalysis) (entry : String × List SeriesEntry)
    (h : entry.2.length ≤ 3) : cyclicalForEach acc entry = acc := by
  have hl : (entry.2.insertionSort byDateAsc).length = entry.2.length :=
    List.length_insertionSort _ _
  have hd := detectCycle_of_short (entry.2.insertionSort byDateAsc) 3 (by rw [hl]; exact h)
  have h7 : ¬ entry.2.length ≥ 7 := by omega
  unfold cyclicalForEach
  simp only [hl, hd, h7, if_false, ite_self, Bool.false_eq_true]

theorem detected_length (data : List SeriesEntry) (p : ℕ)
    (h : (detectCycle data p).detected = true) : p < data.length := by
  by_contra hle
  rw [detectCycle_of_short data p (by omega)] at h
  cases h

theorem mem_cyclicalForEach_cycles (acc : CyclicalAnalysis) (entry : String × List SeriesEntry)
    (c : Cycle) (h : c ∈ (cyclicalForEach acc entry).cycles) :
    c ∈ acc.cycles ∨
    (c.animal = entry.1 ∧
      ((c.type = "3-day" ∧ 3 < entry.2.length) ∨ (c.type = "weekly" ∧ 7 < entry.2.length))) := by
  have hl : (entry.2.insertionSort byDateAsc).length = entry.2.length :=
    List.length_insertionSort _ _
  have l3 := detected_length (entry.2.insertionSort byDateAsc) 3
  have l7 := detected_length (entry.2.insertionSort byDateAsc) 7
  rw [hl] at l3 l7
  unfold cyclicalForEach at h
  simp only [hl] at h
  by_cases h3 : entry.2.length ≥ 3
  · rw [if_pos h3] at h
    by_cases h7 : entry.2.length ≥ 7
    · rw [if_pos h7] at h
      cases d7 : (detectCycle (entry.2.insertionSort byDateAsc) 7).detected <;>
        cases d3 : (detectCycle (entry.2.insertionSort byDateAsc) 3).detected <;>
        simp only [d3, d7, if_true, if_false, Bool.false_eq_true, List.mem_append,
          List.mem_singleton] at h
      · exact Or.inl h
      · rcases h with h | h
        · exact Or.inl h
        · exact Or.inr ⟨by rw [h], Or.inl ⟨by rw [h], l3 d3⟩⟩
      · rcases h with h | h
        · exact Or.inl h
        · exact Or.inr ⟨by rw [h], Or.inr ⟨by rw [h], l7 d7⟩⟩
      · rcases h with (h | h) | h
        · exact Or.inl h
        · exact Or.inr ⟨by rw [h], Or.inl ⟨by rw [h], l3 d3⟩⟩
        · exact Or.inr ⟨by rw [h], Or.inr ⟨by rw [h], l7 d7⟩⟩
    · rw [if_neg h7] at h
      cases d3 : (detectCycle (entry.2.insertionSort byDateAsc) 3).detected <;>
        simp only [d3, if_true, if_false, Bool.false_eq_true, List.mem_append,
          List.mem_singleton] at h
      · exact Or.inl h
      · rcases h with h | h
        · exact Or.inl h
        · exact Or.inr ⟨by rw [h], Or.inl ⟨by rw [h], l3 d3⟩⟩
  · rw [if_neg h3] at h
    exact Or.inl h

theorem mem_foldl_cyclicalForEach (L : List (String × List SeriesEntry)) :
    ∀ (acc : CyclicalAnalysis) (c : Cycle), c ∈ (L.foldl cyclicalForEach acc).cycles →
      c ∈ acc.cycles ∨ ∃ entry ∈ L, c.animal = entry.1 ∧
        ((c.type = "3-day" ∧ 3 < entry.2.length) ∨
          (c.type = "weekly" ∧ 7 < entry.2.length)) := by
  induction L with
  | nil => intro acc c h; exact Or.inl h
  | cons e L ih =>
    intro acc c h
    rw [List.foldl_cons] at h
    rcases ih _ c h with h1 | ⟨entry, hm, hp⟩
    · rcases mem_cyclicalForEach_cycles acc e c h1 with h2 | h2
      · exact Or.inl h2
      · exact Or.inr ⟨e, List.mem_cons_self _ _, h2⟩
    · exact Or.inr ⟨entry, List.mem_cons_of_mem _ hm, hp⟩

theorem mem_analyzeCyclicalPatterns_cycles (patternData : List PatternRow) (c : Cycle)
    (h : c ∈ (analyzeCyclicalPatterns patternData).cycles) :
    (c.type = "3-day" ∧ 3 < patternData.countP fun item => item.animal_name = c.animal) ∨
    (c.type = "weekly" ∧ 7 < patternData.countP fun item => item.animal_name = c.animal) := by
  rcases mem_foldl_cyclicalForEach _ _ c h with h0 | ⟨entry, hm, ha, hp⟩
  · cases h0
  · have hle := length_le_of_mem_animalDataOf patternData entry hm
    rw [ha]
    rcases hp with ⟨ht, hl⟩ | ⟨ht, hl⟩
    · exact Or.inl ⟨ht, by omega⟩
    · exact Or.inr ⟨ht, by omega⟩

theorem foldl_cyclicalForEach_of_short (L : List (String × List SeriesEntry))
    (acc : CyclicalAnalysis) (h : ∀ entry ∈ L, entry.2.length ≤ 3) :
    L.foldl cyclicalForEach acc = acc := by
  induction L with
  | nil => rfl
  | cons e L ih =>
    rw [List.foldl_cons, cyclicalForEach_of_short acc e (h e (List.mem_cons_self _ _))]
    exact ih fun entry hm => h entry (List.mem_cons_of_mem _ hm)

/-- C28. For every period `p` and every series with at most `p` entries
`detectCycle` returns confidence 0 and `detected = false` (and no next date);
hence `analyzeCyclicalPatterns` reports no 3-day cycle for a symbol with exactly
3 rows and no weekly cycle for a symbol with exactly 7 rows, and reports nothing
at all (no cycle, no pattern text) when no symbol has more than 3 rows. -/
theorem detectCycle_series_within_period :
    (∀ (p : ℕ) (data : List SeriesEntry), data.length ≤ p →
      (detectCycle data p).confidence = 0 ∧ (detectCycle data p).detected = false ∧
      (detectCycle data p).nextExpected = none) ∧
    (∀ (patternData : List PatternRow) (animal : String),
      patternData.countP (fun item => item.animal_name = animal) = 3 →
      ∀ c ∈ (analyzeCyclicalPatterns patternData).cycles,
        c.animal = animal → c.type ≠ "3-day") ∧
    (∀ (patternData : List PatternRow) (animal : String),
      patternData.countP (fun item => item.animal_name = animal) = 7 →
      ∀ c ∈ (analyzeCyclicalPatterns patternData).cycles,
        c.animal = animal → c.type ≠ "weekly") ∧
    (∀ (patternData : List PatternRow),
      (∀ animal, patternData.countP (fun item => item.animal_name = animal) ≤ 3) →
      analyzeCyclicalPatterns patternData = { cycles := [], patterns := [] }) := by
  refine ⟨fun p data h => ?_, fun patternData animal h c hc ha ht => ?_,
    fun patternData animal h c hc ha ht => ?_, fun patternData h => ?_⟩
  · rw [detectCycle_of_short data p h]
    exact ⟨rfl, rfl, rfl⟩
  · rcases mem_analyzeCyclicalPatterns_cycles patternData c hc with ⟨_, hl⟩ | ⟨hw, _⟩
    · rw [ha] at hl
      omega
    · rw [ht] at hw
      exact absurd hw (by decide)
  · rcases mem_analyzeCyclicalPatterns_cycles patternData c hc with ⟨h3, _⟩ | ⟨_, hl⟩
    · rw [ht] at h3
      exact absurd h3 (by decide)
    · rw [ha] at hl
      omega
  · unfold analyzeCyclicalPatterns
    exact foldl_cyclicalForEach_of_short _ _ fun entry hm =>
      (length_le_of_mem_animalDataOf patternData entry hm).trans (h entry.1)

theorem detectCycle_series_within_period_witness :
    (daySeries [0, 3, 6]).length ≤ 3 ∧
    ((detectCycle (daySeries [0, 3, 6]) 3).confidence = 0 ∧
      (detectCycle (daySeries [0, 3, 6]) 3).detected = false ∧
      (detectCycle (daySeries [0, 3, 6]) 3).nextExpected = none) ∧
    threeSightings.countP (fun item => item.animal_name = "Delfin") = 3 ∧
    analyzeCyclicalPatterns threeSightings = { cycles := [], patterns := [] } :=
  ⟨by decide, detectCycle_series_within_period.1 3 (daySeries [0, 3, 6]) (by decide),
    by decide,
    detectCycle_series_within_period.2.2.2 threeSightings (fun animal => by
      by_cases h : "Delfin" = animal
      · subst h; decide
      · simp [threeSightings, h])⟩

/-! ### The sequence analysis -/

theorem length_animalFrequencyPush (f : List (String × ℕ)) (a : String) :
    f.length ≤ (animalFrequencyPush f a).length ∧
    (a ≠ "" → 0 < (animalFrequencyPush f a).length) := by
  unfold animalFrequencyPush
  split_ifs with h1 h2
  · exact ⟨le_rfl, fun h => absurd h1 h⟩
  · rw [List.length_map]
    refine ⟨le_rfl, fun _ => ?_⟩
    rw [List.any_eq_true] at h2
    obtain ⟨e, he, _⟩ := h2
    exact List.length_pos_of_mem he
  · rw [List.length_append, List.length_singleton]
    exact ⟨Nat.le_succ _, fun _ => Nat.succ_pos _⟩

theorem length_foldl_animalFrequencyPush (names : List String) :
    ∀ f : List (String × ℕ), f.length ≤ (names.foldl animalFrequencyPush f).length ∧
      ((∃ a ∈ names, a ≠ "") → 0 < (names.foldl animalFrequencyPush f).length) := by
  induction names with
  | nil => intro f; exact ⟨le_rfl, fun ⟨a, ha, _⟩ => by cases ha⟩
  | cons a names ih =>
    intro f
    rw [List.foldl_cons]
    obtain ⟨h1, h2⟩ := ih (animalFrequencyPush f a)
    obtain ⟨h3, h4⟩ := length_animalFrequencyPush f a
    refine ⟨h3.trans h1, fun ⟨b, hb, hne⟩ => ?_⟩
    rcases List.mem_cons.1 hb with rfl | hb
    · exact (h4 hne).trans_le h1
    · exact h2 ⟨b, hb, hne⟩

theorem length_foldl_sequences (data : List SequentialPattern) :
    ∀ f : List (String × ℕ),
      f.length ≤ (data.foldl (fun freq seq =>
        [seq.prev_2, seq.prev_1, seq.current].foldl animalFrequencyPush freq) f).length ∧
      ((∃ seq ∈ data, seq.prev_2 ≠ "" ∨ seq.prev_1 ≠ "" ∨ seq.current ≠ "") →
        0 < (data.foldl (fun freq seq =>
          [seq.prev_2, seq.prev_1, seq.current].foldl animalFrequencyPush freq) f).length) := by
  induction data with
  | nil => intro f; exact ⟨le_rfl, fun ⟨a, ha, _⟩ => by cases ha⟩
  | cons seq data ih =>
    intro f
    rw [List.foldl_cons]
    obtain ⟨h1, h2⟩ := ih ([seq.prev_2, seq.prev_1, seq.current].foldl animalFrequencyPush f)
    obtain ⟨h3, h4⟩ := length_foldl_animalFrequencyPush [seq.prev_2, seq.prev_1, seq.current] f
    refine ⟨h3.trans h1, fun ⟨s, hs, hne⟩ => ?_⟩
    rcases List.mem_cons.1 hs with rfl | hs
    · refine (h4 ?_).trans_le h1
      rcases hne with h | h | h
      · exact ⟨_, by simp, h⟩
      · exact ⟨_, by simp, h⟩
      · exact ⟨_, by simp, h⟩
    · exact h2 ⟨s, hs, hne⟩

theorem topAnimalOf_ok (f : List (String × ℕ)) (h : 0 < f.length) :
    ∃ topAnimal, topAnimalOf f = .ok topAnimal := by
  unfold topAnimalOf
  cases f with
  | nil => simp at h
  | cons e f => exact ⟨_, rfl⟩

theorem analyzeSequentialPatterns_of_top (sequentialData : List SequentialPattern)
    (topAnimal : String) (h : sequentialData ≠ [])
    (ht : topAnimalOf (animalFrequencyOf sequentialData) = .ok topAnimal) :
    analyzeSequentialPatterns sequentialData
      = .ok { patterns := (sequentialData.take 3).enum.map fun entry =>
                sequenceText entry.1 entry.2
              insights :=
                (if (sequentialData.filter hasRepetition).length > 0 then
                  [s!"Se detectaron {(sequentialData.filter hasRepetition).length} patrones con repeticiones de animales"]
                else []) ++
                [s!"{topAnimal} aparece más frecuentemente en secuencias detectadas"] } := by
  unfold analyzeSequentialPatterns
  rw [if_pos (List.length_pos.2 h)]
  simp only [ht]

theorem getElem?_enum_map_take (sequentialData : List SequentialPattern) (i : ℕ) (hi : i < 3) :
    ((sequentialData.take 3).enum.map fun entry => sequenceText entry.1 entry.2)[i]?
      = sequentialData[i]?.map (sequenceText i) := by
  rw [List.getElem?_map, List.getElem?_enum, List.getElem?_take_of_lt hi, Option.map_map]
  rfl

theorem countP_hasRepetition (sequentialData : List SequentialPattern) :
    (sequentialData.filter hasRepetition).length
      = sequentialData.countP fun seq =>
          seq.prev_2 = seq.prev_1 ∨ seq.prev_1 = seq.current ∨ seq.prev_2 = seq.current := by
  rw [← List.countP_eq_length_filter]
  rfl

theorem analyzeSequentialPatterns_outerRepetition :
    analyzeSequentialPatterns [outerRepetition]
      = .ok { patterns := ["Secuencia 1: Perro → Gato → Perro (2 veces)"]
              insights := ["Se detectaron 1 patrones con repeticiones de animales",
                "Perro aparece más frecuentemente en secuencias detectadas"] } := by
  rfl

/-- C27 as stated fails: for the single mined sequence (Perro, Gato, Perro), which
has no immediate repetition, the analysis reports one pattern with repetitions. -/
theorem analyzeSequentialPatterns_counterexample :
    outerRepetition.prev_2 ≠ outerRepetition.prev_1 ∧
    outerRepetition.prev_1 ≠ outerRepetition.current ∧
    [outerRepetition].countP (fun seq => seq.prev_2 = seq.prev_1 ∨ seq.prev_1 = seq.current) = 0 ∧
    analyzeSequentialPatterns [outerRepetition]
      = .ok { patterns := ["Secuencia 1: Perro → Gato → Perro (2 veces)"]
              insights := ["Se detectaron 1 patrones con repeticiones de animales",
                "Perro aparece más frecuentemente en secuencias detectadas"] } :=
  ⟨by decide, by decide, by decide, analyzeSequentialPatterns_outerRepetition⟩

/-- C27 (amended). For every non-empty list of mined sequences that holds at
least one non-empty animal name, `analyzeSequentialPatterns` returns a report
with `min(3, length)` pattern texts, the text at position `i` being that of the
`i`-th sequence of the input; with `n` the number of sequences in which two of
the three animals are the same (`prev_2 = prev_1`, `prev_1 = current` or
`prev_2 = current`), the insights are the text reporting `n` when `n > 0`,
followed by the text naming the most frequent animal. -/
theorem analyzeSequentialPatterns_report (sequentialData : List SequentialPattern)
    (h : sequentialData ≠ [])
    (hname : ∃ seq ∈ sequentialData, seq.prev_2 ≠ "" ∨ seq.prev_1 ≠ "" ∨ seq.current ≠ "") :
    ∃ (report : SequenceAnalysis) (topAnimal : String), analyzeSequentialPatterns sequentialData = .ok report ∧
      report.patterns.length = min 3 sequentialData.length ∧
      (∀ i < 3, report.patterns[i]? = sequentialData[i]?.map (sequenceText i)) ∧
      report.insights
        = (if 0 < sequentialData.countP (fun seq =>
              seq.prev_2 = seq.prev_1 ∨ seq.prev_1 = seq.current ∨ seq.prev_2 = seq.current)
            then
              [s!"Se detectaron {sequentialData.countP (fun seq =>
                  seq.prev_2 = seq.prev_1 ∨ seq.prev_1 = seq.current ∨
                    seq.prev_2 = seq.current)} patrones con repeticiones de animales"]
            else []) ++
          [s!"{topAnimal} aparece más frecuentemente en secuencias detectadas"] := by
  obtain ⟨topAnimal, ht⟩ := topAnimalOf_ok (animalFrequencyOf sequentialData)
    ((length_foldl_sequences sequentialData []).2 hname)
  refine ⟨_, topAnimal, analyzeSequentialPatterns_of_top sequentialData topAnimal h ht,
    ?_, fun i hi => getElem?_enum_map_take sequentialData i hi, ?_⟩
  · simp only [List.length_map, List.enum_length, List.length_take]
  · simp only [countP_hasRepetition]

theorem analyzeSequentialPatterns_report_witness :
    fourSequences ≠ [] ∧
    (∃ seq ∈ fourSequences, seq.prev_2 ≠ "" ∨ seq.prev_1 ≠ "" ∨ seq.current ≠ "") ∧
    fourSequences.countP (fun seq =>
      seq.prev_2 = seq.prev_1 ∨ seq.prev_1 = seq.current ∨ seq.prev_2 = seq.current) = 3 ∧
    ∃ (report : SequenceAnalysis) (topAnimal : String), analyzeSequentialPatterns fourSequences = .ok report ∧
      report.patterns.length = min 3 fourSequences.length ∧
      (∀ i < 3, report.patterns[i]? = fourSequences[i]?.map (sequenceText i)) ∧
      report.insights
        = (if 0 < fourSequences.countP (fun seq =>
              seq.prev_2 = seq.prev_1 ∨ seq.prev_1 = seq.current ∨ seq.prev_2 = seq.current)
            then
              [s!"Se detectaron {fourSequences.countP (fun seq =>
                  seq.prev_2 = seq.prev_1 ∨ seq.prev_1 = seq.current ∨
                    seq.prev_2 = seq.current)} patrones con repeticiones de animales"]
            else []) ++
          [s!"{topAnimal} aparece más frecuentemente en secuencias detectadas"] :=
  ⟨by decide, ⟨⟨"Toro", "Gato", "Perro", 5⟩, by decide, Or.inl (by decide)⟩, by decide,
    analyzeSequentialPatterns_report fourSequences (by decide)
      ⟨⟨"Toro", "Gato", "Perro", 5⟩, by decide, Or.inl (by decide)⟩⟩

/-! ### The report of `analyzePatterns` -/

theorem analyzePatterns_of_error (store : PatternStore) (animalSpecific : Option AnimalSpecific)
    (e : String) (h : analyzePatternsTry store animalSpecific = .error e) :
    analyzePatterns store animalSpecific = degradedAnalysis := by
  unfold analyzePatterns
  rw [h]

theorem analyzePatternsTry_error_iff (store : PatternStore)
    (animalSpecific : Option AnimalSpecific) :
    (∃ e, analyzePatternsTry store animalSpecific = .error e) ↔
      ((∃ e, store.getPatternData = .error e) ∨ (∃ e, store.getFrequencyByHour = .error e) ∨
        (∃ e, store.getFrequencyByDay = .error e) ∨
        (∃ e, store.getSequentialPatterns = .error e)) ∨
      (store.getPatternData = .ok none ∨ store.getFrequencyByHour = .ok none ∨
        store.getFrequencyByDay = .ok none ∨ store.getSequentialPatterns = .ok none) ∨
      (∃ rows e, store.getSequentialPatterns = .ok (some rows) ∧
        analyzeSequentialPatterns rows = .error e) := by
  obtain ⟨q1, q2, q3, q4⟩ := store
  unfold analyzePatternsTry
  rcases q1 with e1 | (_ | r1) <;> rcases q2 with e2 | (_ | r2) <;>
    rcases q3 with e3 | (_ | r3) <;> rcases q4 with e4 | (_ | r4) <;>
    simp [onArray, bind, Except.bind, pure, Except.pure]
  · cases analyzeSequentialPatterns r4 <;> simp
  · cases analyzeSequentialPatterns r4 with
    | error e => simp
    | ok v => cases animalSpecific <;> simp

theorem charts_of_analyzePatternsTry (store : PatternStore)
    (animalSpecific : Option AnimalSpecific) (analysis : PatternAnalysis)
    (h : analyzePatternsTry store animalSpecific = .ok analysis) : 2 ≤ analysis.charts.length := by
  obtain ⟨q1, q2, q3, q4⟩ := store
  unfold analyzePatternsTry at h
  rcases q1 with e1 | (_ | r1) <;> rcases q2 with e2 | (_ | r2) <;>
    rcases q3 with e3 | (_ | r3) <;> rcases q4 with e4 | (_ | r4) <;>
    simp [onArray, bind, Except.bind, pure, Except.pure] at h
  · cases hs : analyzeSequentialPatterns r4 <;> rw [hs] at h <;> simp at h
  · cases hs : analyzeSequentialPatterns r4 with
    | error e => rw [hs] at h; simp at h
    | ok v =>
      rw [hs] at h
      cases animalSpecific <;> simp at h <;> rw [← h] <;> simp

theorem analyzePatterns_eq_degraded_iff (store : PatternStore)
    (animalSpecific : Option AnimalSpecific) :
    analyzePatterns store animalSpecific = degradedAnalysis
      ↔ ∃ e, analyzePatternsTry store animalSpecific = .error e := by
  constructor
  · intro h
    cases ht : analyzePatternsTry store animalSpecific with
    | error e => exact ⟨e, rfl⟩
    | ok analysis =>
      have hc := charts_of_analyzePatternsTry store animalSpecific analysis ht
      unfold analyzePatterns at h
      rw [ht] at h
      simp only at h
      rw [h] at hc
      simp [degradedAnalysis] at hc
  · rintro ⟨e, he⟩
    exact analyzePatterns_of_error store animalSpecific e he

/-- A failure of one of the four queries awaited by `analyzePatterns`, or of a
sub-analysis on the value a query resolved with, gives the degraded report. -/
theorem analyzePatterns_of_failure (store : PatternStore)
    (animalSpecific : Option AnimalSpecific)
    (h : ((∃ e, store.getPatternData = .error e) ∨ (∃ e, store.getFrequencyByHour = .error e) ∨
        (∃ e, store.getFrequencyByDay = .error e) ∨
        (∃ e, store.getSequentialPatterns = .error e)) ∨
      (store.getPatternData = .ok none ∨ store.getFrequencyByHour = .ok none ∨
        store.getFrequencyByDay = .ok none ∨ store.getSequentialPatterns = .ok none) ∨
      (∃ rows e, store.getSequentialPatterns = .ok (some rows) ∧
        analyzeSequentialPatterns rows = .error e)) :
    analyzePatterns store animalSpecific = degradedAnalysis :=
  (analyzePatterns_eq_degraded_iff store animalSpecific).2
    ((analyzePatternsTry_error_iff store animalSpecific).2 h)

/-- When the four queries resolve with arrays and the sequence analysis returns,
the report is an ordinary one, whatever the analysis of the symbol contributes. -/
theorem analyzePatterns_of_resolved (store : PatternStore)
    (animalSpecific : Option AnimalSpecific) (patternData : List PatternRow)
    (frequencyByHour : List HourlyFrequency) (frequencyByDay : List DailyFrequency)
    (sequentialPatterns : List SequentialPattern) (sequenceAnalysis : SequenceAnalysis)
    (h1 : store.getPatternData = .ok (some patternData))
    (h2 : store.getFrequencyByHour = .ok (some frequencyByHour))
    (h3 : store.getFrequencyByDay = .ok (some frequencyByDay))
    (h4 : store.getSequentialPatterns = .ok (some sequentialPatterns))
    (h5 : analyzeSequentialPatterns sequentialPatterns = .ok sequenceAnalysis) :
    analyzePatterns store animalSpecific ≠ degradedAnalysis ∧
    2 ≤ (analyzePatterns store animalSpecific).charts.length := by
  have hne : analyzePatterns store animalSpecific ≠ degradedAnalysis := by
    intro hd
    rcases (analyzePatternsTry_error_iff store animalSpecific).1
      ((analyzePatterns_eq_degraded_iff store animalSpecific).1 hd) with
      (⟨e, he⟩ | ⟨e, he⟩ | ⟨e, he⟩ | ⟨e, he⟩) | (he | he | he | he) | ⟨rows, e, he, hs⟩
    · rw [h1] at he; cases he
    · rw [h2] at he; cases he
    · rw [h3] at he; cases he
    · rw [h4] at he; cases he
    · rw [h1] at he; cases he
    · rw [h2] at he; cases he
    · rw [h3] at he; cases he
    · rw [h4] at he; cases he
    · rw [h4] at he
      cases he
      rw [h5] at hs
      cases hs
  refine ⟨hne, ?_⟩
  cases ht : analyzePatternsTry store animalSpecific with
  | error e => exact absurd (analyzePatterns_of_error store animalSpecific e ht) hne
  | ok analysis =>
    have hc := charts_of_analyzePatternsTry store animalSpecific analysis ht
    unfold analyzePatterns
    rw [ht]
    exact hc

/-- An analysis of the symbol that found nothing leaves the report as it is
without a symbol. -/
theorem analyzePatterns_of_empty_specific (store : PatternStore) :
    analyzePatterns store (some { patterns := [], insights := [], chart := none })
      = analyzePatterns store none := by
  have h : analyzePatternsTry store (some { patterns := [], insights := [], chart := none })
      = analyzePatternsTry store none := by
    obtain ⟨q1, q2, q3, q4⟩ := store
    unfold analyzePatternsTry
    rcases q1 with e1 | (_ | r1) <;> rcases q2 with e2 | (_ | r2) <;>
      rcases q3 with e3 | (_ | r3) <;> rcases q4 with e4 | (_ | r4) <;>
      simp [onArray, bind, Except.bind, pure, Except.pure]
  unfold analyzePatterns
  rw [h]

theorem analyzeAnimalSpecificPatterns_of_rejected (animal timeframe : String) (now : Moment)
    (store : AnimalStore) (e : String) (h : store.getLastAppearance = .error e) :
    analyzeAnimalSpecificPatterns animal timeframe now store
      = { patterns := [], insights := [], chart := none } := by
  unfold analyzeAnimalSpecificPatterns
  rw [h]

/-- C23 as stated fails: with a symbol filter, `analyzePatterns` calls
`analyzeAnimalSpecificPatterns`; when its queries are rejected while the four
queries of `analyzePatterns` itself resolve (here with no rows), the report is
the ordinary one, with the two charts and without the failure marker. When only
the second of the nested queries is rejected, the report carries what the first
one gave. -/
theorem analyzePatternsFor_counterexample :
    (∃ e, rejectingAnimalStore.getLastAppearance = .error e) ∧
    (∃ e, rejectingAnimalStore.getAnimalStats = .error e) ∧
    (∃ e, rejectingAnimalStore.getPatternData = .error e) ∧
    analyzePatternsFor "this_week" (some "Delfin") noonOfDayTwelve emptyStore
        rejectingAnimalStore
      = { detected := [], insights := []
          charts :=
            [{ type := "bar", title := "Frecuencia por Hora del Día", labels := [], data := [] },
              { type := "doughnut", title := "Distribución por Día de la Semana", labels := [],
                data := [] }]
          trends := [], cycles := [] } ∧
    analyzePatternsFor "this_week" (some "Delfin") noonOfDayTwelve emptyStore
        rejectingAnimalStore ≠ degradedAnalysis ∧
    (∃ e, halfwayAnimalStore.getAnimalStats = .error e) ∧
    analyzePatternsFor "this_week" (some "Delfin") noonOfDayTwelve emptyStore
        halfwayAnimalStore
      = { detected := ["Última aparición: 10 días atrás"]
          insights := ["Delfin lleva 10 días sin aparecer, podría estar en ciclo de aparición"]
          charts :=
            [{ type := "bar", title := "Frecuencia por Hora del Día", labels := [], data := [] },
              { type := "doughnut", title := "Distribución por Día de la Semana", labels := [],
                data := [] }]
          trends := [], cycles := [] } := by
  refine ⟨⟨_, rfl⟩, ⟨_, rfl⟩, ⟨_, rfl⟩, by decide, by decide, ⟨_, rfl⟩, by decide⟩

/-- C23 (amended). Whenever one of the four history-store queries that
`analyzePatterns` itself awaits is rejected, or resolves with a value that is no
array (so that the sub-analysis reading it throws), or the sequence analysis
throws on the mined sequences, `analyzePatterns` returns the degraded report:
`detected` is the single marker `Error analizando patrones`, and `insights`,
`charts`, `trends` and `cycles` are empty. When these four queries resolve with
arrays and the sequence analysis returns, the report is an ordinary one with at
least the two charts, whatever happens to the queries made inside
`analyzeAnimalSpecificPatterns` for a symbol filter: their failure is caught
there, and when the first of them is rejected the report is the one made
without a symbol filter from the same four results. -/
theorem analyzePatternsFor_degraded (timeframe : String) (animal : Option String)
    (now : Moment) (store : PatternStore) (animalStore : AnimalStore) :
    ((((∃ e, store.getPatternData = .error e) ∨ (∃ e, store.getFrequencyByHour = .error e) ∨
          (∃ e, store.getFrequencyByDay = .error e) ∨
          (∃ e, store.getSequentialPatterns = .error e)) ∨
        (store.getPatternData = .ok none ∨ store.getFrequencyByHour = .ok none ∨
          store.getFrequencyByDay = .ok none ∨ store.getSequentialPatterns = .ok none) ∨
        (∃ rows e, store.getSequentialPatterns = .ok (some rows) ∧
          analyzeSequentialPatterns rows = .error e)) →
      analyzePatternsFor timeframe animal now store animalStore = degradedAnalysis ∧
      (analyzePatternsFor timeframe animal now store animalStore).detected
        = ["Error analizando patrones"] ∧
      (analyzePatternsFor timeframe animal now store animalStore).insights = [] ∧
      (analyzePatternsFor timeframe animal now store animalStore).charts = [] ∧
      (analyzePatternsFor timeframe animal now store animalStore).trends = [] ∧
      (analyzePatternsFor timeframe animal now store animalStore).cycles = []) ∧
    (∀ patternData frequencyByHour frequencyByDay sequentialPatterns sequenceAnalysis,
      store.getPatternData = .ok (some patternData) →
      store.getFrequencyByHour = .ok (some frequencyByHour) →
      store.getFrequencyByDay = .ok (some frequencyByDay) →
      store.getSequentialPatterns = .ok (some sequentialPatterns) →
      analyzeSequentialPatterns sequentialPatterns = .ok sequenceAnalysis →
        analyzePatternsFor timeframe animal now store animalStore ≠ degradedAnalysis ∧
        2 ≤ (analyzePatternsFor timeframe animal now store animalStore).charts.length ∧
        ((∃ e, animalStore.getLastAppearance = .error e) →
          analyzePatternsFor timeframe animal now store animalStore
            = analyzePatterns store none)) := by
  refine ⟨fun h => ?_, fun patternData frequencyByHour frequencyByDay sequentialPatterns
    sequenceAnalysis h1 h2 h3 h4 h5 => ?_⟩
  · have hd : analyzePatternsFor timeframe animal now store animalStore = degradedAnalysis :=
      analyzePatterns_of_failure store _ h
    rw [hd]
    exact ⟨rfl, rfl, rfl, rfl, rfl, rfl⟩
  · obtain ⟨hne, hc⟩ := analyzePatterns_of_resolved store
      (match animal with
        | some name =>
          if name = "" then none
          else some (analyzeAnimalSpecificPatterns name timeframe now animalStore)
        | none => none)
      patternData frequencyByHour frequencyByDay sequentialPatterns sequenceAnalysis
      h1 h2 h3 h4 h5
    refine ⟨hne, hc, ?_⟩
    rintro ⟨e, he⟩
    unfold analyzePatternsFor
    cases animal with
    | none => rfl
    | some name =>
      by_cases hn : name = ""
      · simp only [hn, if_true]
      · simp only [hn, if_false]
        rw [analyzeAnimalSpecificPatterns_of_rejected name timeframe now animalStore e he]
        exact analyzePatterns_of_empty_specific store

theorem analyzePatternsFor_degraded_witness :
    (∃ e, failingStore.getFrequencyByDay = .error e) ∧
    analyzePatternsFor "this_week" (some "Delfin") noonOfDayTwelve failingStore
        rejectingAnimalStore = degradedAnalysis ∧
    analyzePatternsFor "this_week" (some "Delfin") noonOfDayTwelve emptyStore
        rejectingAnimalStore ≠ degradedAnalysis :=
  ⟨⟨_, rfl⟩,
    ((analyzePatternsFor_degraded "this_week" (some "Delfin") noonOfDayTwelve failingStore
      rejectingAnimalStore).1 (Or.inl (Or.inr (Or.inr (Or.inl ⟨_, rfl⟩))))).1,
    ((analyzePatternsFor_degraded "this_week" (some "Delfin") noonOfDayTwelve emptyStore
      rejectingAnimalStore).2 [] [] [] [] _ rfl rfl rfl rfl rfl).1⟩

/-- C24 as stated fails: when all four queries resolve with no rows (and no
symbol is given), the report is not the degraded one; its `detected` list is
empty and it carries the two charts. -/
theorem analyzePatterns_empty_window_counterexample :
    emptyStore.getPatternData = .ok (some []) ∧ emptyStore.getFrequencyByHour = .ok (some []) ∧
    emptyStore.getFrequencyByDay = .ok (some []) ∧
    emptyStore.getSequentialPatterns = .ok (some []) ∧
    (analyzePatterns emptyStore none).detected = [] ∧
    (analyzePatterns emptyStore none).charts.length = 2 ∧
    analyzePatterns emptyStore none ≠ degradedAnalysis := by
  refine ⟨rfl, rfl, rfl, rfl, by decide, by decide, by decide⟩

/-- C24 (amended). When all four queries resolve with no rows and no symbol is
given, `analyzePatterns` returns a report without failure marker: `detected`,
`insights`, `trends` and `cycles` are empty, and `charts` holds the hourly bar
chart and the weekday doughnut chart, both without labels and data. -/
theorem analyzePatterns_empty_window (store : PatternStore)
    (h1 : store.getPatternData = .ok (some []))
    (h2 : store.getFrequencyByHour = .ok (some []))
    (h3 : store.getFrequencyByDay = .ok (some []))
    (h4 : store.getSequentialPatterns = .ok (some [])) :
    analyzePatterns store none
      = { detected := [], insights := []
          charts :=
            [{ type := "bar", title := "Frecuencia por Hora del Día", labels := [], data := [] },
              { type := "doughnut", title := "Distribución por Día de la Semana", labels := [],
                data := [] }]
          trends := [], cycles := [] } := by
  obtain ⟨q1, q2, q3, q4⟩ := store
  simp only at h1 h2 h3 h4
  subst h1 h2 h3 h4
  rfl

theorem analyzePatterns_empty_window_witness :
    emptyStore.getPatternData = .ok (some []) ∧
    analyzePatterns emptyStore none
      = { detected := [], insights := []
          charts :=
            [{ type := "bar", title := "Frecuencia por Hora del Día", labels := [], data := [] },
              { type := "doughnut", title := "Distribución por Día de la Semana", labels := [],
                data := [] }]
          trends := [], cycles := [] } :=
  ⟨rfl, analyzePatterns_empty_window emptyStore rfl rfl rfl rfl⟩

/-! ### Date ranges -/

theorem getDateRange_of_unknown (now : Moment) (timeframe : String)
    (h : timeframe ∉ knownTimeframes) :
    getDateRange now timeframe = .ok { start := now.startOfWeek, end_ := now.endOfWeek } := by
  simp only [knownTimeframes, List.mem_cons, List.mem_singleton, List.not_mem_nil, or_false,
    not_or] at h
  obtain ⟨h1, h2, h3, h4, h5, h6⟩ := h
  unfold getDateRange
  split <;> first | rfl | contradiction

/-- C26 as stated fails: at noon of Tuesday 1970-01-13 the unknown window
`next_year` does not make `getDateRange` raise; it is resolved to the range from
Sunday 1970-01-11, 00:00:00.000, to Saturday 1970-01-17, 23:59:59.999. -/
theorem getDateRange_unknown_counterexample :
    "next_year" ∉ knownTimeframes ∧
    getDateRange noonOfDayTwelve "next_year"
      = .ok { start := Moment.ofDay 10, end_ := ⟨(Moment.ofDay 17).ms - 1⟩ } := by
  refine ⟨by decide, ?_⟩
  rw [getDateRange_of_unknown _ _ (by decide)]
  have h : ({ start := noonOfDayTwelve.startOfWeek, end_ := noonOfDayTwelve.endOfWeek } : DateRange)
      = { start := Moment.ofDay 10, end_ := ⟨(Moment.ofDay 17).ms - 1⟩ } := by decide
  rw [h]

/-- C26 (amended). For every timeframe value that is not one of the six
enumerated windows, `getDateRange` does not raise: it resolves the value, like
`this_week`, to the range from the start to the end of the current week. -/
theorem getDateRange_unknown (now : Moment) (timeframe : String)
    (h : timeframe ∉ knownTimeframes) :
    getDateRange now timeframe = .ok { start := now.startOfWeek, end_ := now.endOfWeek } ∧
    getDateRange now timeframe = getDateRange now "this_week" :=
  ⟨getDateRange_of_unknown now timeframe h, by rw [getDateRange_of_unknown now timeframe h]; rfl⟩

theorem getDateRange_unknown_witness :
    "" ∉ knownTimeframes ∧
    getDateRange noonOfDayTwelve ""
      = .ok { start := noonOfDayTwelve.startOfWeek, end_ := noonOfDayTwelve.endOfWeek } ∧
    getDateRange noonOfDayTwelve "" = getDateRange noonOfDayTwelve "this_week" :=
  ⟨by decide, getDateRange_unknown noonOfDayTwelve "" (by decide)⟩

/-! ### The forecast record -/

theorem length_generateRecommendations (top : List CombinedPrediction)
    (patterns : PatternAnalysis) : (generateRecommendations top patterns).length = top.length := by
  simp [generateRecommendations]

/-- The record built in the `try` block of `generatePredictions`: at most 10
entries in `next_draw`, at most 5 recommendations, the timestamp taken at the
start of the call and no property `error`. -/
theorem generatePredictionsTry_bounds (inputs : ForecastInputs) (predictions : Forecast)
    (h : generatePredictionsTry inputs = .ok predictions) :
    predictions.next_draw.length ≤ 10 ∧ predictions.recommendations.length ≤ 5 ∧
    predictions.analysis_timestamp = some inputs.timestamp ∧ predictions.error = none := by
  unfold generatePredictionsTry at h
  cases h1 : inputs.recentStats with
  | error e => rw [h1] at h; cases h
  | ok recentStats =>
    cases h2 : inputs.weeklyStats with
    | error e => rw [h1, h2] at h; cases h
    | ok weeklyStats =>
      cases h3 : inputs.sequentialPatterns with
      | error e => rw [h1, h2, h3] at h; cases h
      | ok sequentialPatterns =>
        cases h4 : inputs.catalog with
        | error e => rw [h1, h2, h3, h4] at h; cases h
        | ok animals =>
          rw [h1, h2, h3, h4] at h
          simp only [bind, Except.bind, pure, Except.pure] at h
          split at h
          · cases h
          · simp only [Except.ok.injEq] at h
            rw [← h]
            refine ⟨?_, ?_, rfl, rfl⟩
            · simp only [List.length_take]
              exact min_le_left _ _
            · rw [length_generateRecommendations]
              simp only [List.length_take]
              exact min_le_left _ _

/-- When one of the two stats queries or the query of the mined sequences is
rejected, or the catalog file fails to load, `generatePredictions` resolves with
the record of its `catch` block. -/
theorem generatePredictions_of_rejected (inputs : ForecastInputs)
    (h : (∃ e, inputs.recentStats = .error e) ∨ (∃ e, inputs.weeklyStats = .error e) ∨
      (∃ e, inputs.sequentialPatterns = .error e) ∨ (∃ e, inputs.catalog = .error e)) :
    generatePredictions inputs = failedForecast := by
  have ht : ∃ e, generatePredictionsTry inputs = .error e := by
    unfold generatePredictionsTry
    cases h1 : inputs.recentStats with
    | error e => exact ⟨e, rfl⟩
    | ok recentStats =>
      cases h2 : inputs.weeklyStats with
      | error e => exact ⟨e, rfl⟩
      | ok weeklyStats =>
        cases h3 : inputs.sequentialPatterns with
        | error e => exact ⟨e, rfl⟩
        | ok sequentialPatterns =>
          cases h4 : inputs.catalog with
          | error e => exact ⟨e, rfl⟩
          | ok animals =>
            exfalso
            rcases h with ⟨e, he⟩ | ⟨e, he⟩ | ⟨e, he⟩ | ⟨e, he⟩
            · rw [h1] at he; cases he
            · rw [h2] at he; cases he
            · rw [h3] at he; cases he
            · rw [h4] at he; cases he
  obtain ⟨e, he⟩ := ht
  unfold generatePredictions
  rw [he]

theorem calculateTrendPredictions_of_no_draws (animals : List CatalogAnimal) (today : ℤ) :
    calculateTrendPredictions animals today (fun _ => .ok []) = [] := by
  have hnone : ∀ animal : CatalogAnimal,
      trendCandidate [⟨today - (0 : ℕ), []⟩, ⟨today - (1 : ℕ), []⟩, ⟨today - (2 : ℕ), []⟩,
        ⟨today - (3 : ℕ), []⟩, ⟨today - (4 : ℕ), []⟩, ⟨today - (5 : ℕ), []⟩,
        ⟨today - (6 : ℕ), []⟩] animal = none := by
    intro animal
    have hs : calculateLinearTrend
        ((frequenciesOf [⟨today - (0 : ℕ), []⟩, ⟨today - (1 : ℕ), []⟩, ⟨today - (2 : ℕ), []⟩,
          ⟨today - (3 : ℕ), []⟩, ⟨today - (4 : ℕ), []⟩, ⟨today - (5 : ℕ), []⟩,
          ⟨today - (6 : ℕ), []⟩] animal).map fun (f : ℕ) => (f : ℚ)) = some 0 := by
      show calculateLinearTrend [((0 : ℕ) : ℚ), ((0 : ℕ) : ℚ), ((0 : ℕ) : ℚ), ((0 : ℕ) : ℚ),
        ((0 : ℕ) : ℚ), ((0 : ℕ) : ℚ), ((0 : ℕ) : ℚ)] = _
      rw [calculateLinearTrend_seven]
      norm_num
    rw [trendCandidate_of_slope _ _ 0 hs, if_neg (by norm_num)]
  have hl : last7DaysOf today (fun _ => .ok [])
      = .ok [⟨today - (0 : ℕ), []⟩, ⟨today - (1 : ℕ), []⟩, ⟨today - (2 : ℕ), []⟩,
        ⟨today - (3 : ℕ), []⟩, ⟨today - (4 : ℕ), []⟩, ⟨today - (5 : ℕ), []⟩,
        ⟨today - (6 : ℕ), []⟩] := rfl
  unfold calculateTrendPredictions
  rw [hl]
  have hf : animals.filterMap (trendCandidate [⟨today - (0 : ℕ), []⟩, ⟨today - (1 : ℕ), []⟩,
      ⟨today - (2 : ℕ), []⟩, ⟨today - (3 : ℕ), []⟩, ⟨today - (4 : ℕ), []⟩,
      ⟨today - (5 : ℕ), []⟩, ⟨today - (6 : ℕ), []⟩]) = [] := by
    rw [List.filterMap_eq_nil_iff]
    intro animal _
    exact hnone animal
  simp only [hf]
  rfl

theorem animal_of_inverseFrequencyCandidate (animals : List CatalogAnimal)
    (recentStats weeklyStats : List AnimalStat) (cand : Prediction)
    (h : cand ∈ calculateInverseFrequencyPredictions animals recentStats weeklyStats) :
    cand.animal ∈ animals.map fun a => a.name := by
  obtain ⟨animal, hmem, he⟩ := (mem_calculateInverseFrequencyPredictions _ _ _ _).1 h
  rw [inverseFrequencyCandidate_eq] at he
  split_ifs at he
  cases he
  exact List.mem_map.2 ⟨animal, hmem, rfl⟩

/-- On a history store without draws the `try` block of `generatePredictions`
completes. -/
theorem generatePredictionsTry_quietInputs :
    ∃ predictions, generatePredictionsTry quietInputs = .ok predictions := by
  have hcycles : calculateCyclicalPredictions noonOfDayTwelve
      (analyzePatterns emptyStore none).cycles = [] := by decide
  have htemporal : calculateTemporalPredictions 12 2 (.ok []) (.ok []) = [] := by decide
  have hseq : (calculateSequentialPredictions []).settled (.ok []) = [] := by decide
  have hc : ∀ ar ∈ ([
        { weight := 1 / 4, results := calculateInverseFrequencyPredictions smallCatalog [] [] },
        { results := [], weight := 1 / 5 }, { results := [], weight := 3 / 20 },
        { results := [], weight := 1 / 4 }, { results := [], weight := 3 / 20 }] :
        List AlgorithmResult),
      ∀ p ∈ ar.results, p.animal ∉ objectPrototypeKeys := by
    intro ar har p hp
    simp only [List.mem_cons, List.mem_singleton, List.not_mem_nil, or_false] at har
    rcases har with rfl | rfl | rfl | rfl | rfl
    · have hm := animal_of_inverseFrequencyCandidate smallCatalog [] [] p hp
      simp only [smallCatalog, List.map_cons, List.map_nil, List.mem_cons, List.mem_singleton,
        List.not_mem_nil, or_false] at hm
      rcases hm with hm | hm | hm <;> rw [hm] <;> decide
    · cases hp
    · cases hp
    · cases hp
    · cases hp
  unfold generatePredictionsTry
  simp only [quietInputs, bind, Except.bind, pure, Except.pure, hcycles, htemporal, hseq,
    calculateTrendPredictions_of_no_draws]
  rw [combineAlgorithmResults64_eq _ hc]
  exact ⟨_, rfl⟩

/-- C25, the code at the failing input: when the history store rejects every
query, `generatePredictions` resolves with the record of its `catch` block, which
has the property `error` and no `analysis_timestamp`. The record built in the
`try` block, here for a history store without draws, has the timestamp. -/
theorem generatePredictions_offline :
    (∃ e, offlineInputs.recentStats = .error e) ∧
    generatePredictions offlineInputs
      = { next_draw := [], recommendations := [], trend := "No disponible",
          model_confidence := 0, analysis_timestamp := none,
          error := some "Error generando predicciones" } ∧
    (generatePredictions offlineInputs).analysis_timestamp = none ∧
    (generatePredictions quietInputs).analysis_timestamp
      = some "1970-01-13T12:00:00.000Z" := by
  refine ⟨⟨_, rfl⟩, rfl, rfl, ?_⟩
  obtain ⟨predictions, hp⟩ := generatePredictionsTry_quietInputs
  have hb := generatePredictionsTry_bounds quietInputs predictions hp
  unfold generatePredictions
  rw [hp]
  exact hb.2.2.1
end Guacharo
